import Mathlib

/-!
# Amazon EFA node-exporter collector: counter discovery and ingestion

A shallow embedding of

* `4.validation_and_observability/3.efa-node-exporter/class_amazon_efa.go`
  (namespace `Observability`: the full counter set),
* `4.validation_scripts/3.efa-node-exporter/class_amazon_efa.go`
  (namespace `Scripts`: the reduced counter set),
* `4.validation_scripts/3.efa-node-exporter/amazon_efa_linux.go`
  (namespace `Scripts`: the collector and its `Update`),

together with the parts of the Go standard library they call
(`strconv.ParseUint`, `strconv.FormatUint`, `strconv.Quote`,
`strings.Contains`, `errors.Is`, `os.IsNotExist`, `os.IsPermission`) and the
conversion `float64` of a `uint64`.

Conventions.  A Go string is the Lean `String` of the text it encodes (the
names and files under sysfs hold ASCII).  Unsigned 64-bit arithmetic is
arithmetic on `Nat` with an explicit `% 2 ^ 64`; a float64 that is a whole
number is the `Nat` it equals.  A Go function returning
`(T, error)` returns `Except GoError T`, or a pair when both results are used.
The file system and the functions of other packages are fields of the record
`FS`.  A Go map is an association list with unique keys; `range` visits it in
list order, which is one of the orders Go may choose.
-/

/-! ## Go errors -/

deriving instance DecidableEq for Except

/-- Value of type `syscall.Errno`: the number of a failed system call. -/
structure Errno where
  code : Nat
deriving DecidableEq, Repr

namespace syscall

def EPERM : Errno := ⟨1⟩
def ENOENT : Errno := ⟨2⟩
def EIO : Errno := ⟨5⟩
def EAGAIN : Errno := ⟨11⟩
def EACCES : Errno := ⟨13⟩
def ENOTDIR : Errno := ⟨20⟩
def EINVAL : Errno := ⟨22⟩
def EOPNOTSUPP : Errno := ⟨95⟩

end syscall

/-- The error values compared by identity (`errors.New` at package level):
`os.ErrNotExist`, `os.ErrPermission`, `strconv.ErrSyntax`, `strconv.ErrRange`
and the collector package's `ErrNoData`. -/
inductive Sentinel where
  | ErrNotExist
  | ErrPermission
  | ErrSyntax
  | ErrRange
  | ErrNoData
deriving DecidableEq, Repr

/-- The Go error values that occur in the program.

* `errno e`: a bare `syscall.Errno` (what `syscall.Read` returns);
* `pathError op path err`: a `*fs.PathError` (what `os.Open`, `ioutil.ReadDir`
  and `ioutil.ReadFile` return);
* `numError fn num err`: a `*strconv.NumError`;
* `wrap msg err`: `fmt.Errorf(".. %w", .., err)`, `msg` being the text before
  the wrapped error;
* `plain msg`: `fmt.Errorf` without `%w`, or a local `errors.New`;
* `sentinel s`: one of the package-level error values. -/
inductive GoError where
  | errno (e : Errno)
  | pathError (op path : String) (err : GoError)
  | numError (fn num : String) (err : GoError)
  | wrap (msg : String) (err : GoError)
  | plain (msg : String)
  | sentinel (s : Sentinel)
deriving DecidableEq, Repr

/-- The package-level value `ErrNoData` of the collector package. -/
def ErrNoData : GoError := .sentinel .ErrNoData

/-- Method `(e Errno) Is(target error) bool` of package syscall, for the two
targets used here. -/
def Errno.Is (e : Errno) (target : Sentinel) : Bool :=
  match target with
  | .ErrPermission => e == syscall.EACCES || e == syscall.EPERM
  | .ErrNotExist => e == syscall.ENOENT
  | _ => false

namespace errors

/-- Function `errors.Is(err, target)` for a sentinel target: walks the chain of
wrapped errors; an `Errno` answers through its `Is` method. -/
def Is : GoError → Sentinel → Bool
  | .errno e, target => e.Is target
  | .pathError _ _ err, target => Is err target
  | .numError _ _ err, target => Is err target
  | .wrap _ err, target => Is err target
  | .plain _, _ => false
  | .sentinel s, target => s == target

end errors

namespace os

/-- Function `underlyingError` of package os: strips one `*PathError`. -/
def underlyingError : GoError → GoError
  | .pathError _ _ err => err
  | err => err

/-- Function `os.IsNotExist(err)`. -/
def IsNotExist (err : GoError) : Bool :=
  match underlyingError err with
  | .sentinel .ErrNotExist => true
  | .errno e => e.Is .ErrNotExist
  | _ => false

/-- Function `os.IsPermission(err)`. -/
def IsPermission (err : GoError) : Bool :=
  match underlyingError err with
  | .sentinel .ErrPermission => true
  | .errno e => e.Is .ErrPermission
  | _ => false

end os

/-! ## Package strconv -/

namespace strconv

/-- Digits used by `FormatUint`. -/
def digits : List Char := "0123456789abcdefghijklmnopqrstuvwxyz".data

/-- Loop of `formatBits`: the digits of `u` in `base`, most significant first,
put in front of `acc`.  `fuel` bounds the number of digits. -/
def formatBits : Nat → Nat → Nat → List Char → List Char
  | 0, _, _, acc => acc
  | fuel + 1, u, base, acc =>
    if u < base then digits.getD u '0' :: acc
    else formatBits fuel (u / base) base (digits.getD (u % base) '0' :: acc)

/-- Function `strconv.FormatUint(i, base)` for a 64-bit `i` and `2 ≤ base`. -/
def FormatUint (i base : Nat) : String :=
  String.mk (formatBits 64 i base [])

/-- Constant `lowerhex`. -/
def lowerhex : List Char := "0123456789abcdef".data

/-- Function `strconv.IsPrint` up to U+00FF, as in the source of the library.
Above U+00FF the library searches tables drawn from the Unicode database;
they are not reproduced here and such a code point counts as printable.  No
statement below is about the quoted form of a text outside printable ASCII. -/
def IsPrint (r : Nat) : Bool :=
  if r ≤ 0xFF then
    if 0x20 ≤ r ∧ r < 0x7F then true
    else if 0xA1 ≤ r then r != 0xAD
    else false
  else true

/-- The letters of the short escapes: bell, backspace, form feed, newline,
carriage return, tab, vertical tab. -/
def escapeLetters : List (Nat × Char) :=
  [(7, 'a'), (8, 'b'), (12, 'f'), (10, 'n'), (13, 'r'), (9, 't'), (11, 'v')]

/-- The hexadecimal digits of `r` at the bit offsets `shifts`. -/
def hexAt (r : Nat) (shifts : List Nat) : List Char :=
  shifts.map (fun s => lowerhex.getD (r / 2 ^ s % 16) '0')

/-- Function `appendEscapedRune(buf, r, quote, ASCIIonly, graphicOnly)` for the
double quote, `ASCIIonly` and `graphicOnly` false: what a character of the
text becomes between the quotes. -/
def appendEscapedRune (c : Char) : List Char :=
  if c = Char.ofNat 34 ∨ c = Char.ofNat 92 then [Char.ofNat 92, c]
  else if IsPrint c.toNat = true then [c]
  else
    match escapeLetters.lookup c.toNat with
    | some letter => [Char.ofNat 92, letter]
    | none =>
      if c.toNat < 0x20 ∨ c.toNat = 0x7F then Char.ofNat 92 :: 'x' :: hexAt c.toNat [4, 0]
      else if c.toNat < 0x10000 then Char.ofNat 92 :: 'u' :: hexAt c.toNat [12, 8, 4, 0]
      else Char.ofNat 92 :: 'U' :: hexAt c.toNat [28, 24, 20, 16, 12, 8, 4, 0]

/-- Function `strconv.Quote` (the verb `%q` on a string): the text between
double quotes, with the double quote, the backslash and the characters that
are not printable escaped. -/
def Quote (s : String) : String :=
  String.mk (Char.ofNat 34 :: (s.data.flatMap appendEscapedRune ++ [Char.ofNat 34]))

/-- A text of printable ASCII without double quote and backslash: `Quote`
escapes none of its characters. -/
def PlainText (s : String) : Prop :=
  ∀ c ∈ s.data, 0x20 ≤ c.toNat ∧ c.toNat < 0x7F ∧ c.toNat ≠ 34 ∧ c.toNat ≠ 92

instance (s : String) : Decidable (PlainText s) := by
  unfold PlainText
  exact inferInstance

/-- Function `lower(c)`: `c | (x - X)`, on the byte's number. -/
def lower (c : Nat) : Nat := c ||| 0x20

/-- Function `underscoreOK`, the loop over the number proper; `i` is the
previous character class (`^`, `0`, `_` or `!`). -/
def underscoreOKLoop (hex : Bool) : List Char → Char → Bool
  | [], i => i != '_'
  | c :: s, i =>
    if ('0'.toNat ≤ c.toNat ∧ c.toNat ≤ '9'.toNat) ∨
        (hex = true ∧ 'a'.toNat ≤ lower c.toNat ∧ lower c.toNat ≤ 'f'.toNat) then
      underscoreOKLoop hex s '0'
    else if c = '_' then
      if i != '0' then false else underscoreOKLoop hex s '_'
    else if i = '_' then false
    else underscoreOKLoop hex s '!'

/-- Function `underscoreOK(s)`: underscores must separate digits. -/
def underscoreOK (s : List Char) : Bool :=
  let s := if 1 ≤ s.length ∧ (s.head? = some '-' ∨ s.head? = some '+') then s.drop 1 else s
  if 2 ≤ s.length ∧ s.head? = some '0' ∧
      (lower (s.getD 1 '0').toNat = 'b'.toNat ∨ lower (s.getD 1 '0').toNat = 'o'.toNat ∨
        lower (s.getD 1 '0').toNat = 'x'.toNat) then
    underscoreOKLoop (lower (s.getD 1 '0').toNat == 'x'.toNat) (s.drop 2) '0'
  else
    underscoreOKLoop false s '^'

def maxUint64 : Nat := 2 ^ 64 - 1

/-- The digit loop of `ParseUint`: state `n` and the flag `underscores`; the
error is `ErrSyntax` or `ErrRange`. -/
def parseUintLoop (base : Nat) (base0 : Bool) (cutoff maxVal : Nat) :
    List Char → Nat → Bool → Except Sentinel (Nat × Bool)
  | [], n, underscores => .ok (n, underscores)
  | c :: s, n, underscores =>
    if c = '_' ∧ base0 = true then parseUintLoop base base0 cutoff maxVal s n true
    else
      let d? : Option Nat :=
        if '0'.toNat ≤ c.toNat ∧ c.toNat ≤ '9'.toNat then some (c.toNat - '0'.toNat)
        else if 'a'.toNat ≤ lower c.toNat ∧ lower c.toNat ≤ 'z'.toNat then
          some (lower c.toNat - 'a'.toNat + 10)
        else none
      match d? with
      | none => .error .ErrSyntax
      | some d =>
        if d ≥ base then .error .ErrSyntax
        else if n ≥ cutoff then .error .ErrRange
        else
          let n := (n * base) % 2 ^ 64
          let n1 := (n + d) % 2 ^ 64
          if n1 < n ∨ n1 > maxVal then .error .ErrRange
          else parseUintLoop base base0 cutoff maxVal s n1 underscores

/-- The prefix switch of `ParseUint` for `base == 0`: the true base and the
text after the prefix. -/
def basePrefix (s : List Char) : Nat × List Char :=
  if s.head? = some '0' then
    if 3 ≤ s.length ∧ lower (s.getD 1 '0').toNat = 'b'.toNat then (2, s.drop 2)
    else if 3 ≤ s.length ∧ lower (s.getD 1 '0').toNat = 'o'.toNat then (8, s.drop 2)
    else if 3 ≤ s.length ∧ lower (s.getD 1 '0').toNat = 'x'.toNat then (16, s.drop 2)
    else (8, s.drop 1)
  else (10, s)

/-- Function `strconv.ParseUint(s, base, bitSize)`.  On failure Go returns a
number next to the error (0 or the largest value); the callers here drop it,
so the model returns the error alone. -/
def ParseUint (s : String) (base bitSize : Nat) : Except GoError Nat :=
  if s = "" then .error (.numError "ParseUint" s (.sentinel .ErrSyntax))
  else
    let base0 := base == 0
    if ¬ ((2 ≤ base ∧ base ≤ 36) ∨ base = 0) then
      .error (.numError "ParseUint" s (.plain ("invalid base " ++ FormatUint base 10)))
    else
      let bs : Nat × List Char := if base = 0 then basePrefix s.data else (base, s.data)
      let bitSize := if bitSize = 0 then 64 else bitSize
      if bitSize > 64 then
        .error (.numError "ParseUint" s (.plain ("invalid bit size " ++ FormatUint bitSize 10)))
      else
        let cutoff := maxUint64 / bs.1 + 1
        let maxVal := ((1 <<< bitSize) % 2 ^ 64 + 2 ^ 64 - 1) % 2 ^ 64
        match parseUintLoop bs.1 base0 cutoff maxVal bs.2 0 false with
        | .error e => .error (.numError "ParseUint" s (.sentinel e))
        | .ok (n, underscores) =>
          if underscores = true ∧ underscoreOK s.data = false then
            .error (.numError "ParseUint" s (.sentinel .ErrSyntax))
          else .ok n

end strconv

namespace syscall

/-- Method `(e Errno) Error()`: the message table of package syscall, cut down
to the numbers named above; another number prints as `errno N` (Go has a
message for most of them, none equal to one of the messages below). -/
def errorString (e : Errno) : String :=
  if e = EPERM then "operation not permitted"
  else if e = ENOENT then "no such file or directory"
  else if e = EIO then "input/output error"
  else if e = EAGAIN then "resource temporarily unavailable"
  else if e = EACCES then "permission denied"
  else if e = ENOTDIR then "not a directory"
  else if e = EINVAL then "invalid argument"
  else if e = EOPNOTSUPP then "operation not supported"
  else "errno " ++ strconv.FormatUint e.code 10

end syscall

/-- Method `Error()` of the package-level error values. -/
def Sentinel.Error : Sentinel → String
  | .ErrNotExist => "file does not exist"
  | .ErrPermission => "permission denied"
  | .ErrSyntax => "invalid syntax"
  | .ErrRange => "value out of range"
  | .ErrNoData => "collector returned no data"

/-- Method `Error()`: the message of an error. -/
def GoError.Error : GoError → String
  | .errno e => syscall.errorString e
  | .pathError op path err => op ++ " " ++ path ++ ": " ++ err.Error
  | .numError fn num err => "strconv." ++ fn ++ ": parsing " ++ strconv.Quote num ++ ": " ++ err.Error
  | .wrap msg err => msg ++ err.Error
  | .plain msg => msg
  | .sentinel s => s.Error

/-! ## Package strings and path/filepath -/

namespace strings

/-- Whether `substr` occurs in `s` at some position. -/
def containsList : List Char → List Char → Bool
  | [], substr => substr.isEmpty
  | c :: s, substr => substr.isPrefixOf (c :: s) || containsList s substr

/-- Function `strings.Contains(s, substr)`. -/
def Contains (s substr : String) : Bool := containsList s.data substr.data

end strings

namespace filepath

/-- Function `filepath.Join(elem...)`: the non-empty elements separated by a
slash.  The final `Clean` is not modelled; the paths are only handed back to
the file system and put in error messages. -/
def Join (elem : List String) : String :=
  "/".intercalate (elem.filter (fun e => e ≠ ""))

end filepath

/-! ## The host: file system and functions of other packages -/

/-- What the program reads of an `os.FileInfo`: `Name()` and
`Mode().IsRegular()`. -/
structure FileInfo where
  Name : String
  IsRegular : Bool
deriving DecidableEq, Repr

/-- The receiver `fs FS` of package sysfs with what lies behind it.

* `sys`: the mount point (`fs.sys`);
* `ReadDir`: `ioutil.ReadDir(path)`;
* `ReadFile`: `ioutil.ReadFile(path)`, as a string;
* `SysReadFile`: `util.SysReadFile(path)` of `prometheus/procfs/internal/util`,
  the bounded reader: the text of the file as one read of 128 bytes delivers
  it, white space trimmed, or the error of the failed open or read;
* `parseState`, `parseRate`: the functions of that name of package sysfs
  (`class_infiniband.go` of `prometheus/procfs`), called by
  `parseAmazonEfaPort`; `parseState` returns the id and the name. -/
structure FS where
  sys : String
  ReadDir : String → Except GoError (List FileInfo)
  ReadFile : String → Except GoError String
  SysReadFile : String → Except GoError String
  parseState : String → Except GoError (Nat × String)
  parseRate : String → Except GoError Nat

/-- Method `fs.sys.Path(p...)`: `filepath.Join` of the mount point and `p`. -/
def FS.Path (fs : FS) (p : List String) : String :=
  filepath.Join (fs.sys :: p)

/-- The file system `fs` with the listing of directory `path` replaced. -/
def FS.withDir (fs : FS) (path : String) (files : List FileInfo) : FS :=
  { fs with ReadDir := fun p => if p = path then .ok files else fs.ReadDir p }

/-- Constant `AmazonEfaPath`. -/
def AmazonEfaPath : String := "class/infiniband"

/-- The text that marks a counter as not available. -/
def noPMA : String := "N/A (no PMA)"

/-- Function `parseUInt64(value)` (the same in both files): base 0, 64 bits.
The pair is Go's `(*uint64, error)`: `(nil, err)` or `(&v, nil)`. -/
def parseUInt64 (value : String) : Option Nat × Option GoError :=
  match strconv.ParseUint value 0 64 with
  | .error err => (none, some err)
  | .ok v => (some v, none)

/-- The `if` on the error of `util.SysReadFile` in `parseAmazonEfaCounters`
(the same in both files): the failures after which the file is skipped. -/
def skipReadError (err : GoError) : Bool :=
  os.IsNotExist err || os.IsPermission err || err.Error == "operation not supported" ||
    err.Error == "invalid argument"

/-! ## The full counter set: 4.validation_and_observability -/

namespace Observability

/-- Struct `AmazonEfaCounters`: a nil pointer is `none`. -/
structure AmazonEfaCounters where
  AllocPdErr : Option Nat := none
  AllocUcontextErr : Option Nat := none
  CmdsErr : Option Nat := none
  CompletedCmds : Option Nat := none
  CreateAhErr : Option Nat := none
  CreateCqErr : Option Nat := none
  CreateQpErr : Option Nat := none
  KeepAliveRcvd : Option Nat := none
  ImpairedRemoteConnEvents : Option Nat := none
  Lifespan : Option Nat := none
  MmapErr : Option Nat := none
  NoCompletionCmds : Option Nat := none
  RdmaReadBytes : Option Nat := none
  RdmaReadRespBytes : Option Nat := none
  RdmaReadWrErr : Option Nat := none
  RdmaReadWrs : Option Nat := none
  RdmaWriteBytes : Option Nat := none
  RdmaWriteRecvBytes : Option Nat := none
  RdmaWriteWrErr : Option Nat := none
  RdmaWriteWrs : Option Nat := none
  RecvBytes : Option Nat := none
  RecvWrs : Option Nat := none
  RegMrErr : Option Nat := none
  RetransBytes : Option Nat := none
  RetransPkts : Option Nat := none
  RetransTimeoutEvents : Option Nat := none
  RxBytes : Option Nat := none
  RxDrops : Option Nat := none
  RxPkts : Option Nat := none
  SendBytes : Option Nat := none
  SendWrs : Option Nat := none
  SubmittedCmds : Option Nat := none
  TxBytes : Option Nat := none
  TxPkts : Option Nat := none
  UnresponsiveRemoteEvents : Option Nat := none
deriving DecidableEq, Repr

/-- The `switch f.Name()` of `parseAmazonEfaCounters`: the counter set after the
assignment of the matching case, and the value of `err` after the switch (nil
when no case matches, since the read succeeded). -/
def counterSwitch (counters : AmazonEfaCounters) (name value : String) :
    AmazonEfaCounters × Option GoError :=
  match name with
  | "alloc_pd_err" => ({ counters with AllocPdErr := (parseUInt64 value).1 }, (parseUInt64 value).2)
  | "alloc_ucontext_err" => ({ counters with AllocUcontextErr := (parseUInt64 value).1 }, (parseUInt64 value).2)
  | "cmds_err" => ({ counters with CmdsErr := (parseUInt64 value).1 }, (parseUInt64 value).2)
  | "completed_cmds" => ({ counters with CompletedCmds := (parseUInt64 value).1 }, (parseUInt64 value).2)
  | "create_ah_err" => ({ counters with CreateAhErr := (parseUInt64 value).1 }, (parseUInt64 value).2)
  | "create_cq_err" => ({ counters with CreateCqErr := (parseUInt64 value).1 }, (parseUInt64 value).2)
  | "create_qp_err" => ({ counters with CreateQpErr := (parseUInt64 value).1 }, (parseUInt64 value).2)
  | "impaired_remote_conn_events" => ({ counters with ImpairedRemoteConnEvents := (parseUInt64 value).1 }, (parseUInt64 value).2)
  | "keep_alive_rcvd" => ({ counters with KeepAliveRcvd := (parseUInt64 value).1 }, (parseUInt64 value).2)
  | "lifespan" => ({ counters with Lifespan := (parseUInt64 value).1 }, (parseUInt64 value).2)
  | "mmap_err" => ({ counters with MmapErr := (parseUInt64 value).1 }, (parseUInt64 value).2)
  | "no_completion_cmds" => ({ counters with NoCompletionCmds := (parseUInt64 value).1 }, (parseUInt64 value).2)
  | "rdma_read_bytes" => ({ counters with RdmaReadBytes := (parseUInt64 value).1 }, (parseUInt64 value).2)
  | "rdma_read_resp_bytes" => ({ counters with RdmaReadRespBytes := (parseUInt64 value).1 }, (parseUInt64 value).2)
  | "rdma_read_wr_err" => ({ counters with RdmaReadWrErr := (parseUInt64 value).1 }, (parseUInt64 value).2)
  | "rdma_read_wrs" => ({ counters with RdmaReadWrs := (parseUInt64 value).1 }, (parseUInt64 value).2)
  | "rdma_write_bytes" => ({ counters with RdmaWriteBytes := (parseUInt64 value).1 }, (parseUInt64 value).2)
  | "rdma_write_recv_bytes" => ({ counters with RdmaWriteRecvBytes := (parseUInt64 value).1 }, (parseUInt64 value).2)
  | "rdma_write_wr_err" => ({ counters with RdmaWriteWrErr := (parseUInt64 value).1 }, (parseUInt64 value).2)
  | "rdma_write_wrs" => ({ counters with RdmaWriteWrs := (parseUInt64 value).1 }, (parseUInt64 value).2)
  | "recv_bytes" => ({ counters with RecvBytes := (parseUInt64 value).1 }, (parseUInt64 value).2)
  | "recv_wrs" => ({ counters with RecvWrs := (parseUInt64 value).1 }, (parseUInt64 value).2)
  | "reg_mr_err" => ({ counters with RegMrErr := (parseUInt64 value).1 }, (parseUInt64 value).2)
  | "retrans_bytes" => ({ counters with RetransBytes := (parseUInt64 value).1 }, (parseUInt64 value).2)
  | "retrans_pkts" => ({ counters with RetransPkts := (parseUInt64 value).1 }, (parseUInt64 value).2)
  | "retrans_timeout_events" => ({ counters with RetransTimeoutEvents := (parseUInt64 value).1 }, (parseUInt64 value).2)
  | "rx_bytes" => ({ counters with RxBytes := (parseUInt64 value).1 }, (parseUInt64 value).2)
  | "rx_drops" => ({ counters with RxDrops := (parseUInt64 value).1 }, (parseUInt64 value).2)
  | "rx_pkts" => ({ counters with RxPkts := (parseUInt64 value).1 }, (parseUInt64 value).2)
  | "send_bytes" => ({ counters with SendBytes := (parseUInt64 value).1 }, (parseUInt64 value).2)
  | "send_wrs" => ({ counters with SendWrs := (parseUInt64 value).1 }, (parseUInt64 value).2)
  | "submitted_cmds" => ({ counters with SubmittedCmds := (parseUInt64 value).1 }, (parseUInt64 value).2)
  | "tx_bytes" => ({ counters with TxBytes := (parseUInt64 value).1 }, (parseUInt64 value).2)
  | "tx_pkts" => ({ counters with TxPkts := (parseUInt64 value).1 }, (parseUInt64 value).2)
  | "unresponsive_remote_events" => ({ counters with UnresponsiveRemoteEvents := (parseUInt64 value).1 }, (parseUInt64 value).2)
  | _ => (counters, none)

/-- The loop `for _, f := range files` of `parseAmazonEfaCounters`, from the
counter set built so far; `path` is the hw_counters directory. -/
def countersLoop (fs : FS) (path : String) :
    List FileInfo → AmazonEfaCounters → Except GoError AmazonEfaCounters
  | [], counters => .ok counters
  | f :: files, counters =>
    if f.IsRegular = false then countersLoop fs path files counters
    else
      match fs.SysReadFile (filepath.Join [path, f.Name]) with
      | .error err =>
        if skipReadError err = true then countersLoop fs path files counters
        else .error (.wrap ("failed to read file " ++ strconv.Quote (filepath.Join [path, f.Name]) ++ ": ") err)
      | .ok value =>
        match counterSwitch counters f.Name value with
        | (counters, some err) =>
          if strings.Contains value noPMA = true then countersLoop fs path files counters
          else .error (.wrap ("failed to parse counter " ++ f.Name ++ " with value " ++ strconv.Quote value ++ ": ") err)
        | (counters, none) => countersLoop fs path files counters

/-- Function `parseAmazonEfaCounters(portPath)`. -/
def parseAmazonEfaCounters (fs : FS) (portPath : String) : Except GoError AmazonEfaCounters :=
  match fs.ReadDir (filepath.Join [portPath, "hw_counters"]) with
  | .error err => .error err
  | .ok files => countersLoop fs (filepath.Join [portPath, "hw_counters"]) files {}

end Observability

/-! ## Devices and ports: the enumeration shared by both files

The types `AmazonEfaPort`, `AmazonEfaDevice`, `AmazonEfaClass` and the
functions `AmazonEfaClass`, `parseAmazonEfaDevice`, `parseAmazonEfaPort` are the
same text in both `class_amazon_efa.go` files.  They are written once, over the
counter set `κ` and the function `parseCounters` (`parseAmazonEfaCounters`) of
the file at hand. -/

/-- Assignment `m[k] = v` on a Go map: replaces the entry of `k`, or adds one. -/
def mapInsert {α β : Type} [DecidableEq α] : List (α × β) → α → β → List (α × β)
  | [], k, v => [(k, v)]
  | (k0, v0) :: m, k, v => if k0 = k then (k, v) :: m else (k0, v0) :: mapInsert m k v

/-- Struct `AmazonEfaPort`. -/
structure AmazonEfaPort (κ : Type) where
  Name : String
  Port : Nat
  State : String
  StateID : Nat
  PhysState : String
  PhysStateID : Nat
  Rate : Nat
  Counters : κ
deriving DecidableEq, Repr

/-- Struct `AmazonEfaDevice`; `Ports` is the map from port number to port. -/
structure AmazonEfaDevice (κ : Type) where
  Name : String
  Ports : List (Nat × AmazonEfaPort κ)
deriving DecidableEq, Repr

/-- Type `AmazonEfaClass`: the map from device name to device. -/
abbrev AmazonEfaClass (κ : Type) : Type := List (String × AmazonEfaDevice κ)

/-- Method `parseAmazonEfaPort(name, port)`.  The variable `name` is assigned
the state name by `id, name, err := parseState(..)` only after `ibp` and
`portPath` were built from the device name. -/
def parseAmazonEfaPort {κ : Type} (parseCounters : FS → String → Except GoError κ) (fs : FS)
    (name port : String) : Except GoError (AmazonEfaPort κ) :=
  match strconv.ParseUint port 10 32 with
  | .error _ => .error (.plain ("failed to convert " ++ port ++ " into uint"))
  | .ok portNumber =>
    match fs.ReadFile (filepath.Join [fs.Path [AmazonEfaPath, name, "ports", port], "state"]) with
    | .error err => .error err
    | .ok content =>
      match fs.parseState content with
      | .error err =>
        .error (.wrap ("could not parse state file in " ++
          strconv.Quote (fs.Path [AmazonEfaPath, name, "ports", port]) ++ ": ") err)
      | .ok (stateID, state) =>
        match fs.ReadFile (filepath.Join [fs.Path [AmazonEfaPath, name, "ports", port], "phys_state"]) with
        | .error err => .error err
        | .ok content =>
          match fs.parseState content with
          | .error err =>
            .error (.wrap ("could not parse phys_state file in " ++
              strconv.Quote (fs.Path [AmazonEfaPath, name, "ports", port]) ++ ": ") err)
          | .ok (physStateID, physState) =>
            match fs.ReadFile (filepath.Join [fs.Path [AmazonEfaPath, name, "ports", port], "rate"]) with
            | .error err => .error err
            | .ok content =>
              match fs.parseRate content with
              | .error err =>
                .error (.wrap ("could not parse rate file in " ++
                  strconv.Quote (fs.Path [AmazonEfaPath, name, "ports", port]) ++ ": ") err)
              | .ok rate =>
                match parseCounters fs (fs.Path [AmazonEfaPath, name, "ports", port]) with
                | .error err => .error err
                | .ok counters =>
                  .ok { Name := name, Port := portNumber, State := state, StateID := stateID,
                        PhysState := physState, PhysStateID := physStateID, Rate := rate,
                        Counters := counters }

/-- The loop `for _, d := range ports` of `parseAmazonEfaDevice`. -/
def portsLoop {κ : Type} (parseCounters : FS → String → Except GoError κ) (fs : FS)
    (name : String) :
    List FileInfo → List (Nat × AmazonEfaPort κ) → Except GoError (List (Nat × AmazonEfaPort κ))
  | [], ports => .ok ports
  | d :: ds, ports =>
    match parseAmazonEfaPort parseCounters fs name d.Name with
    | .error err => .error err
    | .ok port => portsLoop parseCounters fs name ds (mapInsert ports port.Port port)

/-- Method `parseAmazonEfaDevice(name)`. -/
def parseAmazonEfaDevice {κ : Type} (parseCounters : FS → String → Except GoError κ) (fs : FS)
    (name : String) : Except GoError (AmazonEfaDevice κ) :=
  match fs.ReadDir (filepath.Join [fs.Path [AmazonEfaPath, name], "ports"]) with
  | .error err =>
    .error (.wrap ("failed to list AmazonEfa ports at " ++
      strconv.Quote (filepath.Join [fs.Path [AmazonEfaPath, name], "ports"]) ++ ": ") err)
  | .ok ports =>
    match portsLoop parseCounters fs name ports [] with
    | .error err => .error err
    | .ok m => .ok { Name := name, Ports := m }

/-- The loop `for _, d := range dirs` of `AmazonEfaClass`. -/
def devicesLoop {κ : Type} (parseCounters : FS → String → Except GoError κ) (fs : FS) :
    List FileInfo → AmazonEfaClass κ → Except GoError (AmazonEfaClass κ)
  | [], ibc => .ok ibc
  | d :: ds, ibc =>
    match parseAmazonEfaDevice parseCounters fs d.Name with
    | .error err => .error err
    | .ok device => devicesLoop parseCounters fs ds (mapInsert ibc device.Name device)

/-- Method `(fs FS) AmazonEfaClass()`. -/
def FS.AmazonEfaClass {κ : Type} (parseCounters : FS → String → Except GoError κ) (fs : FS) :
    Except GoError (AmazonEfaClass κ) :=
  match fs.ReadDir (fs.Path [AmazonEfaPath]) with
  | .error err => .error err
  | .ok dirs => devicesLoop parseCounters fs dirs []

/-! ## The conversion float64 of a uint64 -/

/-- The number of low bits that do not fit the 53-bit significand of a float64:
halvings until the number is below 2^53.  `fuel` bounds them, 11 for 64 bits. -/
def float64Shift : Nat → Nat → Nat
  | 0, _ => 0
  | fuel + 1, v => if v < 2 ^ 53 then 0 else float64Shift fuel (v / 2) + 1

/-- Conversion `float64(value)` of a `uint64`: the nearest number with a 53-bit
significand, a tie going to the even significand.  The result is a whole
number, at most 2^64. -/
def float64 (value : Nat) : Nat :=
  if 2 ^ float64Shift 11 value < 2 * (value % 2 ^ float64Shift 11 value) ∨
      (2 * (value % 2 ^ float64Shift 11 value) = 2 ^ float64Shift 11 value ∧
        value / 2 ^ float64Shift 11 value % 2 = 1) then
    (value / 2 ^ float64Shift 11 value + 1) * 2 ^ float64Shift 11 value
  else value / 2 ^ float64Shift 11 value * 2 ^ float64Shift 11 value

/-! ## Package prometheus: descriptors and metrics -/

namespace prometheus

/-- Type `prometheus.ValueType`. -/
inductive ValueType where
  | CounterValue
  | GaugeValue
  | UntypedValue
deriving DecidableEq, Repr

/-- What `prometheus.NewDesc(fqName, help, variableLabels, nil)` records. -/
structure Desc where
  fqName : String
  help : String
  variableLabels : List String
deriving DecidableEq, Repr

/-- Function `prometheus.BuildFQName`. -/
def BuildFQName (namespaceName subsystem name : String) : String :=
  if name = "" then ""
  else if namespaceName ≠ "" ∧ subsystem ≠ "" then "_".intercalate [namespaceName, subsystem, name]
  else if namespaceName ≠ "" then "_".intercalate [namespaceName, name]
  else if subsystem ≠ "" then "_".intercalate [subsystem, name]
  else name

/-- What `prometheus.MustNewConstMetric(desc, valueType, value, labelValues...)`
sends: `desc` is the pointer handed in (`none` for nil).  `value` is the
float64 handed in; the values sent here are whole numbers and are given as
such.  The checks of `NewDesc` and
`MustNewConstMetric` on the name and on the number of label values are not
modelled; the names and labels used here pass them for a namespace that is a
valid name, such as the collector package's `node`. -/
structure Metric where
  desc : Option Desc
  valueType : ValueType
  value : Nat
  labelValues : List String
deriving DecidableEq, Repr

end prometheus

/-! ## The reduced counter set and the collector: 4.validation_scripts -/

namespace Scripts

open prometheus

/-- Struct `AmazonEfaCounters`: a nil pointer is `none`. -/
structure AmazonEfaCounters where
  AllocPdErr : Option Nat := none
  AllocUcontextErr : Option Nat := none
  CmdsErr : Option Nat := none
  CompletedCmds : Option Nat := none
  CreateAhErr : Option Nat := none
  CreateCqErr : Option Nat := none
  CreateQpErr : Option Nat := none
  KeepAliveRcvd : Option Nat := none
  Lifespan : Option Nat := none
  MmapErr : Option Nat := none
  NoCompletionCmds : Option Nat := none
  RdmaReadBytes : Option Nat := none
  RdmaReadRespBytes : Option Nat := none
  RdmaReadWrErr : Option Nat := none
  RdmaReadWrs : Option Nat := none
  RdmaWriteBytes : Option Nat := none
  RdmaWriteRecvBytes : Option Nat := none
  RdmaWriteWrErr : Option Nat := none
  RdmaWritedWrs : Option Nat := none
  RecvBytes : Option Nat := none
  RecvWrs : Option Nat := none
  RegMrErr : Option Nat := none
  RxBytes : Option Nat := none
  RxDrops : Option Nat := none
  RxPkts : Option Nat := none
  SendBytes : Option Nat := none
  SendWrs : Option Nat := none
  SubmittedCmds : Option Nat := none
  TxBytes : Option Nat := none
  TxPkts : Option Nat := none
deriving DecidableEq, Repr

/-- The `switch f.Name()` of `parseAmazonEfaCounters` in this file.  The
`if err != nil` block stands inside the last case, `tx_pkts`: the other cases
assign and fall out of the switch, and the next iteration declares a new
`err`.  An error is `return nil, err`; a counter set is what the next iteration
starts from. -/
def counterSwitch (counters : AmazonEfaCounters) (name value : String) :
    Except GoError AmazonEfaCounters :=
  match name with
  | "lifespan" => .ok { counters with Lifespan := (parseUInt64 value).1 }
  | "rdma_read_bytes" => .ok { counters with RdmaReadBytes := (parseUInt64 value).1 }
  | "rdma_read_resp_bytes" => .ok { counters with RdmaReadRespBytes := (parseUInt64 value).1 }
  | "rdma_read_wr_err" => .ok { counters with RdmaReadWrErr := (parseUInt64 value).1 }
  | "rdma_read_wrs" => .ok { counters with RdmaReadWrs := (parseUInt64 value).1 }
  | "rdma_write_bytes" => .ok { counters with RdmaWriteBytes := (parseUInt64 value).1 }
  | "rdma_write_recv_bytes" => .ok { counters with RdmaWriteRecvBytes := (parseUInt64 value).1 }
  | "rdma_write_wr_err" => .ok { counters with RdmaWriteWrErr := (parseUInt64 value).1 }
  | "rdma_write_wrs" => .ok { counters with RdmaWritedWrs := (parseUInt64 value).1 }
  | "recv_bytes" => .ok { counters with RecvBytes := (parseUInt64 value).1 }
  | "recv_wrs" => .ok { counters with RecvWrs := (parseUInt64 value).1 }
  | "rx_bytes" => .ok { counters with RxBytes := (parseUInt64 value).1 }
  | "rx_drops" => .ok { counters with RxDrops := (parseUInt64 value).1 }
  | "rx_pkts" => .ok { counters with RxPkts := (parseUInt64 value).1 }
  | "send_bytes" => .ok { counters with SendBytes := (parseUInt64 value).1 }
  | "send_wrs" => .ok { counters with SendWrs := (parseUInt64 value).1 }
  | "tx_bytes" => .ok { counters with TxBytes := (parseUInt64 value).1 }
  | "tx_pkts" =>
    match (parseUInt64 value).2 with
    | some err =>
      if strings.Contains value noPMA = true then
        .ok { counters with TxPkts := (parseUInt64 value).1 }
      else .error err
    | none => .ok { counters with TxPkts := (parseUInt64 value).1 }
  | _ => .ok counters

/-- The loop `for _, f := range files` of `parseAmazonEfaCounters`. -/
def countersLoop (fs : FS) (path : String) :
    List FileInfo → AmazonEfaCounters → Except GoError AmazonEfaCounters
  | [], counters => .ok counters
  | f :: files, counters =>
    if f.IsRegular = false then countersLoop fs path files counters
    else
      match fs.SysReadFile (filepath.Join [path, f.Name]) with
      | .error err =>
        if skipReadError err = true then countersLoop fs path files counters
        else .error (.wrap ("failed to read file " ++ strconv.Quote (filepath.Join [path, f.Name]) ++ ": ") err)
      | .ok value =>
        match counterSwitch counters f.Name value with
        | .error err => .error err
        | .ok counters => countersLoop fs path files counters

/-- Function `parseAmazonEfaCounters(portPath)`. -/
def parseAmazonEfaCounters (fs : FS) (portPath : String) : Except GoError AmazonEfaCounters :=
  match fs.ReadDir (filepath.Join [portPath, "hw_counters"]) with
  | .error err => .error err
  | .ok files => countersLoop fs (filepath.Join [portPath, "hw_counters"]) files {}

/-- Struct `AmazonEfaCollector`, without the logger.  `metricDescs` is the map
from metric name to descriptor. -/
structure AmazonEfaCollector where
  fs : FS
  metricDescs : List (String × Desc)
  subsystem : String

/-- The map `descriptions` of `NewAmazonEfaCollector`. -/
def descriptions : List (String × String) :=
  [
    ("alloc_pd_err", "Number of allocations PD errors"),
    ("alloc_ucontext_err", "Number of allocations UContext errors"),
    ("cmds_err", "Number of commands errors"),
    ("completed_cmds", "Number of completed commands"),
    ("create_ah_err", "Number of create AH errors"),
    ("create_cq_err", "Number of create CQ errors"),
    ("create_qp_err", "Number of create qp errors"),
    ("keep_alive_rcvd", "Number of keep-alive packets received"),
    ("lifespan", "Lifespan of the port"),
    ("mmap_err", "Number of mmap errors"),
    ("no_completion_cmds", "Number of commands with no completion"),
    ("rdma_read_bytes", "Number of bytes read with RDMA"),
    ("rdma_read_resp_bytes", "Number of read reponses bytes with RDMA"),
    ("rdma_read_wr_err", "Number of read write errors with RDMA"),
    ("rdma_read_wrs", "Number of read rs with RDMA"),
    ("rdma_write_bytes", "Number of bytes wrote with RDMA"),
    ("rdma_write_recv_bytes", "Number of bytes wrote and received with RDMA"),
    ("rdma_write_wr_err", "Number of bytes wrote wr with error RDMA"),
    ("rdma_write_wrs", "Number of bytes wrote wrs RDMA"),
    ("recv_bytes", "Number of bytes recv bytes"),
    ("recv_wrs", "Number of bytes recv wrs"),
    ("reg_mr_err", "Number of reg_mr errors"),
    ("rx_bytes", "Number of bytes received"),
    ("rx_drops", "Number of packets droped"),
    ("rx_pkts", "Number of packets received"),
    ("send_bytes", "Number of bytes send"),
    ("send_wrs", "Number of wrs send"),
    ("submitted_cmds", "Number of submitted commands"),
    ("tx_bytes", "Number of bytes transmitted"),
    ("tx_pkts", "Number of packets transmitted") ]

/-- Function `NewAmazonEfaCollector`, given the opened `fs` (`sysfs.NewFS`) and
the constant `namespace` of the collector package. -/
def NewAmazonEfaCollector (namespaceName : String) (fs : FS) : AmazonEfaCollector :=
  { fs := fs
    metricDescs := descriptions.map (fun md =>
      (md.1, { fqName := BuildFQName namespaceName "amazonefa" md.1, help := md.2,
               variableLabels := ["device", "port"] }))
    subsystem := "amazonefa" }

/-- Method `pushMetric`: sends one metric on the channel `ch`, with the value
`float64(value)`.  The descriptor is `c.metricDescs[name]`, nil when the map
has no such name. -/
def AmazonEfaCollector.pushMetric (c : AmazonEfaCollector) (ch : List Metric) (name : String)
    (value : Nat) (deviceName port : String) (valueType : ValueType) : List Metric :=
  ch ++ [{ desc := c.metricDescs.lookup name, valueType := valueType, value := float64 value,
           labelValues := [deviceName, port] }]

/-- Method `pushCounter`: sends the counter when the pointer is not nil. -/
def AmazonEfaCollector.pushCounter (c : AmazonEfaCollector) (ch : List Metric) (name : String)
    (value : Option Nat) (deviceName port : String) : List Metric :=
  match value with
  | some v => c.pushMetric ch name v deviceName port .CounterValue
  | none => ch

/-- The body of `for _, port := range device.Ports` in `Update`. -/
def AmazonEfaCollector.updatePort (c : AmazonEfaCollector) (ch : List Metric)
    (port : AmazonEfaPort AmazonEfaCounters) : List Metric :=
  let portStr := strconv.FormatUint port.Port 10
  let ch := c.pushCounter ch "alloc_pd_err" port.Counters.AllocPdErr port.Name portStr
  let ch := c.pushCounter ch "alloc_ucontext_err" port.Counters.AllocUcontextErr port.Name portStr
  let ch := c.pushCounter ch "cmds_err" port.Counters.CmdsErr port.Name portStr
  let ch := c.pushCounter ch "completed_cmds" port.Counters.CompletedCmds port.Name portStr
  let ch := c.pushCounter ch "create_ah_err" port.Counters.CreateAhErr port.Name portStr
  let ch := c.pushCounter ch "create_cq_err" port.Counters.CreateCqErr port.Name portStr
  let ch := c.pushCounter ch "create_qp_err" port.Counters.CreateQpErr port.Name portStr
  let ch := c.pushCounter ch "keep_alive_rcvd" port.Counters.KeepAliveRcvd port.Name portStr
  let ch := c.pushCounter ch "lifespan" port.Counters.Lifespan port.Name portStr
  let ch := c.pushCounter ch "mmap_err" port.Counters.MmapErr port.Name portStr
  let ch := c.pushCounter ch "no_completion_cmds" port.Counters.NoCompletionCmds port.Name portStr
  let ch := c.pushCounter ch "rdma_read_bytes" port.Counters.RdmaReadBytes port.Name portStr
  let ch := c.pushCounter ch "rdma_read_resp_bytes" port.Counters.RdmaReadRespBytes port.Name portStr
  let ch := c.pushCounter ch "rdma_read_wr_err" port.Counters.RdmaReadWrErr port.Name portStr
  let ch := c.pushCounter ch "rdma_read_wrs" port.Counters.RdmaReadWrs port.Name portStr
  let ch := c.pushCounter ch "rdma_write_bytes" port.Counters.RdmaWriteBytes port.Name portStr
  let ch := c.pushCounter ch "rdma_write_recv_bytes" port.Counters.RdmaWriteRecvBytes port.Name portStr
  let ch := c.pushCounter ch "rdma_write_wr_err" port.Counters.RdmaWriteWrErr port.Name portStr
  let ch := c.pushCounter ch "rdma_write_wrs" port.Counters.RdmaWritedWrs port.Name portStr
  let ch := c.pushCounter ch "recv_bytes" port.Counters.RecvBytes port.Name portStr
  let ch := c.pushCounter ch "recv_wrs" port.Counters.RecvWrs port.Name portStr
  let ch := c.pushCounter ch "reg_mr_err" port.Counters.RegMrErr port.Name portStr
  let ch := c.pushCounter ch "rx_bytes" port.Counters.RxBytes port.Name portStr
  let ch := c.pushCounter ch "rx_drops" port.Counters.RxDrops port.Name portStr
  let ch := c.pushCounter ch "rx_pkts" port.Counters.RxPkts port.Name portStr
  let ch := c.pushCounter ch "send_bytes" port.Counters.SendBytes port.Name portStr
  let ch := c.pushCounter ch "send_wrs" port.Counters.SendWrs port.Name portStr
  let ch := c.pushCounter ch "submitted_cmds" port.Counters.SubmittedCmds port.Name portStr
  let ch := c.pushCounter ch "tx_bytes" port.Counters.TxBytes port.Name portStr
  let ch := c.pushCounter ch "tx_pkts" port.Counters.TxPkts port.Name portStr
  ch

/-- The loop `for _, port := range device.Ports` of `Update`. -/
def AmazonEfaCollector.updatePorts (c : AmazonEfaCollector) :
    List (Nat × AmazonEfaPort AmazonEfaCounters) → List Metric → List Metric
  | [], ch => ch
  | (_, port) :: ports, ch => c.updatePorts ports (c.updatePort ch port)

/-- The descriptor `infoDesc` of `Update`. -/
def AmazonEfaCollector.infoDesc (c : AmazonEfaCollector) (namespaceName : String) : Desc :=
  { fqName := BuildFQName namespaceName c.subsystem "info"
    help := "Non-numeric data from /sys/class/infiniband/<device>, value is always 1."
    variableLabels := ["device"] }

/-- The loop `for _, device := range devices` of `Update`. -/
def AmazonEfaCollector.updateDevices (c : AmazonEfaCollector) (namespaceName : String) :
    AmazonEfaClass AmazonEfaCounters → List Metric → List Metric
  | [], ch => ch
  | (_, device) :: devices, ch =>
    c.updateDevices namespaceName devices
      (c.updatePorts device.Ports
        (ch ++ [{ desc := some (c.infoDesc namespaceName), valueType := .GaugeValue, value := 1,
                  labelValues := [device.Name] }]))

/-- Method `Update(ch)`: what was sent on `ch`, and the error returned (`none`
for nil).  `namespaceName` is the constant `namespace` of the collector
package. -/
def AmazonEfaCollector.Update (c : AmazonEfaCollector) (namespaceName : String) :
    List Metric × Option GoError :=
  match c.fs.AmazonEfaClass parseAmazonEfaCounters with
  | .error err =>
    if errors.Is err .ErrNotExist = true then ([], some ErrNoData)
    else ([], some (.wrap "error obtaining AmazonEfa class info: " err))
  | .ok devices => (c.updateDevices namespaceName devices [], none)

end Scripts

/-! ## Literals, counter names and well-keyed maps -/

namespace Literal

/-- The digit characters with their values: the decimal digits, then the
letters that base 16 adds, in either case. -/
def digitTable : List (Char × Nat) :=
  [('0', 0), ('1', 1), ('2', 2), ('3', 3), ('4', 4), ('5', 5), ('6', 6), ('7', 7), ('8', 8),
   ('9', 9), ('a', 10), ('A', 10), ('b', 11), ('B', 11), ('c', 12), ('C', 12), ('d', 13),
   ('D', 13), ('e', 14), ('E', 14), ('f', 15), ('F', 15)]

/-- The value of a digit character, `none` for any other character. -/
def digitValue (c : Char) : Option Nat := digitTable.lookup c

/-- The number that the digits `ds` denote in `base`, read after the number
`acc`; `none` when a character is not a digit of the base. -/
def digitsValue (base : Nat) : List Char → Nat → Option Nat
  | [], acc => some acc
  | c :: ds, acc =>
    match digitValue c with
    | some d => if d < base then digitsValue base ds (acc * base + d) else none
    | none => none

/-- The integer that an unsigned literal denotes, the base being read off its
prefix: `0x` hexadecimal, `0o` or a leading `0` octal, `0b` binary (the letter
in either case, at least one digit after it), decimal otherwise.  It is `none`
for a text that is no such literal. -/
def value (s : String) : Option Nat :=
  match s.data with
  | [] => none
  | c :: rest =>
    if c = '0' then
      match rest with
      | [] => some 0
      | p :: ds =>
        if p = 'x' ∨ p = 'X' then (if ds = [] then none else digitsValue 16 ds 0)
        else if p = 'o' ∨ p = 'O' then (if ds = [] then none else digitsValue 8 ds 0)
        else if p = 'b' ∨ p = 'B' then (if ds = [] then none else digitsValue 2 ds 0)
        else digitsValue 8 rest 0
    else digitsValue 10 (c :: rest) 0

end Literal

namespace Observability

/-- The fields of `AmazonEfaCounters`, one per counter file. -/
inductive Counter where
  | AllocPdErr
  | AllocUcontextErr
  | CmdsErr
  | CompletedCmds
  | CreateAhErr
  | CreateCqErr
  | CreateQpErr
  | KeepAliveRcvd
  | ImpairedRemoteConnEvents
  | Lifespan
  | MmapErr
  | NoCompletionCmds
  | RdmaReadBytes
  | RdmaReadRespBytes
  | RdmaReadWrErr
  | RdmaReadWrs
  | RdmaWriteBytes
  | RdmaWriteRecvBytes
  | RdmaWriteWrErr
  | RdmaWriteWrs
  | RecvBytes
  | RecvWrs
  | RegMrErr
  | RetransBytes
  | RetransPkts
  | RetransTimeoutEvents
  | RxBytes
  | RxDrops
  | RxPkts
  | SendBytes
  | SendWrs
  | SubmittedCmds
  | TxBytes
  | TxPkts
  | UnresponsiveRemoteEvents
deriving DecidableEq, Repr

/-- The file under hw_counters that a field is read from (the comment next to
the field in the struct). -/
def Counter.fileName : Counter → String
  | .AllocPdErr => "alloc_pd_err"
  | .AllocUcontextErr => "alloc_ucontext_err"
  | .CmdsErr => "cmds_err"
  | .CompletedCmds => "completed_cmds"
  | .CreateAhErr => "create_ah_err"
  | .CreateCqErr => "create_cq_err"
  | .CreateQpErr => "create_qp_err"
  | .KeepAliveRcvd => "keep_alive_rcvd"
  | .ImpairedRemoteConnEvents => "impaired_remote_conn_events"
  | .Lifespan => "lifespan"
  | .MmapErr => "mmap_err"
  | .NoCompletionCmds => "no_completion_cmds"
  | .RdmaReadBytes => "rdma_read_bytes"
  | .RdmaReadRespBytes => "rdma_read_resp_bytes"
  | .RdmaReadWrErr => "rdma_read_wr_err"
  | .RdmaReadWrs => "rdma_read_wrs"
  | .RdmaWriteBytes => "rdma_write_bytes"
  | .RdmaWriteRecvBytes => "rdma_write_recv_bytes"
  | .RdmaWriteWrErr => "rdma_write_wr_err"
  | .RdmaWriteWrs => "rdma_write_wrs"
  | .RecvBytes => "recv_bytes"
  | .RecvWrs => "recv_wrs"
  | .RegMrErr => "reg_mr_err"
  | .RetransBytes => "retrans_bytes"
  | .RetransPkts => "retrans_pkts"
  | .RetransTimeoutEvents => "retrans_timeout_events"
  | .RxBytes => "rx_bytes"
  | .RxDrops => "rx_drops"
  | .RxPkts => "rx_pkts"
  | .SendBytes => "send_bytes"
  | .SendWrs => "send_wrs"
  | .SubmittedCmds => "submitted_cmds"
  | .TxBytes => "tx_bytes"
  | .TxPkts => "tx_pkts"
  | .UnresponsiveRemoteEvents => "unresponsive_remote_events"

/-- All fields, in the order of the struct. -/
def Counter.all : List Counter :=
  [.AllocPdErr, .AllocUcontextErr, .CmdsErr, .CompletedCmds, .CreateAhErr, .CreateCqErr, .CreateQpErr, .KeepAliveRcvd, .ImpairedRemoteConnEvents, .Lifespan, .MmapErr, .NoCompletionCmds, .RdmaReadBytes, .RdmaReadRespBytes, .RdmaReadWrErr, .RdmaReadWrs, .RdmaWriteBytes, .RdmaWriteRecvBytes, .RdmaWriteWrErr, .RdmaWriteWrs, .RecvBytes, .RecvWrs, .RegMrErr, .RetransBytes, .RetransPkts, .RetransTimeoutEvents, .RxBytes, .RxDrops, .RxPkts, .SendBytes, .SendWrs, .SubmittedCmds, .TxBytes, .TxPkts, .UnresponsiveRemoteEvents]

/-- The closed set of known counter file names. -/
def knownNames : List String := Counter.all.map Counter.fileName

/-- Reading a field of the counter set. -/
def AmazonEfaCounters.get (c : AmazonEfaCounters) : Counter → Option Nat
  | .AllocPdErr => c.AllocPdErr
  | .AllocUcontextErr => c.AllocUcontextErr
  | .CmdsErr => c.CmdsErr
  | .CompletedCmds => c.CompletedCmds
  | .CreateAhErr => c.CreateAhErr
  | .CreateCqErr => c.CreateCqErr
  | .CreateQpErr => c.CreateQpErr
  | .KeepAliveRcvd => c.KeepAliveRcvd
  | .ImpairedRemoteConnEvents => c.ImpairedRemoteConnEvents
  | .Lifespan => c.Lifespan
  | .MmapErr => c.MmapErr
  | .NoCompletionCmds => c.NoCompletionCmds
  | .RdmaReadBytes => c.RdmaReadBytes
  | .RdmaReadRespBytes => c.RdmaReadRespBytes
  | .RdmaReadWrErr => c.RdmaReadWrErr
  | .RdmaReadWrs => c.RdmaReadWrs
  | .RdmaWriteBytes => c.RdmaWriteBytes
  | .RdmaWriteRecvBytes => c.RdmaWriteRecvBytes
  | .RdmaWriteWrErr => c.RdmaWriteWrErr
  | .RdmaWriteWrs => c.RdmaWriteWrs
  | .RecvBytes => c.RecvBytes
  | .RecvWrs => c.RecvWrs
  | .RegMrErr => c.RegMrErr
  | .RetransBytes => c.RetransBytes
  | .RetransPkts => c.RetransPkts
  | .RetransTimeoutEvents => c.RetransTimeoutEvents
  | .RxBytes => c.RxBytes
  | .RxDrops => c.RxDrops
  | .RxPkts => c.RxPkts
  | .SendBytes => c.SendBytes
  | .SendWrs => c.SendWrs
  | .SubmittedCmds => c.SubmittedCmds
  | .TxBytes => c.TxBytes
  | .TxPkts => c.TxPkts
  | .UnresponsiveRemoteEvents => c.UnresponsiveRemoteEvents

/-- Assigning a field of the counter set. -/
def AmazonEfaCounters.set (c : AmazonEfaCounters) (k : Counter) (v : Option Nat) :
    AmazonEfaCounters :=
  match k with
  | .AllocPdErr => { c with AllocPdErr := v }
  | .AllocUcontextErr => { c with AllocUcontextErr := v }
  | .CmdsErr => { c with CmdsErr := v }
  | .CompletedCmds => { c with CompletedCmds := v }
  | .CreateAhErr => { c with CreateAhErr := v }
  | .CreateCqErr => { c with CreateCqErr := v }
  | .CreateQpErr => { c with CreateQpErr := v }
  | .KeepAliveRcvd => { c with KeepAliveRcvd := v }
  | .ImpairedRemoteConnEvents => { c with ImpairedRemoteConnEvents := v }
  | .Lifespan => { c with Lifespan := v }
  | .MmapErr => { c with MmapErr := v }
  | .NoCompletionCmds => { c with NoCompletionCmds := v }
  | .RdmaReadBytes => { c with RdmaReadBytes := v }
  | .RdmaReadRespBytes => { c with RdmaReadRespBytes := v }
  | .RdmaReadWrErr => { c with RdmaReadWrErr := v }
  | .RdmaReadWrs => { c with RdmaReadWrs := v }
  | .RdmaWriteBytes => { c with RdmaWriteBytes := v }
  | .RdmaWriteRecvBytes => { c with RdmaWriteRecvBytes := v }
  | .RdmaWriteWrErr => { c with RdmaWriteWrErr := v }
  | .RdmaWriteWrs => { c with RdmaWriteWrs := v }
  | .RecvBytes => { c with RecvBytes := v }
  | .RecvWrs => { c with RecvWrs := v }
  | .RegMrErr => { c with RegMrErr := v }
  | .RetransBytes => { c with RetransBytes := v }
  | .RetransPkts => { c with RetransPkts := v }
  | .RetransTimeoutEvents => { c with RetransTimeoutEvents := v }
  | .RxBytes => { c with RxBytes := v }
  | .RxDrops => { c with RxDrops := v }
  | .RxPkts => { c with RxPkts := v }
  | .SendBytes => { c with SendBytes := v }
  | .SendWrs => { c with SendWrs := v }
  | .SubmittedCmds => { c with SubmittedCmds := v }
  | .TxBytes => { c with TxBytes := v }
  | .TxPkts => { c with TxPkts := v }
  | .UnresponsiveRemoteEvents => { c with UnresponsiveRemoteEvents := v }

end Observability

namespace strconv
/-- The number that decimal digits denote. -/
def decimalValue (cs : List Char) : Nat :=
  cs.foldl (fun n c => 10 * n + (c.toNat - '0'.toNat)) 0
end strconv

/-- The ports of one device: keyed by their number, below 2^32, named after
the device. -/
def PortsWellKeyed {κ : Type} (name : String) (m : List (Nat × AmazonEfaPort κ)) : Prop :=
  (m.map Prod.fst).Nodup ∧ ∀ e ∈ m, e.2.Port = e.1 ∧ e.2.Name = name ∧ e.1 < 2 ^ 32

/-- A class map: keyed by device name, every device with well-keyed ports. -/
def ClassWellKeyed {κ : Type} (ibc : AmazonEfaClass κ) : Prop :=
  (ibc.map Prod.fst).Nodup ∧ ∀ e ∈ ibc, e.2.Name = e.1 ∧ PortsWellKeyed e.2.Name e.2.Ports

namespace Scripts

open prometheus

/-- The fields of `AmazonEfaCounters` of this file, one per counter. -/
inductive Counter where
  | AllocPdErr
  | AllocUcontextErr
  | CmdsErr
  | CompletedCmds
  | CreateAhErr
  | CreateCqErr
  | CreateQpErr
  | KeepAliveRcvd
  | Lifespan
  | MmapErr
  | NoCompletionCmds
  | RdmaReadBytes
  | RdmaReadRespBytes
  | RdmaReadWrErr
  | RdmaReadWrs
  | RdmaWriteBytes
  | RdmaWriteRecvBytes
  | RdmaWriteWrErr
  | RdmaWritedWrs
  | RecvBytes
  | RecvWrs
  | RegMrErr
  | RxBytes
  | RxDrops
  | RxPkts
  | SendBytes
  | SendWrs
  | SubmittedCmds
  | TxBytes
  | TxPkts
deriving DecidableEq, Repr

/-- The counter file of a field: the name under which `parseAmazonEfaCounters`
(where it reads the field) and `Update` know it. -/
def Counter.fileName : Counter → String
  | .AllocPdErr => "alloc_pd_err"
  | .AllocUcontextErr => "alloc_ucontext_err"
  | .CmdsErr => "cmds_err"
  | .CompletedCmds => "completed_cmds"
  | .CreateAhErr => "create_ah_err"
  | .CreateCqErr => "create_cq_err"
  | .CreateQpErr => "create_qp_err"
  | .KeepAliveRcvd => "keep_alive_rcvd"
  | .Lifespan => "lifespan"
  | .MmapErr => "mmap_err"
  | .NoCompletionCmds => "no_completion_cmds"
  | .RdmaReadBytes => "rdma_read_bytes"
  | .RdmaReadRespBytes => "rdma_read_resp_bytes"
  | .RdmaReadWrErr => "rdma_read_wr_err"
  | .RdmaReadWrs => "rdma_read_wrs"
  | .RdmaWriteBytes => "rdma_write_bytes"
  | .RdmaWriteRecvBytes => "rdma_write_recv_bytes"
  | .RdmaWriteWrErr => "rdma_write_wr_err"
  | .RdmaWritedWrs => "rdma_write_wrs"
  | .RecvBytes => "recv_bytes"
  | .RecvWrs => "recv_wrs"
  | .RegMrErr => "reg_mr_err"
  | .RxBytes => "rx_bytes"
  | .RxDrops => "rx_drops"
  | .RxPkts => "rx_pkts"
  | .SendBytes => "send_bytes"
  | .SendWrs => "send_wrs"
  | .SubmittedCmds => "submitted_cmds"
  | .TxBytes => "tx_bytes"
  | .TxPkts => "tx_pkts"

/-- All fields, in the order of the struct. -/
def Counter.all : List Counter :=
  [.AllocPdErr, .AllocUcontextErr, .CmdsErr, .CompletedCmds, .CreateAhErr, .CreateCqErr, .CreateQpErr, .KeepAliveRcvd, .Lifespan, .MmapErr, .NoCompletionCmds, .RdmaReadBytes, .RdmaReadRespBytes, .RdmaReadWrErr, .RdmaReadWrs, .RdmaWriteBytes, .RdmaWriteRecvBytes, .RdmaWriteWrErr, .RdmaWritedWrs, .RecvBytes, .RecvWrs, .RegMrErr, .RxBytes, .RxDrops, .RxPkts, .SendBytes, .SendWrs, .SubmittedCmds, .TxBytes, .TxPkts]

/-- Reading a field of the counter set. -/
def AmazonEfaCounters.get (c : AmazonEfaCounters) : Counter → Option Nat
  | .AllocPdErr => c.AllocPdErr
  | .AllocUcontextErr => c.AllocUcontextErr
  | .CmdsErr => c.CmdsErr
  | .CompletedCmds => c.CompletedCmds
  | .CreateAhErr => c.CreateAhErr
  | .CreateCqErr => c.CreateCqErr
  | .CreateQpErr => c.CreateQpErr
  | .KeepAliveRcvd => c.KeepAliveRcvd
  | .Lifespan => c.Lifespan
  | .MmapErr => c.MmapErr
  | .NoCompletionCmds => c.NoCompletionCmds
  | .RdmaReadBytes => c.RdmaReadBytes
  | .RdmaReadRespBytes => c.RdmaReadRespBytes
  | .RdmaReadWrErr => c.RdmaReadWrErr
  | .RdmaReadWrs => c.RdmaReadWrs
  | .RdmaWriteBytes => c.RdmaWriteBytes
  | .RdmaWriteRecvBytes => c.RdmaWriteRecvBytes
  | .RdmaWriteWrErr => c.RdmaWriteWrErr
  | .RdmaWritedWrs => c.RdmaWritedWrs
  | .RecvBytes => c.RecvBytes
  | .RecvWrs => c.RecvWrs
  | .RegMrErr => c.RegMrErr
  | .RxBytes => c.RxBytes
  | .RxDrops => c.RxDrops
  | .RxPkts => c.RxPkts
  | .SendBytes => c.SendBytes
  | .SendWrs => c.SendWrs
  | .SubmittedCmds => c.SubmittedCmds
  | .TxBytes => c.TxBytes
  | .TxPkts => c.TxPkts

/-- The metric of counter `k` for the field value `v`: named after the counter
file, of counter type, with the value `float64(v)`, labelled with device and
port. -/
def counterMetric (namespaceName : String) (k : Counter) (v : Nat) (deviceName port : String) :
    Metric :=
  { desc := some { fqName := BuildFQName namespaceName "amazonefa" k.fileName
                   help := (descriptions.lookup k.fileName).getD ""
                   variableLabels := ["device", "port"] }
    valueType := .CounterValue
    value := float64 v
    labelValues := [deviceName, port] }

/-- The presence metric of a device: the constant 1, labelled with the device. -/
def infoMetric (namespaceName deviceName : String) : Metric :=
  { desc := some { fqName := BuildFQName namespaceName "amazonefa" "info"
                   help := "Non-numeric data from /sys/class/infiniband/<device>, value is always 1."
                   variableLabels := ["device"] }
    valueType := .GaugeValue
    value := 1
    labelValues := [deviceName] }

/-- The metrics of one port: one per field that is present. -/
def portMetrics (namespaceName : String) (port : AmazonEfaPort AmazonEfaCounters) : List Metric :=
  Counter.all.flatMap (fun k =>
    match port.Counters.get k with
    | some v => [counterMetric namespaceName k v port.Name (strconv.FormatUint port.Port 10)]
    | none => [])

end Scripts

/-! ## Concrete file systems -/

namespace Witness

/-- The error of a path that does not exist. -/
def notExist (op path : String) : GoError := .pathError op path (.errno syscall.ENOENT)

/-- A stand-in for `parseState` on the state texts used below. -/
def parseState (s : String) : Except GoError (Nat × String) :=
  if s = "4: ACTIVE" then .ok (4, "ACTIVE")
  else if s = "5: LINK_UP" then .ok (5, "LINK_UP")
  else .error (.plain ("failed to split " ++ s ++ " into 'ID: NAME'"))

/-- A stand-in for `parseRate` on the rate text used below. -/
def parseRate (s : String) : Except GoError Nat :=
  if s = "100 Gb/sec" then .ok 12500000000
  else .error (.plain ("failed to parse rate " ++ s))

/-- The file system mounted at `/sys` that the tables describe: `dirs` lists
the directories, `texts` holds the files read whole, `counters` the outcome of
the bounded reader per file.  A path in no table does not exist. -/
def fakeFS (dirs : List (String × List FileInfo)) (texts : List (String × String))
    (counters : List (String × Except GoError String)) : FS :=
  { sys := "/sys"
    ReadDir := fun p =>
      match dirs.lookup p with
      | some files => .ok files
      | none => .error (notExist "open" p)
    ReadFile := fun p =>
      match texts.lookup p with
      | some text => .ok text
      | none => .error (notExist "open" p)
    SysReadFile := fun p =>
      match counters.lookup p with
      | some r => r
      | none => .error (notExist "open" p)
    parseState := parseState
    parseRate := parseRate }

/-- The port directory of the examples. -/
def port1 : String := "/sys/class/infiniband/efa0/ports/1"

/-- The three files of a port next to its counters. -/
def portTexts : List (String × String) :=
  [("/sys/class/infiniband/efa0/ports/1/state", "4: ACTIVE"),
   ("/sys/class/infiniband/efa0/ports/1/phys_state", "5: LINK_UP"),
   ("/sys/class/infiniband/efa0/ports/1/rate", "100 Gb/sec")]

/-- One device `efa0` with one port `1` whose hw_counters directory lists
`files`, read as `counters` says. -/
def onePort (files : List FileInfo) (counters : List (String × Except GoError String)) : FS :=
  fakeFS
    [("/sys/class/infiniband", [⟨"efa0", false⟩]),
     ("/sys/class/infiniband/efa0/ports", [⟨"1", false⟩]),
     ("/sys/class/infiniband/efa0/ports/1/hw_counters", files)]
    portTexts counters

/-- Counter files that all hold literals, next to a file of unknown name and a
subdirectory. -/
def fsLiterals : FS :=
  onePort [⟨"extra", true⟩, ⟨"rx_bytes", true⟩, ⟨"rx_pkts", true⟩, ⟨"sub", false⟩, ⟨"tx_bytes", true⟩]
    [("/sys/class/infiniband/efa0/ports/1/hw_counters/extra", .ok "junk"),
     ("/sys/class/infiniband/efa0/ports/1/hw_counters/rx_bytes", .ok "12345"),
     ("/sys/class/infiniband/efa0/ports/1/hw_counters/rx_pkts", .ok "017"),
     ("/sys/class/infiniband/efa0/ports/1/hw_counters/tx_bytes", .ok "0x1F")]

/-- The scenario of the specification: `rx_bytes` holds 12345 and `rx_drops`
the text for a counter that is not available. -/
def fsScenario : FS :=
  onePort [⟨"rx_bytes", true⟩, ⟨"rx_drops", true⟩]
    [("/sys/class/infiniband/efa0/ports/1/hw_counters/rx_bytes", .ok "12345"),
     ("/sys/class/infiniband/efa0/ports/1/hw_counters/rx_drops", .ok "N/A (no PMA)")]

/-- As `fsScenario`, but reading `rx_drops` fails with the error `err`. -/
def fsReadError (err : GoError) : FS :=
  onePort [⟨"rx_bytes", true⟩, ⟨"rx_drops", true⟩]
    [("/sys/class/infiniband/efa0/ports/1/hw_counters/rx_bytes", .ok "12345"),
     ("/sys/class/infiniband/efa0/ports/1/hw_counters/rx_drops", .error err)]

/-- A text that is no number and does not contain the sentinel, in `rx_bytes`. -/
def fsNotANumber : FS :=
  onePort [⟨"rx_bytes", true⟩]
    [("/sys/class/infiniband/efa0/ports/1/hw_counters/rx_bytes", .ok "not-a-number")]

/-- The port of `fsScenario` as the enumeration of 4.validation_scripts returns it. -/
def scenarioPort : AmazonEfaPort Scripts.AmazonEfaCounters :=
  { Name := "efa0", Port := 1, State := "ACTIVE", StateID := 4, PhysState := "LINK_UP",
    PhysStateID := 5, Rate := 12500000000, Counters := { RxBytes := some 12345 } }

/-- The class of `fsScenario`. -/
def scenarioClass : AmazonEfaClass Scripts.AmazonEfaCounters :=
  [("efa0", { Name := "efa0", Ports := [(1, scenarioPort)] })]

/-- Two devices: `efa0` as in `fsScenario`, and `efa1` without any port. -/
def fsTwoDevices : FS :=
  fakeFS
    [("/sys/class/infiniband", [⟨"efa0", false⟩, ⟨"efa1", false⟩]),
     ("/sys/class/infiniband/efa0/ports", [⟨"1", false⟩]),
     ("/sys/class/infiniband/efa0/ports/1/hw_counters", [⟨"rx_bytes", true⟩, ⟨"rx_drops", true⟩]),
     ("/sys/class/infiniband/efa1/ports", [])]
    portTexts
    [("/sys/class/infiniband/efa0/ports/1/hw_counters/rx_bytes", .ok "12345"),
     ("/sys/class/infiniband/efa0/ports/1/hw_counters/rx_drops", .ok "N/A (no PMA)")]

/-- The class of `fsTwoDevices`. -/
def twoDevicesClass : AmazonEfaClass Scripts.AmazonEfaCounters :=
  [("efa0", { Name := "efa0", Ports := [(1, scenarioPort)] }),
   ("efa1", { Name := "efa1", Ports := [] })]

/-- No `class/infiniband` under the mount point. -/
def fsNoRoot : FS := fakeFS [] [] []

/-- No directory can be listed: permission denied. -/
def fsDenied : FS :=
  { fakeFS [] [] [] with
    ReadDir := fun p => .error (.pathError "open" p (.errno syscall.EACCES)) }

/-- The root lists `efa0`, which has no `ports` directory. -/
def fsNoPorts : FS := fakeFS [("/sys/class/infiniband", [⟨"efa0", false⟩])] [] []

/-- The root lists `efa0`, whose `ports` directory may not be read. -/
def fsPortsDenied : FS :=
  { fsNoPorts with
    ReadDir := fun p =>
      if p = "/sys/class/infiniband/efa0/ports" then
        .error (.pathError "open" p (.errno syscall.EACCES))
      else fsNoPorts.ReadDir p }

end Witness

namespace Witness
/-- The port of `fsScenario` as the enumeration of 4.validation_and_observability
returns it. -/
def scenarioPortFull : AmazonEfaPort Observability.AmazonEfaCounters :=
  { Name := "efa0", Port := 1, State := "ACTIVE", StateID := 4, PhysState := "LINK_UP",
    PhysStateID := 5, Rate := 12500000000, Counters := { RxBytes := some 12345 } }

/-- The class of `fsScenario` under the full counter set. -/
def scenarioClassFull : AmazonEfaClass Observability.AmazonEfaCounters :=
  [("efa0", { Name := "efa0", Ports := [(1, scenarioPortFull)] })]
end Witness

/-- A port without what it carries of its `state`, `phys_state` and `rate`
files. -/
def AmazonEfaPort.withoutState {κ : Type} (p : AmazonEfaPort κ) : AmazonEfaPort κ :=
  { p with State := "", StateID := 0, PhysState := "", PhysStateID := 0, Rate := 0 }

/-- A class with the state and rate of every port blanked. -/
def classWithoutState {κ : Type} (ibc : AmazonEfaClass κ) : AmazonEfaClass κ :=
  ibc.map (fun dev =>
    (dev.1, { dev.2 with Ports := dev.2.Ports.map (fun port => (port.1, port.2.withoutState)) }))

namespace Scripts

/-- The names under which `Update` would send state, physical state and rate
(the calls of `pushMetric` that are commented out). -/
def stateMetricNames : List String := ["state_id", "physical_state_id", "rate_bytes_per_second"]

end Scripts

namespace Witness

/-- As `fsScenario`, with other texts in `state` and `phys_state`. -/
def fsScenarioOtherState : FS :=
  fakeFS
    [("/sys/class/infiniband", [⟨"efa0", false⟩]),
     ("/sys/class/infiniband/efa0/ports", [⟨"1", false⟩]),
     ("/sys/class/infiniband/efa0/ports/1/hw_counters", [⟨"rx_bytes", true⟩, ⟨"rx_drops", true⟩])]
    [("/sys/class/infiniband/efa0/ports/1/state", "5: LINK_UP"),
     ("/sys/class/infiniband/efa0/ports/1/phys_state", "4: ACTIVE"),
     ("/sys/class/infiniband/efa0/ports/1/rate", "100 Gb/sec")]
    [("/sys/class/infiniband/efa0/ports/1/hw_counters/rx_bytes", .ok "12345"),
     ("/sys/class/infiniband/efa0/ports/1/hw_counters/rx_drops", .ok "N/A (no PMA)")]

/-- The class of `fsScenarioOtherState`. -/
def otherStateClass : AmazonEfaClass Scripts.AmazonEfaCounters :=
  [("efa0", { Name := "efa0", Ports := [(1, { scenarioPort with
      State := "LINK_UP", StateID := 5, PhysState := "ACTIVE", PhysStateID := 4 })] })]

end Witness

namespace Literal

/-- The number that a text of decimal digits denotes: `none` for the empty
text and for a text with any other character (a sign, a letter, a prefix). -/
def decimal (s : String) : Option Nat :=
  if s.data = [] then none else digitsValue 10 s.data 0

end Literal

namespace Witness

/-- The device `efa0` lists the port directories `abc` and `4294967296`. -/
def fsBadPort : FS :=
  fakeFS
    [("/sys/class/infiniband", [⟨"efa0", false⟩]),
     ("/sys/class/infiniband/efa0/ports", [⟨"abc", false⟩, ⟨"4294967296", false⟩])]
    [] []

end Witness

namespace Witness

/-- As `fsScenario`, with a `state` file that is not of the form `id: NAME`. -/
def fsBadState : FS :=
  fakeFS
    [("/sys/class/infiniband", [⟨"efa0", false⟩]),
     ("/sys/class/infiniband/efa0/ports", [⟨"1", false⟩]),
     ("/sys/class/infiniband/efa0/ports/1/hw_counters", [⟨"rx_bytes", true⟩])]
    [("/sys/class/infiniband/efa0/ports/1/state", "ACTIVE"),
     ("/sys/class/infiniband/efa0/ports/1/phys_state", "5: LINK_UP"),
     ("/sys/class/infiniband/efa0/ports/1/rate", "100 Gb/sec")]
    [("/sys/class/infiniband/efa0/ports/1/hw_counters/rx_bytes", .ok "12345")]

end Witness

namespace Scripts

/-- Assigning a field of the counter set. -/
def AmazonEfaCounters.set (c : AmazonEfaCounters) (k : Counter) (v : Option Nat) :
    AmazonEfaCounters :=
  match k with
  | .AllocPdErr => { c with AllocPdErr := v }
  | .AllocUcontextErr => { c with AllocUcontextErr := v }
  | .CmdsErr => { c with CmdsErr := v }
  | .CompletedCmds => { c with CompletedCmds := v }
  | .CreateAhErr => { c with CreateAhErr := v }
  | .CreateCqErr => { c with CreateCqErr := v }
  | .CreateQpErr => { c with CreateQpErr := v }
  | .KeepAliveRcvd => { c with KeepAliveRcvd := v }
  | .Lifespan => { c with Lifespan := v }
  | .MmapErr => { c with MmapErr := v }
  | .NoCompletionCmds => { c with NoCompletionCmds := v }
  | .RdmaReadBytes => { c with RdmaReadBytes := v }
  | .RdmaReadRespBytes => { c with RdmaReadRespBytes := v }
  | .RdmaReadWrErr => { c with RdmaReadWrErr := v }
  | .RdmaReadWrs => { c with RdmaReadWrs := v }
  | .RdmaWriteBytes => { c with RdmaWriteBytes := v }
  | .RdmaWriteRecvBytes => { c with RdmaWriteRecvBytes := v }
  | .RdmaWriteWrErr => { c with RdmaWriteWrErr := v }
  | .RdmaWritedWrs => { c with RdmaWritedWrs := v }
  | .RecvBytes => { c with RecvBytes := v }
  | .RecvWrs => { c with RecvWrs := v }
  | .RegMrErr => { c with RegMrErr := v }
  | .RxBytes => { c with RxBytes := v }
  | .RxDrops => { c with RxDrops := v }
  | .RxPkts => { c with RxPkts := v }
  | .SendBytes => { c with SendBytes := v }
  | .SendWrs => { c with SendWrs := v }
  | .SubmittedCmds => { c with SubmittedCmds := v }
  | .TxBytes => { c with TxBytes := v }
  | .TxPkts => { c with TxPkts := v }

/-- The fields that `parseAmazonEfaCounters` of this file assigns: the cases of
its switch. -/
def Counter.parsed : List Counter :=
  [.Lifespan, .RdmaReadBytes, .RdmaReadRespBytes, .RdmaReadWrErr, .RdmaReadWrs, .RdmaWriteBytes, .RdmaWriteRecvBytes, .RdmaWriteWrErr, .RdmaWritedWrs, .RecvBytes, .RecvWrs, .RxBytes, .RxDrops, .RxPkts, .SendBytes, .SendWrs, .TxBytes, .TxPkts]

/-- The counter file names that `parseAmazonEfaCounters` of this file knows. -/
def parsedNames : List String := Counter.parsed.map Counter.fileName

/-- The field of the full counter set that is read from the same file. -/
def Counter.toFull : Counter → Observability.Counter
  | .AllocPdErr => .AllocPdErr
  | .AllocUcontextErr => .AllocUcontextErr
  | .CmdsErr => .CmdsErr
  | .CompletedCmds => .CompletedCmds
  | .CreateAhErr => .CreateAhErr
  | .CreateCqErr => .CreateCqErr
  | .CreateQpErr => .CreateQpErr
  | .KeepAliveRcvd => .KeepAliveRcvd
  | .Lifespan => .Lifespan
  | .MmapErr => .MmapErr
  | .NoCompletionCmds => .NoCompletionCmds
  | .RdmaReadBytes => .RdmaReadBytes
  | .RdmaReadRespBytes => .RdmaReadRespBytes
  | .RdmaReadWrErr => .RdmaReadWrErr
  | .RdmaReadWrs => .RdmaReadWrs
  | .RdmaWriteBytes => .RdmaWriteBytes
  | .RdmaWriteRecvBytes => .RdmaWriteRecvBytes
  | .RdmaWriteWrErr => .RdmaWriteWrErr
  | .RdmaWritedWrs => .RdmaWriteWrs
  | .RecvBytes => .RecvBytes
  | .RecvWrs => .RecvWrs
  | .RegMrErr => .RegMrErr
  | .RxBytes => .RxBytes
  | .RxDrops => .RxDrops
  | .RxPkts => .RxPkts
  | .SendBytes => .SendBytes
  | .SendWrs => .SendWrs
  | .SubmittedCmds => .SubmittedCmds
  | .TxBytes => .TxBytes
  | .TxPkts => .TxPkts

/-- The two counter sets hold the same values in the fields that both parsers
assign. -/
def Agree (full : Observability.AmazonEfaCounters) (reduced : AmazonEfaCounters) : Prop :=
  ∀ k ∈ Counter.parsed, reduced.get k = full.get k.toFull

end Scripts

namespace Witness

/-- A text that is no number in `rx_pkts`, between two counters that hold
literals. -/
def fsMalformedCounter : FS :=
  onePort [⟨"rx_bytes", true⟩, ⟨"rx_pkts", true⟩, ⟨"tx_bytes", true⟩]
    [("/sys/class/infiniband/efa0/ports/1/hw_counters/rx_bytes", .ok "12345"),
     ("/sys/class/infiniband/efa0/ports/1/hw_counters/rx_pkts", .ok "oops"),
     ("/sys/class/infiniband/efa0/ports/1/hw_counters/tx_bytes", .ok "0x1F")]

end Witness

/-- A counter text the parsers go on after: `ParseUint(text, 0, 64)` returns a
number, or the text contains the sentinel. -/
def WellFormedText (text : String) : Prop :=
  (∃ v, strconv.ParseUint text 0 64 = .ok v) ∨ strings.Contains text noPMA = true

namespace Literal

/-- A text of digits without leading zeros: the text `0`, or a text that does
not start with the digit `0`. -/
def noLeadingZeros (s : String) : Prop := s = "0" ∨ s.data.head? ≠ some '0'

instance (s : String) : Decidable (noLeadingZeros s) := by
  unfold noLeadingZeros
  exact inferInstance

end Literal

namespace Witness

/-- The texts of a port directory. -/
def portTextsAt (portPath : String) : List (String × String) :=
  [(portPath ++ "/state", "4: ACTIVE"),
   (portPath ++ "/phys_state", "5: LINK_UP"),
   (portPath ++ "/rate", "100 Gb/sec")]

/-- The device `efa0` lists the port directories `1` and `01`, in this order;
`rx_bytes` holds 111 in the first and 222 in the second. -/
def fsSameNumber : FS :=
  fakeFS
    [("/sys/class/infiniband", [⟨"efa0", false⟩]),
     ("/sys/class/infiniband/efa0/ports", [⟨"1", false⟩, ⟨"01", false⟩]),
     ("/sys/class/infiniband/efa0/ports/1/hw_counters", [⟨"rx_bytes", true⟩]),
     ("/sys/class/infiniband/efa0/ports/01/hw_counters", [⟨"rx_bytes", true⟩])]
    (portTextsAt "/sys/class/infiniband/efa0/ports/1" ++
      portTextsAt "/sys/class/infiniband/efa0/ports/01")
    [("/sys/class/infiniband/efa0/ports/1/hw_counters/rx_bytes", .ok "111"),
     ("/sys/class/infiniband/efa0/ports/01/hw_counters/rx_bytes", .ok "222")]

/-- The port that `fsSameNumber` keeps: the one read from the directory `01`. -/
def sameNumberPort : AmazonEfaPort Scripts.AmazonEfaCounters :=
  { Name := "efa0", Port := 1, State := "ACTIVE", StateID := 4, PhysState := "LINK_UP",
    PhysStateID := 5, Rate := 12500000000, Counters := { RxBytes := some 222 } }

/-- The class of `fsSameNumber`. -/
def sameNumberClass : AmazonEfaClass Scripts.AmazonEfaCounters :=
  [("efa0", { Name := "efa0", Ports := [(1, sameNumberPort)] })]

end Witness

namespace Witness

/-- A port of device `name` with number `n`, the state of `portTextsAt` and the
counter set `counters`. -/
def plainPort {κ : Type} (name : String) (n : Nat) (counters : κ) : AmazonEfaPort κ :=
  { Name := name, Port := n, State := "ACTIVE", StateID := 4, PhysState := "LINK_UP",
    PhysStateID := 5, Rate := 12500000000, Counters := counters }

/-- As `fsScenario`, with `rx_bytes` at 2^53 + 1. -/
def fsBigCounter : FS :=
  onePort [⟨"rx_bytes", true⟩]
    [("/sys/class/infiniband/efa0/ports/1/hw_counters/rx_bytes", .ok "9007199254740993")]

/-- The class of `fsBigCounter`. -/
def bigCounterClass : AmazonEfaClass Scripts.AmazonEfaCounters :=
  [("efa0", { Name := "efa0",
              Ports := [(1, plainPort "efa0" 1 { RxBytes := some 9007199254740993 })] })]

/-- Two devices: `efa0` with the port `1`, then `efa1` with the port `1` and the
port directory `abc`. -/
def fsBadPortLater : FS :=
  fakeFS
    [("/sys/class/infiniband", [⟨"efa0", false⟩, ⟨"efa1", false⟩]),
     ("/sys/class/infiniband/efa0/ports", [⟨"1", false⟩]),
     ("/sys/class/infiniband/efa0/ports/1/hw_counters", []),
     ("/sys/class/infiniband/efa1/ports", [⟨"1", false⟩, ⟨"abc", false⟩]),
     ("/sys/class/infiniband/efa1/ports/1/hw_counters", [])]
    (portTextsAt "/sys/class/infiniband/efa0/ports/1" ++
      portTextsAt "/sys/class/infiniband/efa1/ports/1")
    []

/-- The device `efa0` lists the port directories `1` and `abc`; the directory
`1` has no `state` file. -/
def fsMissingStateThenBadPort : FS :=
  fakeFS
    [("/sys/class/infiniband", [⟨"efa0", false⟩]),
     ("/sys/class/infiniband/efa0/ports", [⟨"1", false⟩, ⟨"abc", false⟩])]
    [] []

/-- Two devices: `efa0` with the port `1`, then `efa1` with the port `1` and the
port `2`, whose `state` file is not of the form `id: NAME`. -/
def fsBadStateLater : FS :=
  fakeFS
    [("/sys/class/infiniband", [⟨"efa0", false⟩, ⟨"efa1", false⟩]),
     ("/sys/class/infiniband/efa0/ports", [⟨"1", false⟩]),
     ("/sys/class/infiniband/efa0/ports/1/hw_counters", []),
     ("/sys/class/infiniband/efa1/ports", [⟨"1", false⟩, ⟨"2", false⟩]),
     ("/sys/class/infiniband/efa1/ports/1/hw_counters", [])]
    (portTextsAt "/sys/class/infiniband/efa0/ports/1" ++
      portTextsAt "/sys/class/infiniband/efa1/ports/1" ++
      [("/sys/class/infiniband/efa1/ports/2/state", "ACTIVE")])
    []

/-- Two devices: `efa0` without a `ports` directory, then `efa1` with the port
`1`, whose `state` file is not of the form `id: NAME`. -/
def fsMissingPortsThenBadState : FS :=
  fakeFS
    [("/sys/class/infiniband", [⟨"efa0", false⟩, ⟨"efa1", false⟩]),
     ("/sys/class/infiniband/efa1/ports", [⟨"1", false⟩])]
    [("/sys/class/infiniband/efa1/ports/1/state", "ACTIVE")]
    []

end Witness

/-! # Theorems -/

/-! ## strconv.ParseUint on literals -/

section ParseUintLemmas

open strconv

theorem lookup_mem {α β : Type} [DecidableEq α] (l : List (α × β)) (a : α) (b : β)
    (h : l.lookup a = some b) : (a, b) ∈ l := by
  induction l with
  | nil => simp at h
  | cons x l ih =>
    obtain ⟨x1, x2⟩ := x
    by_cases e : a = x1
    · subst e
      simp [List.lookup] at h
      subst h
      exact List.mem_cons_self _ _
    · have : (a == x1) = false := by simpa using e
      simp only [List.lookup, this] at h
      exact List.mem_cons_of_mem _ (ih h)

/-- A property of all entries of the digit table holds of every digit. -/
theorem digit_cases (P : Char → Nat → Prop) (hP : ∀ e ∈ Literal.digitTable, P e.1 e.2)
    (c : Char) (d : Nat) (h : Literal.digitValue c = some d) : P c d :=
  hP (c, d) (lookup_mem _ c d h)

/-- The digit switch of `ParseUint` computes the value of a digit. -/
theorem lower_digit_code (c : Char) (d : Nat) (h : Literal.digitValue c = some d) :
    c ≠ '_' ∧
    (if '0'.toNat ≤ c.toNat ∧ c.toNat ≤ '9'.toNat then some (c.toNat - '0'.toNat)
      else if 'a'.toNat ≤ lower c.toNat ∧ lower c.toNat ≤ 'z'.toNat then
        some (lower c.toNat - 'a'.toNat + 10)
      else none) = some d :=
  digit_cases (fun c d => c ≠ '_' ∧
    (if '0'.toNat ≤ c.toNat ∧ c.toNat ≤ '9'.toNat then some (c.toNat - '0'.toNat)
      else if 'a'.toNat ≤ lower c.toNat ∧ lower c.toNat ≤ 'z'.toNat then
        some (lower c.toNat - 'a'.toNat + 10)
      else none) = some d) (by decide) c d h

theorem digitsValue_le (base : Nat) (hb : 1 ≤ base) :
    ∀ (ds : List Char) (acc v : Nat), Literal.digitsValue base ds acc = some v → acc ≤ v := by
  intro ds
  induction ds with
  | nil => intro acc v h; simp [Literal.digitsValue] at h; omega
  | cons c ds ih =>
    intro acc v h
    simp only [Literal.digitsValue] at h
    split at h
    · split at h
      · have := ih _ _ h
        have : acc ≤ acc * base := Nat.le_mul_of_pos_right acc hb
        omega
      · cases h
    · cases h

theorem parseUintLoop_digits (base : Nat) (base0 : Bool) (hb : 2 ≤ base) :
    ∀ (ds : List Char) (n v : Nat) (u : Bool), Literal.digitsValue base ds n = some v →
      v < 2 ^ 64 →
      parseUintLoop base base0 (maxUint64 / base + 1) (2 ^ 64 - 1) ds n u = .ok (v, u) := by
  intro ds
  induction ds with
  | nil =>
    intro n v u h _
    simp [Literal.digitsValue] at h
    simp [parseUintLoop, h]
  | cons c ds ih =>
    intro n v u h hv
    simp only [Literal.digitsValue] at h
    cases hd : Literal.digitValue c with
    | none => simp [hd] at h
    | some d =>
      simp only [hd] at h
      by_cases hdb : d < base
      · simp only [hdb, if_true] at h
        have hle := digitsValue_le base (by omega) ds _ _ h
        obtain ⟨hc, hcode⟩ := lower_digit_code c d hd
        have hnb : n * base + d < 2 ^ 64 := by omega
        have hcut : ¬ (n ≥ maxUint64 / base + 1) := by
          have h1 : n * base ≤ maxUint64 := by unfold maxUint64; omega
          have h2 : n ≤ maxUint64 / base := (Nat.le_div_iff_mul_le (by omega)).2 h1
          omega
        have hm1 : (n * base) % 2 ^ 64 = n * base := Nat.mod_eq_of_lt (by omega)
        have hm2 : (n * base + d) % 2 ^ 64 = n * base + d := Nat.mod_eq_of_lt hnb
        unfold parseUintLoop
        simp only [hc, false_and, if_false, hcode]
        simp only [ge_iff_le, Nat.not_le.2 hdb, if_false, hcut, hm1, hm2]
        have : ¬ (n * base + d < n * base ∨ n * base + d > 2 ^ 64 - 1) := by omega
        simp only [this, if_false]
        exact ih _ _ u h hv
      · simp [hdb] at h

theorem String_ne_empty_of_data {s : String} {c : Char} {cs : List Char} (h : s.data = c :: cs) :
    s ≠ "" := by
  intro hs
  subst hs
  simp at h


theorem basePrefix_decimal (c : Char) (rest : List Char) (hc : c ≠ '0') :
    basePrefix (c :: rest) = (10, c :: rest) := by
  simp [basePrefix, hc]

theorem basePrefix_letter (p d : Char) (ds : List Char) :
    ((p = 'x' ∨ p = 'X') → basePrefix ('0' :: p :: d :: ds) = (16, d :: ds)) ∧
    ((p = 'o' ∨ p = 'O') → basePrefix ('0' :: p :: d :: ds) = (8, d :: ds)) ∧
    ((p = 'b' ∨ p = 'B') → basePrefix ('0' :: p :: d :: ds) = (2, d :: ds)) := by
  refine ⟨?_, ?_, ?_⟩ <;> rintro (rfl | rfl) <;> simp [basePrefix, lower]

theorem basePrefix_octal (p : Char) (ds : List Char) (d : Nat)
    (hp : Literal.digitValue p = some d) (hd : d < 8) :
    basePrefix ('0' :: p :: ds) = (8, p :: ds) := by
  have h := digit_cases (fun c d => d < 8 →
    lower c.toNat ≠ 98 ∧ lower c.toNat ≠ 111 ∧ lower c.toNat ≠ 120)
    (by decide) p d hp hd
  simp [basePrefix, h.1, h.2.1, h.2.2]

theorem ParseUint_literal (s : String) (v : Nat) (h : Literal.value s = some v)
    (hv : v < 2 ^ 64) : ParseUint s 0 64 = .ok v := by
  have hmax : ((1 <<< 64) % 2 ^ 64 + 2 ^ 64 - 1) % 2 ^ 64 = 2 ^ 64 - 1 := by decide
  have key : ∀ (base : Nat) (ds : List Char), 2 ≤ base → basePrefix s.data = (base, ds) →
      Literal.digitsValue base ds 0 = some v → s ≠ "" → ParseUint s 0 64 = .ok v := by
    intro base ds hb hbp hdv hne
    unfold ParseUint
    simp only [hne, if_false]
    have hloop := parseUintLoop_digits base true hb ds 0 v false hdv hv
    have e : (2 : Nat) ^ 64 - 1 = 18446744073709551615 := by norm_num
    rw [e] at hloop hmax
    simp [hbp, hmax, hloop]
  unfold Literal.value at h
  split at h
  · cases h
  · rename_i c rest hs
    have hne := String_ne_empty_of_data hs
    by_cases hc : c = '0'
    · subst hc
      simp only [if_true] at h
      split at h
      · cases h
        exact key 8 [] (by omega) (by rw [hs]; rfl) rfl hne
      · rename_i p ds
        by_cases hx : p = 'x' ∨ p = 'X'
        · simp only [hx, if_true] at h
          cases ds with
          | nil => simp at h
          | cons d ds =>
            simp only [reduceCtorEq, if_false] at h
            exact key 16 (d :: ds) (by omega) (by rw [hs]; exact (basePrefix_letter p d ds).1 hx) h hne
        · simp only [hx, if_false] at h
          by_cases ho : p = 'o' ∨ p = 'O'
          · simp only [ho, if_true] at h
            cases ds with
            | nil => simp at h
            | cons d ds =>
              simp only [reduceCtorEq, if_false] at h
              exact key 8 (d :: ds) (by omega) (by rw [hs]; exact (basePrefix_letter p d ds).2.1 ho) h hne
          · simp only [ho, if_false] at h
            by_cases hb : p = 'b' ∨ p = 'B'
            · simp only [hb, if_true] at h
              cases ds with
              | nil => simp at h
              | cons d ds =>
                simp only [reduceCtorEq, if_false] at h
                exact key 2 (d :: ds) (by omega) (by rw [hs]; exact (basePrefix_letter p d ds).2.2 hb) h hne
            · simp only [hb, if_false] at h
              have h0 := h
              simp only [Literal.digitsValue] at h0
              cases hd : Literal.digitValue p with
              | none => simp [hd] at h0
              | some d =>
                simp only [hd] at h0
                by_cases hd8 : d < 8
                · exact key 8 (p :: ds) (by omega) (by rw [hs]; exact basePrefix_octal p ds d hd hd8) h hne
                · simp [hd8] at h0
    · simp only [hc, if_false] at h
      exact key 10 (c :: rest) (by omega) (by rw [hs]; exact basePrefix_decimal c rest hc) h hne

end ParseUintLemmas

/-! ## The full counter parser: the loop -/

namespace Observability

theorem Counter.mem_all (k : Counter) : k ∈ Counter.all := by
  cases k <;> decide

theorem Counter.fileName_injective {k k2 : Counter} (h : k.fileName = k2.fileName) : k = k2 := by
  have hn : (Counter.all.map Counter.fileName).Nodup := by decide
  exact List.inj_on_of_nodup_map hn (Counter.mem_all k) (Counter.mem_all k2) h

theorem mem_knownNames {name : String} : name ∈ knownNames ↔ ∃ k : Counter, k.fileName = name := by
  unfold knownNames
  constructor
  · intro h
    obtain ⟨k, _, hk⟩ := List.mem_map.1 h
    exact ⟨k, hk⟩
  · rintro ⟨k, rfl⟩
    exact List.mem_map.2 ⟨k, Counter.mem_all k, rfl⟩

theorem get_set (c : AmazonEfaCounters) (k k2 : Counter) (v : Option Nat) :
    (c.set k v).get k2 = if k2 = k then v else c.get k2 := by
  cases k <;> cases k2 <;> rfl

theorem set_get_self (c : AmazonEfaCounters) (k : Counter) : c.set k (c.get k) = c := by
  cases k <;> rfl

theorem get_empty (k : Counter) : ({} : AmazonEfaCounters).get k = none := by
  cases k <;> rfl

theorem counterSwitch_known (c : AmazonEfaCounters) (k : Counter) (value : String) :
    counterSwitch c k.fileName value = (c.set k (parseUInt64 value).1, (parseUInt64 value).2) := by
  cases k <;> rfl

theorem counterSwitch_unknown (c : AmazonEfaCounters) (name value : String)
    (h : name ∉ knownNames) : counterSwitch c name value = (c, none) := by
  unfold counterSwitch
  split <;> first | rfl | (exfalso; exact h (by decide))


theorem countersLoop_append (fs : FS) (path : String) (pre rest : List FileInfo) :
    ∀ c0 : AmazonEfaCounters, countersLoop fs path (pre ++ rest) c0 =
      match countersLoop fs path pre c0 with
      | .error err => .error err
      | .ok c => countersLoop fs path rest c := by
  induction pre with
  | nil => intro c0; simp [countersLoop]
  | cons f pre ih =>
    intro c0
    simp only [List.cons_append, countersLoop]
    split
    · exact ih c0
    · split
      · split
        · exact ih c0
        · rfl
      · split
        · split
          · exact ih _
          · rfl
        · exact ih _

/-- One step of the loop on a regular file whose read succeeded. -/
theorem countersLoop_cons_read (fs : FS) (path : String) (f : FileInfo) (files : List FileInfo)
    (c0 : AmazonEfaCounters) (value : String) (hreg : f.IsRegular = true)
    (hread : fs.SysReadFile (filepath.Join [path, f.Name]) = .ok value) :
    countersLoop fs path (f :: files) c0 =
      if (counterSwitch c0 f.Name value).2 = none ∨ strings.Contains value noPMA = true then
        countersLoop fs path files (counterSwitch c0 f.Name value).1
      else
        .error (.wrap ("failed to parse counter " ++ f.Name ++ " with value " ++
          strconv.Quote value ++ ": ") ((counterSwitch c0 f.Name value).2.getD (.plain ""))) := by
  simp only [countersLoop, hreg, hread]
  rcases counterSwitch c0 f.Name value with ⟨c1, _ | err⟩
  · simp
  · by_cases hs : strings.Contains value noPMA = true <;> simp [hs]

theorem countersLoop_cons_unknown (fs : FS) (path : String) (f : FileInfo)
    (files : List FileInfo) (c0 : AmazonEfaCounters) (value : String) (hreg : f.IsRegular = true)
    (hread : fs.SysReadFile (filepath.Join [path, f.Name]) = .ok value)
    (hname : f.Name ∉ knownNames) :
    countersLoop fs path (f :: files) c0 = countersLoop fs path files c0 := by
  rw [countersLoop_cons_read fs path f files c0 value hreg hread,
    counterSwitch_unknown c0 f.Name value hname]
  simp

theorem countersLoop_cons_skip (fs : FS) (path : String) (f : FileInfo)
    (files : List FileInfo) (c0 : AmazonEfaCounters) (err : GoError) (hreg : f.IsRegular = true)
    (hread : fs.SysReadFile (filepath.Join [path, f.Name]) = .error err)
    (hskip : skipReadError err = true) :
    countersLoop fs path (f :: files) c0 = countersLoop fs path files c0 := by
  simp [countersLoop, hreg, hread, hskip]

theorem countersLoop_cons_fatal (fs : FS) (path : String) (f : FileInfo)
    (files : List FileInfo) (c0 : AmazonEfaCounters) (err : GoError) (hreg : f.IsRegular = true)
    (hread : fs.SysReadFile (filepath.Join [path, f.Name]) = .error err)
    (hskip : skipReadError err = false) :
    countersLoop fs path (f :: files) c0 =
      .error (.wrap ("failed to read file " ++ strconv.Quote (filepath.Join [path, f.Name]) ++
        ": ") err) := by
  simp [countersLoop, hreg, hread, hskip]

/-- The loop changes only the fields named by the files it visits. -/
theorem countersLoop_get_frame (fs : FS) (path : String) (k : Counter) :
    ∀ (files : List FileInfo) (c0 c : AmazonEfaCounters),
      (∀ f ∈ files, f.Name ≠ k.fileName) → countersLoop fs path files c0 = .ok c →
      c.get k = c0.get k := by
  intro files
  induction files with
  | nil => intro c0 c _ h; simp [countersLoop] at h; rw [h]
  | cons f files ih =>
    intro c0 c hne h
    have hf : f.Name ≠ k.fileName := hne f (List.mem_cons_self _ _)
    have htl : ∀ g ∈ files, g.Name ≠ k.fileName := fun g hg => hne g (List.mem_cons_of_mem _ hg)
    have hsw : ∀ value, ((counterSwitch c0 f.Name value).1).get k = c0.get k := by
      intro value
      by_cases hk : f.Name ∈ knownNames
      · obtain ⟨k2, hk2⟩ := mem_knownNames.1 hk
        rw [← hk2, counterSwitch_known, get_set]
        have : k ≠ k2 := by
          intro e; subst e; exact hf hk2.symm
        simp [this]
      · rw [counterSwitch_unknown c0 f.Name value hk]
    simp only [countersLoop] at h
    split at h
    · exact ih c0 c htl h
    · split at h
      · split at h
        · exact ih c0 c htl h
        · cases h
      · rename_i value hread
        split at h
        · rename_i c1 err hc1
          split at h
          · rw [ih c1 c htl h]
            have := hsw value
            rw [hc1] at this
            exact this
          · cases h
        · rename_i c1 hc1
          rw [ih c1 c htl h]
          have := hsw value
          rw [hc1] at this
          exact this


theorem parseUInt64_literal (text : String) (v : Nat) (h : Literal.value text = some v)
    (hv : v < 2 ^ 64) : parseUInt64 text = (some v, none) := by
  simp [parseUInt64, ParseUint_literal text v h hv]

theorem countersLoop_wellFormed (fs : FS) (path : String) :
    ∀ (files : List FileInfo) (c0 : AmazonEfaCounters),
      (files.map FileInfo.Name).Nodup →
      (∀ f ∈ files, f.IsRegular = true →
        ∃ text, fs.SysReadFile (filepath.Join [path, f.Name]) = .ok text ∧
          (f.Name ∈ knownNames → ∃ v, Literal.value text = some v ∧ v < 2 ^ 64)) →
      ∃ c, countersLoop fs path files c0 = .ok c ∧
        (∀ f ∈ files, f.IsRegular = true → ∀ k : Counter, f.Name = k.fileName → ∀ text,
          fs.SysReadFile (filepath.Join [path, f.Name]) = .ok text →
          c.get k = Literal.value text) ∧
        (∀ k : Counter, (∀ f ∈ files, f.IsRegular = true → f.Name ≠ k.fileName) →
          c.get k = c0.get k) := by
  intro files
  induction files with
  | nil =>
    intro c0 _ _
    exact ⟨c0, rfl, by simp, fun _ _ => rfl⟩
  | cons f files ih =>
    intro c0 hnd hfiles
    have hnd2 : (files.map FileInfo.Name).Nodup := (List.nodup_cons.1 hnd).2
    have hnotin : f.Name ∉ files.map FileInfo.Name := (List.nodup_cons.1 hnd).1
    have htl : ∀ g ∈ files, g.IsRegular = true →
        ∃ text, fs.SysReadFile (filepath.Join [path, g.Name]) = .ok text ∧
          (g.Name ∈ knownNames → ∃ v, Literal.value text = some v ∧ v < 2 ^ 64) :=
      fun g hg => hfiles g (List.mem_cons_of_mem _ hg)
    by_cases hreg : f.IsRegular = true
    · obtain ⟨text, hread, hlit⟩ := hfiles f (List.mem_cons_self _ _) hreg
      by_cases hk : f.Name ∈ knownNames
      · obtain ⟨k0, hk0⟩ := mem_knownNames.1 hk
        obtain ⟨v, hval, hv⟩ := hlit hk
        obtain ⟨c, hc, hget, hframe⟩ := ih (c0.set k0 (some v)) hnd2 htl
        have hstep : countersLoop fs path (f :: files) c0 =
            countersLoop fs path files (c0.set k0 (some v)) := by
          rw [countersLoop_cons_read fs path f files c0 text hreg hread, ← hk0,
            counterSwitch_known, parseUInt64_literal text v hval hv]
          simp
        have hk0free : ∀ g ∈ files, g.IsRegular = true → g.Name ≠ k0.fileName := by
          intro g hg _ e
          exact hnotin (List.mem_map.2 ⟨g, hg, by rw [e, hk0]⟩)
        refine ⟨c, by rw [hstep, hc], ?_, ?_⟩
        · intro g hg hgreg k hgk text2 hread2
          rcases List.mem_cons.1 hg with rfl | hg
          · have hkk : k = k0 := Counter.fileName_injective (by rw [← hgk, hk0])
            subst hkk
            rw [hread] at hread2
            cases hread2
            rw [hframe k hk0free, get_set, if_pos rfl, hval]
          · exact hget g hg hgreg k hgk text2 hread2
        · intro k hkfree
          have hne : k ≠ k0 := by
            intro e
            subst e
            exact hkfree f (List.mem_cons_self _ _) hreg hk0.symm
          rw [hframe k (fun g hg hr => hkfree g (List.mem_cons_of_mem _ hg) hr), get_set,
            if_neg hne]
      · obtain ⟨c, hc, hget, hframe⟩ := ih c0 hnd2 htl
        refine ⟨c, by rw [countersLoop_cons_unknown fs path f files c0 text hreg hread hk, hc],
          ?_, ?_⟩
        · intro g hg hgreg k hgk text2 hread2
          rcases List.mem_cons.1 hg with rfl | hg
          · exact absurd (mem_knownNames.2 ⟨k, hgk.symm⟩) hk
          · exact hget g hg hgreg k hgk text2 hread2
        · intro k hkfree
          exact hframe k (fun g hg hr => hkfree g (List.mem_cons_of_mem _ hg) hr)
    · obtain ⟨c, hc, hget, hframe⟩ := ih c0 hnd2 htl
      have hreg2 : f.IsRegular = false := by simpa using hreg
      refine ⟨c, by simp [countersLoop, hreg2, hc], ?_, ?_⟩
      · intro g hg hgreg k hgk text2 hread2
        rcases List.mem_cons.1 hg with rfl | hg
        · exact absurd hgreg hreg
        · exact hget g hg hgreg k hgk text2 hread2
      · intro k hkfree
        exact hframe k (fun g hg hr => hkfree g (List.mem_cons_of_mem _ hg) hr)

end Observability

/-! ## The sentinel -/

section SentinelLemmas
open strconv

theorem parseUintLoop_slash (base : Nat) (base0 : Bool) (cutoff maxVal : Nat) :
    ∀ (cs : List Char) (n : Nat) (u : Bool), '/' ∈ cs →
      ∃ e, parseUintLoop base base0 cutoff maxVal cs n u = .error e := by
  intro cs
  induction cs with
  | nil => intro n u h; simp at h
  | cons c cs ih =>
    intro n u h
    by_cases hc : c = '/'
    · subst hc
      exact ⟨.ErrSyntax, by simp [parseUintLoop, lower]⟩
    · have hmem : '/' ∈ cs := by
        rcases List.mem_cons.1 h with h | h
        · exact absurd h.symm hc
        · exact h
      unfold parseUintLoop
      split
      · exact ih _ _ hmem
      · dsimp only
        split
        · exact ⟨_, rfl⟩
        · split
          · exact ⟨_, rfl⟩
          · split
            · exact ⟨_, rfl⟩
            · split
              · exact ⟨_, rfl⟩
              · exact ih _ _ hmem

theorem basePrefix_slash (s : List Char) (h : '/' ∈ s) : '/' ∈ (basePrefix s).2 := by
  unfold basePrefix
  match s, h with
  | [c0], h =>
    simp at h
    subst h
    simp
  | [c0, c1], h =>
    by_cases h0 : c0 = '0'
    · subst h0
      simp at h
      subst h
      simp
    · simp [h0]
      simpa using h
  | c0 :: c1 :: c2 :: rest, h =>
    by_cases h0 : c0 = '0'
    · subst h0
      have h1 : '/' ∈ c1 :: c2 :: rest := by simpa using h
      have hdrop : c1 = '/' → lower c1.toNat ≠ 'b'.toNat ∧ lower c1.toNat ≠ 'o'.toNat ∧
          lower c1.toNat ≠ 'x'.toNat := by
        rintro rfl; decide
      simp only [List.head?_cons, if_true, List.length_cons, List.getD_cons_succ,
        List.getD_cons_zero, List.drop_succ_cons, List.drop_zero]
      split
      · rename_i hb
        rcases List.mem_cons.1 h1 with e | e
        · exact absurd hb.2 (hdrop e.symm).1
        · exact e
      · split
        · rename_i ho
          rcases List.mem_cons.1 h1 with e | e
          · exact absurd ho.2 (hdrop e.symm).2.1
          · exact e
        · split
          · rename_i hx
            rcases List.mem_cons.1 h1 with e | e
            · exact absurd hx.2 (hdrop e.symm).2.2
            · exact e
          · exact h1
    · simp [h0]
      simpa using h

theorem containsList_mem (sub : List Char) (c : Char) (hc : c ∈ sub) :
    ∀ s : List Char, strings.containsList s sub = true → c ∈ s := by
  intro s
  induction s with
  | nil =>
    intro h
    simp [strings.containsList] at h
    subst h
    simp at hc
  | cons a s ih =>
    intro h
    simp only [strings.containsList, Bool.or_eq_true] at h
    rcases h with h | h
    · exact (List.isPrefixOf_iff_prefix.1 h).subset hc
    · exact List.mem_cons_of_mem _ (ih h)

theorem ParseUint_slash (s : String) (h : '/' ∈ s.data) : ∃ err, ParseUint s 0 64 = .error err := by
  unfold ParseUint
  split
  · exact ⟨_, rfl⟩
  · simp only [show (0 : Nat) = 0 from rfl, or_true, not_true_eq_false, if_false, if_true]
    have hb := basePrefix_slash s.data h
    obtain ⟨e, he⟩ := parseUintLoop_slash (basePrefix s.data).1 (0 == 0)
      (maxUint64 / (basePrefix s.data).1 + 1) (((1 <<< 64) % 2 ^ 64 + 2 ^ 64 - 1) % 2 ^ 64)
      (basePrefix s.data).2 0 false hb
    simp only [show ¬ (64 = 0) by decide, if_false, show ¬ (64 > 64) by decide]
    rw [he]
    exact ⟨_, rfl⟩

/-- A text that contains the sentinel is not parsed: the error is set and the
pointer is nil. -/
theorem parseUInt64_noPMA (value : String) (h : strings.Contains value noPMA = true) :
    ∃ err, parseUInt64 value = (none, some err) := by
  have hmem : '/' ∈ value.data := containsList_mem noPMA.data '/' (by decide) value.data h
  obtain ⟨err, he⟩ := ParseUint_slash value hmem
  exact ⟨err, by simp [parseUInt64, he]⟩

end SentinelLemmas

/-! ## The full counter parser: results -/

namespace Observability

/-- C1. When every regular file of a port's hw_counters directory is read
successfully and the text read (what `util.SysReadFile` returns) of every one
named by a known counter is a well-formed unsigned literal below 2^64,
`parseAmazonEfaCounters` returns a counter set and no error; the field of every
such file is present and equals the integer the text denotes, and a field no
regular file names stays absent. -/
theorem parseAmazonEfaCounters_literals (fs : FS) (portPath : String) (files : List FileInfo)
    (hdir : fs.ReadDir (filepath.Join [portPath, "hw_counters"]) = .ok files)
    (hnodup : (files.map FileInfo.Name).Nodup)
    (hfiles : ∀ f ∈ files, f.IsRegular = true →
      ∃ text, fs.SysReadFile (filepath.Join [filepath.Join [portPath, "hw_counters"], f.Name])
          = .ok text ∧
        (f.Name ∈ knownNames → ∃ v, Literal.value text = some v ∧ v < 2 ^ 64)) :
    ∃ counters, parseAmazonEfaCounters fs portPath = .ok counters ∧
      (∀ f ∈ files, f.IsRegular = true → ∀ k : Counter, f.Name = k.fileName → ∀ text,
        fs.SysReadFile (filepath.Join [filepath.Join [portPath, "hw_counters"], f.Name])
          = .ok text →
        (counters.get k).isSome = true ∧ counters.get k = Literal.value text) ∧
      (∀ k : Counter, (∀ f ∈ files, f.IsRegular = true → f.Name ≠ k.fileName) →
        counters.get k = none) := by
  obtain ⟨c, hc, hget, hframe⟩ :=
    countersLoop_wellFormed fs (filepath.Join [portPath, "hw_counters"]) files {} hnodup hfiles
  refine ⟨c, by simp [parseAmazonEfaCounters, hdir, hc], ?_, ?_⟩
  · intro f hf hreg k hk text hread
    have h1 := hget f hf hreg k hk text hread
    obtain ⟨text2, hread2, hlit⟩ := hfiles f hf hreg
    rw [hread] at hread2
    cases hread2
    obtain ⟨v, hv, _⟩ := hlit (mem_knownNames.2 ⟨k, hk.symm⟩)
    rw [h1, hv]
    exact ⟨rfl, rfl⟩
  · intro k hk
    rw [hframe k hk, get_empty]

theorem parseAmazonEfaCounters_literals_witness :
    ∃ counters, parseAmazonEfaCounters Witness.fsLiterals Witness.port1 = .ok counters ∧
      counters.RxBytes = some 12345 ∧ counters.RxPkts = some 15 ∧ counters.TxBytes = some 31 ∧
      counters.RxDrops = none := by
  obtain ⟨c, hc, hget, hframe⟩ := parseAmazonEfaCounters_literals Witness.fsLiterals Witness.port1
    [⟨"extra", true⟩, ⟨"rx_bytes", true⟩, ⟨"rx_pkts", true⟩, ⟨"sub", false⟩, ⟨"tx_bytes", true⟩]
    (by decide) (by decide)
    (by
      intro f hf hreg
      simp only [List.mem_cons, List.mem_singleton, List.not_mem_nil, or_false] at hf
      rcases hf with rfl | rfl | rfl | rfl | rfl
      · exact ⟨"junk", by decide, fun h => absurd h (by decide)⟩
      · exact ⟨"12345", by decide, fun _ => ⟨12345, by decide, by decide⟩⟩
      · exact ⟨"017", by decide, fun _ => ⟨15, by decide, by decide⟩⟩
      · exact absurd hreg (by decide)
      · exact ⟨"0x1F", by decide, fun _ => ⟨31, by decide, by decide⟩⟩)
  refine ⟨c, hc, ?_, ?_, ?_, ?_⟩
  · exact (hget ⟨"rx_bytes", true⟩ (by decide) rfl .RxBytes rfl "12345" (by decide)).2
  · exact (hget ⟨"rx_pkts", true⟩ (by decide) rfl .RxPkts rfl "017" (by decide)).2
  · exact (hget ⟨"tx_bytes", true⟩ (by decide) rfl .TxBytes rfl "0x1F" (by decide)).2
  · exact hframe .RxDrops (by decide)

theorem countersLoop_withDir (fs : FS) (dir : String) (listing : List FileInfo) (path : String) :
    ∀ (files : List FileInfo) (c0 : AmazonEfaCounters),
      countersLoop (fs.withDir dir listing) path files c0 = countersLoop fs path files c0 := by
  intro files
  induction files with
  | nil => intro c0; rfl
  | cons f files ih =>
    intro c0
    simp only [countersLoop, ih]
    rfl

theorem parseAmazonEfaCounters_withDir (fs : FS) (portPath : String) (listing : List FileInfo) :
    parseAmazonEfaCounters (fs.withDir (filepath.Join [portPath, "hw_counters"]) listing) portPath
      = countersLoop fs (filepath.Join [portPath, "hw_counters"]) listing {} := by
  simp [parseAmazonEfaCounters, FS.withDir]
  exact countersLoop_withDir fs _ listing _ listing {}

theorem parseAmazonEfaCounters_of_dir (fs : FS) (portPath : String) (files : List FileInfo)
    (hdir : fs.ReadDir (filepath.Join [portPath, "hw_counters"]) = .ok files) :
    parseAmazonEfaCounters fs portPath
      = countersLoop fs (filepath.Join [portPath, "hw_counters"]) files {} := by
  simp [parseAmazonEfaCounters, hdir]

/-- Dropping a file whose step leaves the counter set as it is. -/
theorem countersLoop_drop (fs : FS) (path : String) (pre post : List FileInfo) (f : FileInfo)
    (c0 : AmazonEfaCounters)
    (hstep : ∀ c, countersLoop fs path pre c0 = .ok c →
      countersLoop fs path (f :: post) c = countersLoop fs path post c) :
    countersLoop fs path (pre ++ f :: post) c0 = countersLoop fs path (pre ++ post) c0 := by
  rw [countersLoop_append, countersLoop_append]
  cases h : countersLoop fs path pre c0 with
  | error e => rfl
  | ok c => exact hstep c h


/-- C10. A readable regular file of hw_counters whose name is not a known
counter name changes nothing, whatever it holds: `parseAmazonEfaCounters`
returns the same counter set, or the same error, as on the directory without
that file. -/
theorem parseAmazonEfaCounters_unknown_name (fs : FS) (portPath : String)
    (pre post : List FileInfo) (f : FileInfo) (text : String)
    (hdir : fs.ReadDir (filepath.Join [portPath, "hw_counters"]) = .ok (pre ++ f :: post))
    (hreg : f.IsRegular = true)
    (hread : fs.SysReadFile (filepath.Join [filepath.Join [portPath, "hw_counters"], f.Name])
      = .ok text)
    (hname : f.Name ∉ knownNames) :
    parseAmazonEfaCounters fs portPath =
      parseAmazonEfaCounters (fs.withDir (filepath.Join [portPath, "hw_counters"]) (pre ++ post))
        portPath := by
  rw [parseAmazonEfaCounters_withDir, parseAmazonEfaCounters_of_dir fs portPath _ hdir]
  exact countersLoop_drop fs _ pre post f {}
    (fun c _ => countersLoop_cons_unknown fs _ f post c text hreg hread hname)

theorem parseAmazonEfaCounters_unknown_name_witness :
    parseAmazonEfaCounters Witness.fsLiterals Witness.port1 =
      parseAmazonEfaCounters (Witness.fsLiterals.withDir
        (filepath.Join [Witness.port1, "hw_counters"])
        [⟨"rx_bytes", true⟩, ⟨"rx_pkts", true⟩, ⟨"sub", false⟩, ⟨"tx_bytes", true⟩]) Witness.port1 ∧
    parseAmazonEfaCounters Witness.fsLiterals Witness.port1 =
      .ok { RxBytes := some 12345, RxPkts := some 15, TxBytes := some 31 } :=
  ⟨parseAmazonEfaCounters_unknown_name Witness.fsLiterals Witness.port1 []
      [⟨"rx_bytes", true⟩, ⟨"rx_pkts", true⟩, ⟨"sub", false⟩, ⟨"tx_bytes", true⟩]
      ⟨"extra", true⟩ "junk" (by decide) (by decide) (by decide) (by decide),
    by decide⟩

/-- C9. When the read of a regular counter file fails: if the failure is does
not exist, permission denied, or has the message operation not supported or
invalid argument, the file is skipped: the result is that of the directory
without the file, and (names being unique) the field of that name is absent
from a returned counter set.  After any other failure
`parseAmazonEfaCounters` returns an error, whatever the name of the file; it
wraps the read error when the files listed before were processed. -/
theorem parseAmazonEfaCounters_read_error (fs : FS) (portPath : String)
    (pre post : List FileInfo) (f : FileInfo) (err : GoError)
    (hdir : fs.ReadDir (filepath.Join [portPath, "hw_counters"]) = .ok (pre ++ f :: post))
    (hreg : f.IsRegular = true)
    (hread : fs.SysReadFile (filepath.Join [filepath.Join [portPath, "hw_counters"], f.Name])
      = .error err) :
    ((os.IsNotExist err = true ∨ os.IsPermission err = true ∨
        err.Error = "operation not supported" ∨ err.Error = "invalid argument") →
      parseAmazonEfaCounters fs portPath =
        parseAmazonEfaCounters
          (fs.withDir (filepath.Join [portPath, "hw_counters"]) (pre ++ post)) portPath ∧
      (((pre ++ f :: post).map FileInfo.Name).Nodup → ∀ (k : Counter) (c : AmazonEfaCounters),
        f.Name = k.fileName → parseAmazonEfaCounters fs portPath = .ok c → c.get k = none)) ∧
    (¬ (os.IsNotExist err = true ∨ os.IsPermission err = true ∨
        err.Error = "operation not supported" ∨ err.Error = "invalid argument") →
      (∃ e, parseAmazonEfaCounters fs portPath = .error e) ∧
      ∀ c, countersLoop fs (filepath.Join [portPath, "hw_counters"]) pre {} = .ok c →
        parseAmazonEfaCounters fs portPath = .error (.wrap ("failed to read file " ++
          strconv.Quote (filepath.Join [filepath.Join [portPath, "hw_counters"], f.Name]) ++ ": ")
          err)) := by
  have hskip : skipReadError err = true ↔ (os.IsNotExist err = true ∨ os.IsPermission err = true ∨
      err.Error = "operation not supported" ∨ err.Error = "invalid argument") := by
    simp [skipReadError, or_assoc]
  constructor
  · intro h
    have hs := hskip.2 h
    have heq : parseAmazonEfaCounters fs portPath =
        parseAmazonEfaCounters
          (fs.withDir (filepath.Join [portPath, "hw_counters"]) (pre ++ post)) portPath := by
      rw [parseAmazonEfaCounters_withDir, parseAmazonEfaCounters_of_dir fs portPath _ hdir]
      exact countersLoop_drop fs _ pre post f {}
        (fun c _ => countersLoop_cons_skip fs _ f post c err hreg hread hs)
    refine ⟨heq, ?_⟩
    intro hnd k c hk hc
    rw [heq, parseAmazonEfaCounters_withDir] at hc
    have hfree : ∀ g ∈ pre ++ post, g.Name ≠ k.fileName := by
      intro g hg e
      have hnd2 := hnd
      rw [List.map_append, List.map_cons] at hnd2
      have hmid := List.nodup_middle.1 hnd2
      rw [← List.map_append] at hmid
      exact (List.nodup_cons.1 hmid).1 (List.mem_map.2 ⟨g, hg, by rw [e, hk]⟩)
    rw [countersLoop_get_frame fs _ k (pre ++ post) {} c hfree hc, get_empty]
  · intro h
    have hs : skipReadError err = false := by
      rw [← Bool.not_eq_true]
      exact fun e => h (hskip.1 e)
    rw [parseAmazonEfaCounters_of_dir fs portPath _ hdir, countersLoop_append]
    constructor
    · cases hp : countersLoop fs (filepath.Join [portPath, "hw_counters"]) pre {} with
      | error e => exact ⟨e, rfl⟩
      | ok c => exact ⟨_, countersLoop_cons_fatal fs _ f post c err hreg hread hs⟩
    · intro c hc
      rw [hc]
      exact countersLoop_cons_fatal fs _ f post c err hreg hread hs

theorem parseAmazonEfaCounters_read_error_witness :
    parseAmazonEfaCounters (Witness.fsReadError (.errno syscall.EINVAL)) Witness.port1 =
      .ok { RxBytes := some 12345 } ∧
    parseAmazonEfaCounters (Witness.fsReadError (.errno syscall.EIO)) Witness.port1 =
      .error (.wrap "failed to read file \"/sys/class/infiniband/efa0/ports/1/hw_counters/rx_drops\": "
        (.errno syscall.EIO)) := by
  have h1 := (parseAmazonEfaCounters_read_error (Witness.fsReadError (.errno syscall.EINVAL))
    Witness.port1 [⟨"rx_bytes", true⟩] [] ⟨"rx_drops", true⟩ (.errno syscall.EINVAL)
    (by decide) (by decide) (by decide)).1 (by decide)
  have h2 := (parseAmazonEfaCounters_read_error (Witness.fsReadError (.errno syscall.EIO))
    Witness.port1 [⟨"rx_bytes", true⟩] [] ⟨"rx_drops", true⟩ (.errno syscall.EIO)
    (by decide) (by decide) (by decide)).2 (by decide)
  refine ⟨?_, ?_⟩
  · rw [h1.1]; decide
  · rw [h2.2 { RxBytes := some 12345 } (by decide)]; decide


/-- C2. A regular file named by a known counter whose text contains
`N/A (no PMA)` raises no error and leaves its field absent: the result of
`parseAmazonEfaCounters` is that of the directory without the file (the other
files are parsed as before), the field is `none` in a returned counter set,
and a counter set is returned when the other regular files are readable and
the known ones hold literals. -/
theorem parseAmazonEfaCounters_noPMA (fs : FS) (portPath : String)
    (pre post : List FileInfo) (f : FileInfo) (k : Counter) (text : String)
    (hdir : fs.ReadDir (filepath.Join [portPath, "hw_counters"]) = .ok (pre ++ f :: post))
    (hnodup : ((pre ++ f :: post).map FileInfo.Name).Nodup)
    (hreg : f.IsRegular = true) (hname : f.Name = k.fileName)
    (hread : fs.SysReadFile (filepath.Join [filepath.Join [portPath, "hw_counters"], f.Name])
      = .ok text)
    (hsentinel : strings.Contains text noPMA = true) :
    parseAmazonEfaCounters fs portPath =
      parseAmazonEfaCounters
        (fs.withDir (filepath.Join [portPath, "hw_counters"]) (pre ++ post)) portPath ∧
    (∀ c, parseAmazonEfaCounters fs portPath = .ok c → c.get k = none) ∧
    ((∀ g ∈ pre ++ post, g.IsRegular = true →
        ∃ t, fs.SysReadFile (filepath.Join [filepath.Join [portPath, "hw_counters"], g.Name])
            = .ok t ∧
          (g.Name ∈ knownNames → ∃ v, Literal.value t = some v ∧ v < 2 ^ 64)) →
      ∃ c, parseAmazonEfaCounters fs portPath = .ok c ∧ c.get k = none) := by
  have hmid : ((pre ++ post).map FileInfo.Name).Nodup ∧
      f.Name ∉ (pre ++ post).map FileInfo.Name := by
    have hnd2 := hnodup
    rw [List.map_append, List.map_cons] at hnd2
    have h := List.nodup_middle.1 hnd2
    rw [← List.map_append] at h
    exact ⟨(List.nodup_cons.1 h).2, (List.nodup_cons.1 h).1⟩
  have hfree : ∀ g ∈ pre ++ post, g.Name ≠ k.fileName := by
    intro g hg e
    exact hmid.2 (List.mem_map.2 ⟨g, hg, by rw [e, hname]⟩)
  have heq : parseAmazonEfaCounters fs portPath =
      parseAmazonEfaCounters
        (fs.withDir (filepath.Join [portPath, "hw_counters"]) (pre ++ post)) portPath := by
    rw [parseAmazonEfaCounters_withDir, parseAmazonEfaCounters_of_dir fs portPath _ hdir]
    apply countersLoop_drop
    intro c hc
    have hnone : c.get k = none := by
      rw [countersLoop_get_frame fs _ k pre {} c
        (fun g hg => hfree g (List.mem_append_left _ hg)) hc, get_empty]
    obtain ⟨err, herr⟩ := parseUInt64_noPMA text hsentinel
    rw [countersLoop_cons_read fs _ f post c text hreg hread, hname, counterSwitch_known, herr]
    simp only [hsentinel, or_true, if_true]
    rw [← hnone, set_get_self]
  have habsent : ∀ c, parseAmazonEfaCounters fs portPath = .ok c → c.get k = none := by
    intro c hc
    rw [heq, parseAmazonEfaCounters_withDir] at hc
    rw [countersLoop_get_frame fs _ k (pre ++ post) {} c hfree hc, get_empty]
  refine ⟨heq, habsent, ?_⟩
  intro hrest
  obtain ⟨c, hc, _, _⟩ :=
    countersLoop_wellFormed fs (filepath.Join [portPath, "hw_counters"]) (pre ++ post) {}
      hmid.1 hrest
  have hc2 : parseAmazonEfaCounters fs portPath = .ok c := by
    rw [heq, parseAmazonEfaCounters_withDir, hc]
  exact ⟨c, hc2, habsent c hc2⟩

theorem parseAmazonEfaCounters_noPMA_witness :
    parseAmazonEfaCounters Witness.fsScenario Witness.port1 = .ok { RxBytes := some 12345 } ∧
    (∃ c, parseAmazonEfaCounters Witness.fsScenario Witness.port1 = .ok c ∧ c.RxDrops = none) := by
  have h := parseAmazonEfaCounters_noPMA Witness.fsScenario Witness.port1
    [⟨"rx_bytes", true⟩] [] ⟨"rx_drops", true⟩ .RxDrops "N/A (no PMA)"
    (by decide) (by decide) (by decide) (by decide) (by decide) (by decide)
  refine ⟨by rw [h.1]; decide, h.2.2 ?_⟩
  intro g hg _
  simp only [List.append_nil, List.mem_singleton] at hg
  subst hg
  exact ⟨"12345", by decide, fun _ => ⟨12345, by decide, by decide⟩⟩

end Observability

/-! ## Go maps -/

theorem mapInsert_keys_subset {α β : Type} [DecidableEq α] (m : List (α × β)) (k : α) (v : β) :
    ∀ e ∈ mapInsert m k v, e = (k, v) ∨ e ∈ m := by
  induction m with
  | nil => intro e he; simp [mapInsert] at he; exact Or.inl he
  | cons kv m ih =>
    obtain ⟨k0, v0⟩ := kv
    intro e he
    simp only [mapInsert] at he
    split at he
    · rcases List.mem_cons.1 he with h | h
      · exact Or.inl h
      · exact Or.inr (List.mem_cons_of_mem _ h)
    · rcases List.mem_cons.1 he with h | h
      · exact Or.inr (h ▸ List.mem_cons_self _ _)
      · rcases ih e h with h | h
        · exact Or.inl h
        · exact Or.inr (List.mem_cons_of_mem _ h)

theorem mapInsert_nodup {α β : Type} [DecidableEq α] (m : List (α × β)) (k : α) (v : β)
    (h : (m.map Prod.fst).Nodup) : ((mapInsert m k v).map Prod.fst).Nodup := by
  induction m with
  | nil => simp [mapInsert]
  | cons kv m ih =>
    obtain ⟨k0, v0⟩ := kv
    simp only [List.map_cons, List.nodup_cons] at h
    simp only [mapInsert]
    split
    · rename_i hk
      subst hk
      simpa using h
    · rename_i hk
      simp only [List.map_cons, List.nodup_cons]
      refine ⟨?_, ih h.2⟩
      intro hmem
      obtain ⟨e, he, hek⟩ := List.mem_map.1 hmem
      rcases mapInsert_keys_subset m k v e he with h1 | h1
      · subst h1
        exact hk hek.symm
      · exact h.1 (List.mem_map.2 ⟨e, h1, hek⟩)

/-! ## Enumeration -/

section Enumeration

variable {κ : Type} (parseCounters : FS → String → Except GoError κ) (fs : FS)

theorem parseUintLoop_le (base : Nat) (base0 : Bool) (cutoff maxVal : Nat) :
    ∀ (cs : List Char) (n : Nat) (u : Bool) (r : Nat × Bool),
      strconv.parseUintLoop base base0 cutoff maxVal cs n u = .ok r → n ≤ maxVal →
      r.1 ≤ maxVal := by
  intro cs
  induction cs with
  | nil =>
    intro n u r h hn
    simp [strconv.parseUintLoop] at h
    subst h
    exact hn
  | cons c cs ih =>
    intro n u r h hn
    unfold strconv.parseUintLoop at h
    split at h
    · exact ih _ _ _ h hn
    · dsimp only at h
      split at h
      · cases h
      · split at h
        · cases h
        · split at h
          · cases h
          · split at h
            · cases h
            · rename_i hcond
              exact ih _ _ _ h (by omega)

theorem ParseUint_10_32_lt (s : String) (n : Nat) (h : strconv.ParseUint s 10 32 = .ok n) :
    n < 2 ^ 32 := by
  unfold strconv.ParseUint at h
  split at h
  · cases h
  · rw [if_neg (by decide)] at h
    simp only [show ¬ ((10 : Nat) = 0) by decide, show ¬ ((32 : Nat) = 0) by decide,
      show ¬ ((32 : Nat) > 64) by decide, if_false] at h
    split at h
    · cases h
    · rename_i n2 u hloop
      have hle := parseUintLoop_le _ _ _ _ _ _ _ _ hloop (Nat.zero_le _)
      split at h
      · cases h
      · cases h
        have e : ((1 <<< 32) % 2 ^ 64 + 2 ^ 64 - 1) % 2 ^ 64 = 2 ^ 32 - 1 := by decide
        rw [e] at hle
        simp only at hle
        omega

/-- What a port returned by `parseAmazonEfaPort` carries of its arguments. -/
theorem parseAmazonEfaPort_ok (name port : String) (p : AmazonEfaPort κ)
    (h : parseAmazonEfaPort parseCounters fs name port = .ok p) :
    p.Name = name ∧ strconv.ParseUint port 10 32 = .ok p.Port := by
  unfold parseAmazonEfaPort at h
  split at h
  · cases h
  · rename_i n hn
    split at h
    · cases h
    · split at h
      · cases h
      · split at h
        · cases h
        · split at h
          · cases h
          · split at h
            · cases h
            · split at h
              · cases h
              · split at h
                · cases h
                · cases h
                  exact ⟨rfl, hn⟩

theorem portsLoop_wellKeyed (name : String) :
    ∀ (ds : List FileInfo) (m0 m : List (Nat × AmazonEfaPort κ)),
      PortsWellKeyed name m0 → portsLoop parseCounters fs name ds m0 = .ok m →
      PortsWellKeyed name m := by
  intro ds
  induction ds with
  | nil =>
    intro m0 m h0 h
    simp [portsLoop] at h
    subst h
    exact h0
  | cons d ds ih =>
    intro m0 m h0 h
    simp only [portsLoop] at h
    split at h
    · cases h
    · rename_i p hp
      obtain ⟨hname, hport⟩ := parseAmazonEfaPort_ok parseCounters fs name d.Name p hp
      refine ih _ m ⟨mapInsert_nodup m0 _ _ h0.1, ?_⟩ h
      intro e he
      rcases mapInsert_keys_subset m0 _ _ e he with h1 | h1
      · subst h1
        exact ⟨rfl, hname, ParseUint_10_32_lt _ _ hport⟩
      · exact h0.2 e h1

theorem parseAmazonEfaDevice_ok (name : String) (dev : AmazonEfaDevice κ)
    (h : parseAmazonEfaDevice parseCounters fs name = .ok dev) :
    dev.Name = name ∧ PortsWellKeyed name dev.Ports := by
  unfold parseAmazonEfaDevice at h
  split at h
  · cases h
  · split at h
    · cases h
    · rename_i m hm
      cases h
      exact ⟨rfl, portsLoop_wellKeyed parseCounters fs name _ [] m ⟨by simp, by simp⟩ hm⟩

theorem devicesLoop_wellKeyed :
    ∀ (ds : List FileInfo) (ibc0 ibc : AmazonEfaClass κ),
      ClassWellKeyed ibc0 → devicesLoop parseCounters fs ds ibc0 = .ok ibc →
      ClassWellKeyed ibc := by
  intro ds
  induction ds with
  | nil =>
    intro m0 m h0 h
    simp [devicesLoop] at h
    subst h
    exact h0
  | cons d ds ih =>
    intro m0 m h0 h
    simp only [devicesLoop] at h
    split at h
    · cases h
    · rename_i dev hdev
      obtain ⟨hname, hports⟩ := parseAmazonEfaDevice_ok parseCounters fs d.Name dev hdev
      refine ih _ m ⟨mapInsert_nodup m0 _ _ h0.1, ?_⟩ h
      intro e he
      rcases mapInsert_keys_subset m0 _ _ e he with h1 | h1
      · subst h1
        exact ⟨rfl, by rw [hname]; exact hports⟩
      · exact h0.2 e h1

theorem AmazonEfaClass_wellKeyed (ibc : AmazonEfaClass κ)
    (h : fs.AmazonEfaClass parseCounters = .ok ibc) : ClassWellKeyed ibc := by
  unfold FS.AmazonEfaClass at h
  split at h
  · cases h
  · exact devicesLoop_wellKeyed parseCounters fs _ [] ibc ⟨by simp, by simp⟩ h

end Enumeration

/-! ## Formatting, names and filters -/

section FormatLemmas
open strconv

theorem digit_decimal : ∀ u : Nat, u < 10 → (digits.getD u '0').toNat - '0'.toNat = u := by
  decide

theorem formatBits_decimal :
    ∀ (fuel u : Nat) (acc : List Char), u < 10 ^ fuel →
      ∃ ds, formatBits fuel u 10 acc = ds ++ acc ∧ decimalValue ds = u := by
  intro fuel
  induction fuel with
  | zero =>
    intro u acc h
    exact ⟨[], rfl, by simp at h; simp [decimalValue, h]⟩
  | succ fuel ih =>
    intro u acc h
    unfold formatBits
    split
    · rename_i hu
      refine ⟨[digits.getD u '0'], rfl, ?_⟩
      unfold decimalValue
      simp only [List.foldl_cons, List.foldl_nil, Nat.mul_zero, Nat.zero_add]
      exact digit_decimal u hu
    · have hlt : u / 10 < 10 ^ fuel := by
        rw [Nat.div_lt_iff_lt_mul (by decide)]
        rw [pow_succ] at h
        exact h
      obtain ⟨ds, hds, hval⟩ := ih (u / 10) (digits.getD (u % 10) '0' :: acc) hlt
      refine ⟨ds ++ [digits.getD (u % 10) '0'], by rw [hds]; simp, ?_⟩
      unfold decimalValue at hval ⊢
      rw [List.foldl_append, hval]
      simp only [List.foldl_cons, List.foldl_nil]
      rw [digit_decimal (u % 10) (Nat.mod_lt _ (by decide))]
      omega

theorem FormatUint_injective (a b : Nat) (ha : a < 2 ^ 64) (hb : b < 2 ^ 64)
    (h : FormatUint a 10 = FormatUint b 10) : a = b := by
  have hp : (2 : Nat) ^ 64 < 10 ^ 64 := by norm_num
  obtain ⟨da, hda, hva⟩ := formatBits_decimal 64 a [] (by omega)
  obtain ⟨db, hdb, hvb⟩ := formatBits_decimal 64 b [] (by omega)
  unfold FormatUint at h
  rw [hda, hdb] at h
  simp only [List.append_nil] at h
  have h2 : da = db := congrArg String.data h
  rw [← hva, ← hvb, h2]

end FormatLemmas

theorem String_append_left_cancel (p a b : String) (h : p ++ a = p ++ b) : a = b := by
  have h2 := congrArg String.data h
  simp only [String.data_append] at h2
  exact String.ext (List.append_cancel_left h2)

theorem BuildFQName_injective (ns a b : String) (ha : a ≠ "") (hb : b ≠ "")
    (h : prometheus.BuildFQName ns "amazonefa" a = prometheus.BuildFQName ns "amazonefa" b) :
    a = b := by
  unfold prometheus.BuildFQName at h
  simp only [ha, hb, if_false] at h
  by_cases hns : ns = ""
  · subst hns
    simp [String.intercalate, String.intercalate.go] at h
    exact String_append_left_cancel _ a b h
  · simp [hns, String.intercalate, String.intercalate.go] at h
    exact String_append_left_cancel _ a b h

theorem filter_flatMap_nil {α β : Type} (P : β → Bool) (F : α → List β) (l : List α)
    (h : ∀ x ∈ l, (F x).filter P = []) : (l.flatMap F).filter P = [] := by
  induction l with
  | nil => rfl
  | cons x l ih =>
    simp only [List.flatMap_cons, List.filter_append]
    rw [h x (List.mem_cons_self _ _), ih (fun y hy => h y (List.mem_cons_of_mem _ hy))]
    rfl

/-- Only one element of a duplicate-free list contributes to the filter. -/
theorem filter_flatMap_unique {α β : Type} (P : β → Bool) (F : α → List β) (l : List α) (a : α)
    (ha : a ∈ l) (hnd : l.Nodup) (hother : ∀ x ∈ l, x ≠ a → (F x).filter P = []) :
    (l.flatMap F).filter P = (F a).filter P := by
  induction l with
  | nil => simp at ha
  | cons x l ih =>
    simp only [List.flatMap_cons, List.filter_append]
    obtain ⟨hx, hnd2⟩ := List.nodup_cons.1 hnd
    by_cases hxa : x = a
    · subst hxa
      rw [filter_flatMap_nil P F l (fun y hy => hother y (List.mem_cons_of_mem _ hy)
        (fun e => hx (e ▸ hy)))]
      simp
    · have hal : a ∈ l := by
        rcases List.mem_cons.1 ha with e | e
        · exact absurd e.symm hxa
        · exact e
      rw [hother x (List.mem_cons_self _ _) hxa,
        ih hal hnd2 (fun y hy => hother y (List.mem_cons_of_mem _ hy))]
      rfl

/-! ## The shape of what Update sends -/

namespace Scripts
open prometheus

theorem lookup_metricDescs (ns : String) (fs : FS) (k : Counter) :
    (NewAmazonEfaCollector ns fs).metricDescs.lookup k.fileName =
      (counterMetric ns k 0 "" "").desc := by
  cases k <;> rfl

theorem pushCounter_eq (ns : String) (fs : FS) (ch : List Metric) (k : Counter)
    (value : Option Nat) (deviceName port : String) :
    (NewAmazonEfaCollector ns fs).pushCounter ch k.fileName value deviceName port =
      ch ++ (match value with
        | some v => [counterMetric ns k v deviceName port]
        | none => []) := by
  cases value with
  | none => simp [AmazonEfaCollector.pushCounter]
  | some v =>
    simp only [AmazonEfaCollector.pushCounter, AmazonEfaCollector.pushMetric, lookup_metricDescs]
    rfl

theorem updatePort_eq (ns : String) (fs : FS) (ch : List Metric)
    (port : AmazonEfaPort AmazonEfaCounters) :
    (NewAmazonEfaCollector ns fs).updatePort ch port = ch ++ portMetrics ns port := by
  have key : ∀ (k : Counter) (name : String), name = k.fileName →
      ∀ (ch : List Metric) (value : Option Nat) (deviceName port : String),
      (NewAmazonEfaCollector ns fs).pushCounter ch name value deviceName port =
        ch ++ (match value with
          | some v => [counterMetric ns k v deviceName port]
          | none => []) := by
    intro k name h
    subst h
    exact fun ch value deviceName port => pushCounter_eq ns fs ch k value deviceName port
  unfold AmazonEfaCollector.updatePort
  simp only [
    key .AllocPdErr "alloc_pd_err" rfl,
    key .AllocUcontextErr "alloc_ucontext_err" rfl,
    key .CmdsErr "cmds_err" rfl,
    key .CompletedCmds "completed_cmds" rfl,
    key .CreateAhErr "create_ah_err" rfl,
    key .CreateCqErr "create_cq_err" rfl,
    key .CreateQpErr "create_qp_err" rfl,
    key .KeepAliveRcvd "keep_alive_rcvd" rfl,
    key .Lifespan "lifespan" rfl,
    key .MmapErr "mmap_err" rfl,
    key .NoCompletionCmds "no_completion_cmds" rfl,
    key .RdmaReadBytes "rdma_read_bytes" rfl,
    key .RdmaReadRespBytes "rdma_read_resp_bytes" rfl,
    key .RdmaReadWrErr "rdma_read_wr_err" rfl,
    key .RdmaReadWrs "rdma_read_wrs" rfl,
    key .RdmaWriteBytes "rdma_write_bytes" rfl,
    key .RdmaWriteRecvBytes "rdma_write_recv_bytes" rfl,
    key .RdmaWriteWrErr "rdma_write_wr_err" rfl,
    key .RdmaWritedWrs "rdma_write_wrs" rfl,
    key .RecvBytes "recv_bytes" rfl,
    key .RecvWrs "recv_wrs" rfl,
    key .RegMrErr "reg_mr_err" rfl,
    key .RxBytes "rx_bytes" rfl,
    key .RxDrops "rx_drops" rfl,
    key .RxPkts "rx_pkts" rfl,
    key .SendBytes "send_bytes" rfl,
    key .SendWrs "send_wrs" rfl,
    key .SubmittedCmds "submitted_cmds" rfl,
    key .TxBytes "tx_bytes" rfl,
    key .TxPkts "tx_pkts" rfl]
  simp only [portMetrics, Counter.all, List.flatMap_cons, List.flatMap_nil,
    AmazonEfaCounters.get, List.append_assoc, List.append_nil]

theorem updatePorts_eq (ns : String) (fs : FS) :
    ∀ (ports : List (Nat × AmazonEfaPort AmazonEfaCounters)) (ch : List Metric),
      (NewAmazonEfaCollector ns fs).updatePorts ports ch =
        ch ++ ports.flatMap (fun e => portMetrics ns e.2) := by
  intro ports
  induction ports with
  | nil => intro ch; simp [AmazonEfaCollector.updatePorts]
  | cons e ports ih =>
    intro ch
    obtain ⟨n, p⟩ := e
    simp only [AmazonEfaCollector.updatePorts, ih, updatePort_eq, List.flatMap_cons,
      List.append_assoc]

/-- The metrics of one device: its presence metric, then those of its ports. -/
theorem updateDevices_eq (ns : String) (fs : FS) :
    ∀ (devices : AmazonEfaClass AmazonEfaCounters) (ch : List Metric),
      (NewAmazonEfaCollector ns fs).updateDevices ns devices ch =
        ch ++ devices.flatMap (fun e =>
          infoMetric ns e.2.Name :: e.2.Ports.flatMap (fun e => portMetrics ns e.2)) := by
  intro devices
  induction devices with
  | nil => intro ch; simp [AmazonEfaCollector.updateDevices]
  | cons e devices ih =>
    intro ch
    obtain ⟨n, d⟩ := e
    simp only [AmazonEfaCollector.updateDevices, ih, updatePorts_eq, List.flatMap_cons,
      List.append_assoc, List.cons_append, List.nil_append, List.singleton_append]
    rfl

end Scripts

/-! ## Update: results -/

namespace Scripts
open prometheus

theorem Counter.mem_all_scripts (k : Counter) : k ∈ Counter.all := by
  cases k <;> decide

theorem Counter.all_nodup_scripts : Counter.all.Nodup := by decide

theorem Counter.fileName_injective_scripts {k k2 : Counter} (h : k.fileName = k2.fileName) :
    k = k2 := by
  have hn : (Counter.all.map Counter.fileName).Nodup := by decide
  exact List.inj_on_of_nodup_map hn (Counter.mem_all_scripts k) (Counter.mem_all_scripts k2) h

theorem Counter.fileName_ne_empty (k : Counter) : k.fileName ≠ "" := by
  cases k <;> decide

/-- On a class that was enumerated, `Update` sends the metrics of the devices
in turn and returns nil. -/
theorem Update_ok (ns : String) (fs : FS) (ibc : AmazonEfaClass AmazonEfaCounters)
    (h : fs.AmazonEfaClass parseAmazonEfaCounters = .ok ibc) :
    (NewAmazonEfaCollector ns fs).Update ns =
      (ibc.flatMap (fun e =>
        infoMetric ns e.2.Name :: e.2.Ports.flatMap (fun e => portMetrics ns e.2)), none) := by
  have hfs : (NewAmazonEfaCollector ns fs).fs = fs := rfl
  simp only [AmazonEfaCollector.Update, hfs, h, updateDevices_eq, List.nil_append]

/-- The metrics of a port under a filter on the metric name and the labels. -/
theorem filter_portMetrics (ns : String) (p : AmazonEfaPort AmazonEfaCounters) (k : Counter)
    (D S : String) :
    (portMetrics ns p).filter (fun m =>
        decide (m.desc.map Desc.fqName = some (BuildFQName ns "amazonefa" k.fileName) ∧
          m.labelValues = [D, S])) =
      if p.Name = D ∧ strconv.FormatUint p.Port 10 = S then
        (match p.Counters.get k with
          | some v => [counterMetric ns k v D S]
          | none => [])
      else [] := by
  unfold portMetrics
  rw [filter_flatMap_unique _ _ Counter.all k (Counter.mem_all_scripts k)
    Counter.all_nodup_scripts]
  · cases hget : p.Counters.get k with
    | none => simp
    | some v =>
      by_cases hl : p.Name = D ∧ strconv.FormatUint p.Port 10 = S
      · obtain ⟨h1, h2⟩ := hl
        subst h1 h2
        simp [counterMetric]
      · simp only [hl, if_false]
        simp only [List.filter_cons, List.filter_nil, counterMetric]
        rw [if_neg]
        simp only [decide_eq_true_eq, not_and]
        intro _ hlab
        simp only [List.cons.injEq, and_true] at hlab
        exact hl hlab
  · intro k2 _ hne
    cases hget : p.Counters.get k2 with
    | none => simp
    | some v =>
      simp only [List.filter_cons, List.filter_nil, counterMetric]
      rw [if_neg]
      simp only [Option.map_some', Option.some.injEq, decide_eq_true_eq, not_and]
      intro hfq
      exact absurd (Counter.fileName_injective_scripts (BuildFQName_injective ns _ _
        (Counter.fileName_ne_empty k2) (Counter.fileName_ne_empty k) hfq)) hne


theorem fst_eq_of_nodup_keys {α β : Type} (l : List (α × β)) (h : (l.map Prod.fst).Nodup)
    (x a : α × β) (hx : x ∈ l) (ha : a ∈ l) (hne : x ≠ a) : x.1 ≠ a.1 :=
  fun e => hne (List.inj_on_of_nodup_map h hx ha e)

theorem float64_of_lt (v : Nat) (h : v < 2 ^ 53) : float64 v = v := by
  have hs : float64Shift 11 v = 0 := by
    unfold float64Shift
    rw [if_pos h]
  unfold float64
  rw [hs]
  simp [Nat.mod_one]

/-- C7. After a successful enumeration `Update` returns nil and, for every
port of every device and every field of its counter set, has sent exactly one
metric with that counter's name and the labels of the port if the field is
present, and none if it is absent.  That metric is of counter type, is named
after the counter file and labelled with the device name and the port number
in decimal; its value is `float64` of the field's value, which is the field's
value itself when that is below 2^53. -/
theorem Update_counter_samples (ns : String) (fs : FS) (ibc : AmazonEfaClass AmazonEfaCounters)
    (h : fs.AmazonEfaClass parseAmazonEfaCounters = .ok ibc) :
    ((NewAmazonEfaCollector ns fs).Update ns).2 = none ∧
    (∀ dev ∈ ibc, ∀ port ∈ dev.2.Ports, ∀ k : Counter,
      ((NewAmazonEfaCollector ns fs).Update ns).1.filter (fun m =>
          decide (m.desc.map Desc.fqName = some (BuildFQName ns "amazonefa" k.fileName) ∧
            m.labelValues = [dev.2.Name, strconv.FormatUint port.2.Port 10])) =
        match port.2.Counters.get k with
        | some v => [{ desc := some { fqName := BuildFQName ns "amazonefa" k.fileName
                                      help := (descriptions.lookup k.fileName).getD ""
                                      variableLabels := ["device", "port"] }
                       valueType := .CounterValue
                       value := float64 v
                       labelValues := [dev.2.Name, strconv.FormatUint port.2.Port 10] }]
        | none => []) ∧
    (∀ v, v < 2 ^ 53 → float64 v = v) := by
  rw [Update_ok ns fs ibc h]
  refine ⟨rfl, ?_, float64_of_lt⟩
  intro dev hdev port hport k
  obtain ⟨hkeys, hdevs⟩ := AmazonEfaClass_wellKeyed parseAmazonEfaCounters fs ibc h
  obtain ⟨hdname, hpkeys, hports⟩ := hdevs dev hdev
  simp only
  rw [filter_flatMap_unique _ _ ibc dev hdev (List.Nodup.of_map _ hkeys)]
  · -- the device itself: the presence metric has one label
    rw [List.filter_cons, if_neg (by simp [infoMetric])]
    rw [filter_flatMap_unique _ _ dev.2.Ports port hport (List.Nodup.of_map _ hpkeys)]
    · rw [filter_portMetrics, if_pos ⟨(hports port hport).2.1, rfl⟩]
      rfl
    · intro x hx hne
      rw [filter_portMetrics, if_neg]
      rintro ⟨_, hfmt⟩
      have hx3 := hports x hx
      have hp3 := hports port hport
      have e := FormatUint_injective x.2.Port port.2.Port
        (by rw [hx3.1]; exact lt_trans hx3.2.2 (by norm_num))
        (by rw [hp3.1]; exact lt_trans hp3.2.2 (by norm_num)) hfmt
      rw [hx3.1, hp3.1] at e
      exact fst_eq_of_nodup_keys _ hpkeys x port hx hport hne e
  · -- another device: its name differs
    intro x hx hne
    have hxname := (hdevs x hx).1
    have hnames : x.2.Name ≠ dev.2.Name := by
      rw [hxname, hdname]
      exact fst_eq_of_nodup_keys _ hkeys x dev hx hdev hne
    rw [List.filter_cons, if_neg (by simp [infoMetric])]
    apply filter_flatMap_nil
    intro y hy
    rw [filter_portMetrics, if_neg]
    rintro ⟨hn, _⟩
    exact hnames (by rw [← ((hdevs x hx).2.2 y hy).2.1, hn])

theorem Update_counter_samples_witness :
    ((NewAmazonEfaCollector "node" Witness.fsScenario).Update "node").2 = none ∧
    ((NewAmazonEfaCollector "node" Witness.fsScenario).Update "node").1.filter (fun m =>
        decide (m.desc.map Desc.fqName = some "node_amazonefa_rx_bytes" ∧
          m.labelValues = ["efa0", "1"])) =
      [{ desc := some { fqName := "node_amazonefa_rx_bytes", help := "Number of bytes received",
                        variableLabels := ["device", "port"] }
         valueType := .CounterValue, value := 12345, labelValues := ["efa0", "1"] }] ∧
    ((NewAmazonEfaCollector "node" Witness.fsScenario).Update "node").1.filter (fun m =>
        decide (m.desc.map Desc.fqName = some "node_amazonefa_rx_drops" ∧
          m.labelValues = ["efa0", "1"])) = [] := by
  have h := Update_counter_samples "node" Witness.fsScenario Witness.scenarioClass (by decide)
  exact ⟨h.1,
    h.2.1 ("efa0", { Name := "efa0", Ports := [(1, Witness.scenarioPort)] }) (by decide)
      (1, Witness.scenarioPort) (by decide) .RxBytes,
    h.2.1 ("efa0", { Name := "efa0", Ports := [(1, Witness.scenarioPort)] }) (by decide)
      (1, Witness.scenarioPort) (by decide) .RxDrops⟩

theorem filter_info_portMetrics (ns : String) (p : AmazonEfaPort AmazonEfaCounters)
    (Q : Metric → Bool) :
    (portMetrics ns p).filter (fun m =>
      decide (m.desc = (infoMetric ns "").desc) && Q m) = [] := by
  unfold portMetrics
  apply filter_flatMap_nil
  intro k _
  cases p.Counters.get k with
  | none => rfl
  | some v => simp [counterMetric, infoMetric]

/-- C8. After a successful enumeration `Update` returns nil and has sent
exactly one presence metric per device, whatever its ports and counters: the
presence metrics are, in the order of the devices, one per device, each with
the value 1 and the single label value the device name; the device names are
pairwise distinct. -/
theorem Update_presence_samples (ns : String) (fs : FS) (ibc : AmazonEfaClass AmazonEfaCounters)
    (h : fs.AmazonEfaClass parseAmazonEfaCounters = .ok ibc) :
    ((NewAmazonEfaCollector ns fs).Update ns).2 = none ∧
    ((NewAmazonEfaCollector ns fs).Update ns).1.filter (fun m =>
        decide (m.desc = some ((NewAmazonEfaCollector ns fs).infoDesc ns))) =
      ibc.map (fun dev =>
        { desc := some ((NewAmazonEfaCollector ns fs).infoDesc ns), valueType := .GaugeValue,
          value := 1, labelValues := [dev.2.Name] }) ∧
    (ibc.map (fun dev => dev.2.Name)).Nodup ∧
    ∀ dev ∈ ibc,
      ((NewAmazonEfaCollector ns fs).Update ns).1.filter (fun m =>
          decide (m.desc = some ((NewAmazonEfaCollector ns fs).infoDesc ns)) &&
            decide (m.labelValues = [dev.2.Name])) =
        [{ desc := some ((NewAmazonEfaCollector ns fs).infoDesc ns), valueType := .GaugeValue,
           value := 1, labelValues := [dev.2.Name] }] := by
  rw [Update_ok ns fs ibc h]
  obtain ⟨hkeys, hdevs⟩ := AmazonEfaClass_wellKeyed parseAmazonEfaCounters fs ibc h
  have hdesc : some ((NewAmazonEfaCollector ns fs).infoDesc ns) = (infoMetric ns "").desc := rfl
  have hports : ∀ (Q : Metric → Bool) (ports : List (Nat × AmazonEfaPort AmazonEfaCounters)),
      (ports.flatMap (fun e => portMetrics ns e.2)).filter (fun m =>
        decide (m.desc = (infoMetric ns "").desc) && Q m) = [] :=
    fun Q ports => filter_flatMap_nil _ _ ports (fun e _ => filter_info_portMetrics ns e.2 Q)
  have hnames : (ibc.map (fun dev => dev.2.Name)).Nodup := by
    have e : ibc.map (fun dev => dev.2.Name) = ibc.map Prod.fst :=
      List.map_congr_left (fun dev hdev => (hdevs dev hdev).1)
    rw [e]
    exact hkeys
  refine ⟨rfl, ?_, hnames, ?_⟩
  · simp only [hdesc]
    clear hkeys hdevs hnames h
    induction ibc with
    | nil => rfl
    | cons dev ibc ih =>
      simp only [List.flatMap_cons, List.filter_append, List.map_cons, ih, List.filter_cons]
      have hp := hports (fun _ => true) dev.2.Ports
      simp only [Bool.and_true] at hp
      rw [hp]
      simp [infoMetric]
  · intro dev hdev
    simp only [hdesc]
    rw [filter_flatMap_unique _ _ ibc dev hdev (List.Nodup.of_map _ hkeys)]
    · rw [List.filter_cons, hports]
      simp [infoMetric]
    · intro x hx hne
      have hxn : x.2.Name ≠ dev.2.Name := by
        rw [(hdevs x hx).1, (hdevs dev hdev).1]
        exact fst_eq_of_nodup_keys _ hkeys x dev hx hdev hne
      rw [List.filter_cons, hports]
      simp [infoMetric, hxn]

theorem Update_presence_samples_witness :
    ((NewAmazonEfaCollector "node" Witness.fsTwoDevices).Update "node").2 = none ∧
    ((NewAmazonEfaCollector "node" Witness.fsTwoDevices).Update "node").1.filter (fun m =>
        decide (m.desc = some
          { fqName := "node_amazonefa_info"
            help := "Non-numeric data from /sys/class/infiniband/<device>, value is always 1."
            variableLabels := ["device"] })) =
      [{ desc := some { fqName := "node_amazonefa_info",
                        help := "Non-numeric data from /sys/class/infiniband/<device>, value is always 1.",
                        variableLabels := ["device"] }
         valueType := .GaugeValue, value := 1, labelValues := ["efa0"] },
       { desc := some { fqName := "node_amazonefa_info",
                        help := "Non-numeric data from /sys/class/infiniband/<device>, value is always 1.",
                        variableLabels := ["device"] }
         valueType := .GaugeValue, value := 1, labelValues := ["efa1"] }] := by
  have h := Update_presence_samples "node" Witness.fsTwoDevices Witness.twoDevicesClass
    (by decide)
  exact ⟨h.1, h.2.1⟩

/-- C4. When the root path does not exist (listing it fails with the path
error of a missing file), `AmazonEfaClass` fails with that error, which is a
not-exist error, and `Update` sends nothing and returns exactly `ErrNoData`. -/
theorem Update_root_missing (c : AmazonEfaCollector) (ns : String)
    (hroot : c.fs.ReadDir (c.fs.Path [AmazonEfaPath]) =
      .error (.pathError "open" (c.fs.Path [AmazonEfaPath]) (.errno syscall.ENOENT))) :
    (∃ err, c.fs.AmazonEfaClass parseAmazonEfaCounters = .error err ∧
      errors.Is err .ErrNotExist = true ∧ os.IsNotExist err = true) ∧
    c.Update ns = ([], some ErrNoData) := by
  have hclass : c.fs.AmazonEfaClass parseAmazonEfaCounters =
      .error (.pathError "open" (c.fs.Path [AmazonEfaPath]) (.errno syscall.ENOENT)) := by
    simp [FS.AmazonEfaClass, hroot]
  refine ⟨⟨_, hclass, rfl, rfl⟩, ?_⟩
  simp only [AmazonEfaCollector.Update, hclass]
  rfl

theorem Update_root_missing_witness :
    (∃ err, Witness.fsNoRoot.AmazonEfaClass parseAmazonEfaCounters = .error err ∧
      errors.Is err .ErrNotExist = true ∧ os.IsNotExist err = true) ∧
    (NewAmazonEfaCollector "node" Witness.fsNoRoot).Update "node" = ([], some ErrNoData) :=
  Update_root_missing (NewAmazonEfaCollector "node" Witness.fsNoRoot) "node" (by decide)

/-- C6, the claim as stated fails: when listing the top-level directory is
denied, `Update` returns a fatal error that wraps the failure, not the
no-data outcome. -/
theorem Update_root_denied_fatal :
    Witness.fsDenied.ReadDir (Witness.fsDenied.Path [AmazonEfaPath]) =
      .error (.pathError "open" "/sys/class/infiniband" (.errno syscall.EACCES)) ∧
    (NewAmazonEfaCollector "node" Witness.fsDenied).Update "node" =
      ([], some (.wrap "error obtaining AmazonEfa class info: "
        (.pathError "open" "/sys/class/infiniband" (.errno syscall.EACCES)))) ∧
    ((NewAmazonEfaCollector "node" Witness.fsDenied).Update "node").2 ≠ some ErrNoData := by
  decide

/-- C6, amended. A failure to list the top-level directory is returned
unchanged by `AmazonEfaClass`; `Update` then sends nothing, and returns
`ErrNoData` when the failure matches `os.ErrNotExist`, and otherwise a fatal
error that wraps the failure. -/
theorem Update_root_unlistable (c : AmazonEfaCollector) (ns : String) (err : GoError)
    (hroot : c.fs.ReadDir (c.fs.Path [AmazonEfaPath]) = .error err) :
    c.fs.AmazonEfaClass parseAmazonEfaCounters = .error err ∧
    c.Update ns =
      ([], some (if errors.Is err .ErrNotExist = true then ErrNoData
        else .wrap "error obtaining AmazonEfa class info: " err)) := by
  have hclass : c.fs.AmazonEfaClass parseAmazonEfaCounters = .error err := by
    simp [FS.AmazonEfaClass, hroot]
  refine ⟨hclass, ?_⟩
  simp only [AmazonEfaCollector.Update, hclass]
  split <;> rfl

theorem Update_root_unlistable_witness :
    Witness.fsDenied.AmazonEfaClass parseAmazonEfaCounters =
      .error (.pathError "open" "/sys/class/infiniband" (.errno syscall.EACCES)) ∧
    (NewAmazonEfaCollector "node" Witness.fsDenied).Update "node" =
      ([], some (.wrap "error obtaining AmazonEfa class info: "
        (.pathError "open" "/sys/class/infiniband" (.errno syscall.EACCES)))) :=
  Update_root_unlistable (NewAmazonEfaCollector "node" Witness.fsDenied) "node"
    (.pathError "open" "/sys/class/infiniband" (.errno syscall.EACCES)) (by decide)

theorem devicesLoop_fails {κ : Type} (parseCounters : FS → String → Except GoError κ) (fs : FS)
    (d : FileInfo) (post : List FileInfo) (E : GoError)
    (hd : parseAmazonEfaDevice parseCounters fs d.Name = .error E) :
    ∀ (pre : List FileInfo) (ibc0 : AmazonEfaClass κ),
      (∃ e, devicesLoop parseCounters fs (pre ++ d :: post) ibc0 = .error e) ∧
      ((∀ g ∈ pre, ∃ dev, parseAmazonEfaDevice parseCounters fs g.Name = .ok dev) →
        devicesLoop parseCounters fs (pre ++ d :: post) ibc0 = .error E) := by
  intro pre
  induction pre with
  | nil =>
    intro ibc0
    simp [devicesLoop, hd]
  | cons g pre ih =>
    intro ibc0
    simp only [List.cons_append, devicesLoop]
    cases hg : parseAmazonEfaDevice parseCounters fs g.Name with
    | error e =>
      refine ⟨⟨e, rfl⟩, ?_⟩
      intro hall
      obtain ⟨dev, hdev⟩ := hall g (List.mem_cons_self _ _)
      rw [hg] at hdev
      cases hdev
    | ok dev =>
      refine ⟨(ih _).1, ?_⟩
      intro hall
      exact (ih _).2 (fun x hx => hall x (List.mem_cons_of_mem _ hx))

/-- C5, the claim as stated fails: a device whose `ports` directory is missing
makes `Update` return the no-data outcome, not a fatal error. -/
theorem Update_ports_missing_no_data :
    Witness.fsNoPorts.ReadDir (Witness.fsNoPorts.Path [AmazonEfaPath]) = .ok [⟨"efa0", false⟩] ∧
    Witness.fsNoPorts.ReadDir
        (filepath.Join [Witness.fsNoPorts.Path [AmazonEfaPath, "efa0"], "ports"]) =
      .error (.pathError "open" "/sys/class/infiniband/efa0/ports" (.errno syscall.ENOENT)) ∧
    (NewAmazonEfaCollector "node" Witness.fsNoPorts).Update "node" = ([], some ErrNoData) := by
  decide

/-- C5, amended. When the root lists a device whose `ports` directory cannot be
listed, `Update` sends nothing and returns an error.  When the devices listed
before it are parsed without error, the error is `ErrNoData` if the listing
failure matches `os.ErrNotExist` (the directory is missing), and otherwise a
fatal error, different from `ErrNoData`, that wraps the failure. -/
theorem Update_ports_unlistable (c : AmazonEfaCollector) (ns : String)
    (pre post : List FileInfo) (d : FileInfo) (err : GoError)
    (hroot : c.fs.ReadDir (c.fs.Path [AmazonEfaPath]) = .ok (pre ++ d :: post))
    (hports : c.fs.ReadDir (filepath.Join [c.fs.Path [AmazonEfaPath, d.Name], "ports"]) =
      .error err) :
    (c.Update ns).1 = [] ∧ (∃ e, (c.Update ns).2 = some e) ∧
    ((∀ g ∈ pre, ∃ dev, parseAmazonEfaDevice parseAmazonEfaCounters c.fs g.Name = .ok dev) →
      (c.Update ns).2 = some (if errors.Is err .ErrNotExist = true then ErrNoData
        else .wrap "error obtaining AmazonEfa class info: "
          (.wrap ("failed to list AmazonEfa ports at " ++
            strconv.Quote (filepath.Join [c.fs.Path [AmazonEfaPath, d.Name], "ports"]) ++ ": ")
            err)) ∧
      (errors.Is err .ErrNotExist = false → (c.Update ns).2 ≠ some ErrNoData)) := by
  have hd : parseAmazonEfaDevice parseAmazonEfaCounters c.fs d.Name =
      .error (.wrap ("failed to list AmazonEfa ports at " ++
        strconv.Quote (filepath.Join [c.fs.Path [AmazonEfaPath, d.Name], "ports"]) ++ ": ")
        err) := by
    simp [parseAmazonEfaDevice, hports]
  obtain ⟨⟨e, he⟩, hfirst⟩ := devicesLoop_fails parseAmazonEfaCounters c.fs d post _ hd pre []
  have hclass : c.fs.AmazonEfaClass parseAmazonEfaCounters = .error e := by
    simp [FS.AmazonEfaClass, hroot, he]
  have hupd : c.Update ns = ([], some (if errors.Is e .ErrNotExist = true then ErrNoData
      else .wrap "error obtaining AmazonEfa class info: " e)) := by
    simp only [AmazonEfaCollector.Update, hclass]
    split <;> rfl
  refine ⟨by rw [hupd], ⟨_, by rw [hupd]⟩, ?_⟩
  intro hall
  have he2 := hfirst hall
  rw [he] at he2
  cases he2
  rw [hupd]
  refine ⟨rfl, ?_⟩
  intro hne
  simp [errors.Is, hne, ErrNoData]

theorem Update_ports_unlistable_witness :
    ((NewAmazonEfaCollector "node" Witness.fsPortsDenied).Update "node").1 = [] ∧
    ((NewAmazonEfaCollector "node" Witness.fsPortsDenied).Update "node").2 =
      some (.wrap "error obtaining AmazonEfa class info: "
        (.wrap "failed to list AmazonEfa ports at \"/sys/class/infiniband/efa0/ports\": "
          (.pathError "open" "/sys/class/infiniband/efa0/ports" (.errno syscall.EACCES)))) := by
  have h := Update_ports_unlistable (NewAmazonEfaCollector "node" Witness.fsPortsDenied) "node"
    [] [] ⟨"efa0", false⟩
    (.pathError "open" "/sys/class/infiniband/efa0/ports" (.errno syscall.EACCES))
    (by decide) (by decide)
  exact ⟨h.1, (h.2.2 (by simp)).1⟩

/-- C3, the code at the input of the claim: with `rx_bytes` holding
`not-a-number`, `Update` (built on the parser of 4.validation_scripts) returns
nil and sends the presence metric; the parser of 4.validation_and_observability
fails on the same directory. -/
theorem Update_not_a_number :
    (NewAmazonEfaCollector "node" Witness.fsNotANumber).Update "node" =
      ([infoMetric "node" "efa0"], none) ∧
    parseAmazonEfaCounters Witness.fsNotANumber Witness.port1 = .ok {} ∧
    Observability.parseAmazonEfaCounters Witness.fsNotANumber Witness.port1 =
      .error (.wrap "failed to parse counter rx_bytes with value \"not-a-number\": "
        (.numError "ParseUint" "not-a-number" (.sentinel .ErrSyntax))) := by
  decide

end Scripts

/-! ## The keys of an enumerated class -/

/-- C15. Every class that `AmazonEfaClass` returns is well-keyed, whichever
counter parser it is built on: a key of the class map is the `Name` of the
device stored under it, a key of a device's `Ports` map is the `Port` of the
port stored under it, and the `Name` of a port is the name of the device that
owns it (the later assignment of the state name to the variable `name` does
not reach the port record). -/
theorem AmazonEfaClass_keys {κ : Type} (parseCounters : FS → String → Except GoError κ)
    (fs : FS) (ibc : AmazonEfaClass κ) (h : fs.AmazonEfaClass parseCounters = .ok ibc) :
    ∀ dev ∈ ibc, dev.1 = dev.2.Name ∧
      ∀ port ∈ dev.2.Ports, port.1 = port.2.Port ∧ port.2.Name = dev.2.Name := by
  obtain ⟨_, hdevs⟩ := AmazonEfaClass_wellKeyed parseCounters fs ibc h
  intro dev hdev
  obtain ⟨hname, _, hports⟩ := hdevs dev hdev
  exact ⟨hname.symm, fun port hport => ⟨(hports port hport).1.symm, (hports port hport).2.1⟩⟩

theorem AmazonEfaClass_keys_witness :
    Witness.fsScenario.AmazonEfaClass Observability.parseAmazonEfaCounters =
      .ok Witness.scenarioClassFull ∧
    ∀ dev ∈ Witness.scenarioClassFull, dev.1 = dev.2.Name ∧
      ∀ port ∈ dev.2.Ports, port.1 = port.2.Port ∧ port.2.Name = dev.2.Name :=
  ⟨by decide, AmazonEfaClass_keys Observability.parseAmazonEfaCounters Witness.fsScenario
    Witness.scenarioClassFull (by decide)⟩

/-! ## Update and the state of a port -/

namespace Scripts
open prometheus

theorem portMetrics_withoutState (ns : String) (p : AmazonEfaPort AmazonEfaCounters) :
    portMetrics ns p.withoutState = portMetrics ns p := rfl

/-- What `Update` sends is determined by the class without states and rates. -/
theorem deviceMetrics_withoutState (ns : String) (ibc : AmazonEfaClass AmazonEfaCounters) :
    (classWithoutState ibc).flatMap (fun e =>
        infoMetric ns e.2.Name :: e.2.Ports.flatMap (fun e => portMetrics ns e.2)) =
      ibc.flatMap (fun e =>
        infoMetric ns e.2.Name :: e.2.Ports.flatMap (fun e => portMetrics ns e.2)) := by
  unfold classWithoutState
  rw [List.flatMap_map]
  congr 1
  funext dev
  simp only [List.flatMap_map, portMetrics_withoutState]

theorem mem_portMetrics (ns : String) (p : AmazonEfaPort AmazonEfaCounters) (m : Metric)
    (h : m ∈ portMetrics ns p) :
    ∃ (k : Counter) (v : Nat), m = counterMetric ns k v p.Name (strconv.FormatUint p.Port 10) := by
  unfold portMetrics at h
  obtain ⟨k, _, hk⟩ := List.mem_flatMap.1 h
  cases hget : p.Counters.get k with
  | none => simp [hget] at hk
  | some v =>
    simp only [hget, List.mem_singleton] at hk
    exact ⟨k, v, hk⟩

theorem stateMetricNames_fresh (name : String) (h : name ∈ stateMetricNames) :
    name ≠ "" ∧ name ≠ "info" ∧ ∀ k : Counter, name ≠ k.fileName := by
  simp only [stateMetricNames, List.mem_cons, List.mem_singleton, List.not_mem_nil, or_false] at h
  rcases h with rfl | rfl | rfl <;>
    exact ⟨by decide, by decide, fun k => by cases k <;> decide⟩

/-- C13. What `Update` sends does not depend on the state, the physical state
or the rate of a port: two enumerated classes that differ at most in the
fields `State`, `StateID`, `PhysState`, `PhysStateID` and `Rate` of their ports
make `Update` send the same metrics and return the same result; every metric
sent is a presence metric or one of the counter metrics, and none is named
after a state, a physical state or a rate. -/
theorem Update_ignores_state (ns : String) (fs1 fs2 : FS)
    (ibc1 ibc2 : AmazonEfaClass AmazonEfaCounters)
    (h1 : fs1.AmazonEfaClass parseAmazonEfaCounters = .ok ibc1)
    (h2 : fs2.AmazonEfaClass parseAmazonEfaCounters = .ok ibc2)
    (hsame : classWithoutState ibc1 = classWithoutState ibc2) :
    (NewAmazonEfaCollector ns fs1).Update ns = (NewAmazonEfaCollector ns fs2).Update ns ∧
    ∀ m ∈ ((NewAmazonEfaCollector ns fs1).Update ns).1,
      ((∃ deviceName, m = infoMetric ns deviceName) ∨
        ∃ (k : Counter) (v : Nat) (deviceName port : String),
          m = counterMetric ns k v deviceName port) ∧
      ∀ name ∈ stateMetricNames,
        m.desc.map Desc.fqName ≠ some (BuildFQName ns "amazonefa" name) := by
  rw [Update_ok ns fs1 ibc1 h1, Update_ok ns fs2 ibc2 h2]
  refine ⟨?_, ?_⟩
  · rw [← deviceMetrics_withoutState ns ibc1, ← deviceMetrics_withoutState ns ibc2, hsame]
  · intro m hm
    have hkind : (∃ deviceName, m = infoMetric ns deviceName) ∨
        ∃ (k : Counter) (v : Nat) (deviceName port : String),
          m = counterMetric ns k v deviceName port := by
      obtain ⟨dev, _, hdev⟩ := List.mem_flatMap.1 hm
      rcases List.mem_cons.1 hdev with e | e
      · exact Or.inl ⟨_, e⟩
      · obtain ⟨port, _, hport⟩ := List.mem_flatMap.1 e
        obtain ⟨k, v, hk⟩ := mem_portMetrics ns port.2 m hport
        exact Or.inr ⟨k, v, _, _, hk⟩
    refine ⟨hkind, ?_⟩
    intro name hname
    obtain ⟨hne, hinfo, hk⟩ := stateMetricNames_fresh name hname
    rcases hkind with ⟨d, rfl⟩ | ⟨k, v, d, p, rfl⟩
    · simp only [infoMetric, Option.map_some', ne_eq, Option.some.injEq]
      intro e
      exact hinfo (BuildFQName_injective ns _ _ (by decide) hne e).symm
    · simp only [counterMetric, Option.map_some', ne_eq, Option.some.injEq]
      intro e
      exact hk k (BuildFQName_injective ns _ _ (Counter.fileName_ne_empty k) hne e).symm

theorem Update_ignores_state_witness :
    Witness.scenarioClass ≠ Witness.otherStateClass ∧
    (NewAmazonEfaCollector "node" Witness.fsScenario).Update "node" =
      (NewAmazonEfaCollector "node" Witness.fsScenarioOtherState).Update "node" :=
  ⟨by decide,
    (Update_ignores_state "node" Witness.fsScenario Witness.fsScenarioOtherState
      Witness.scenarioClass Witness.otherStateClass (by decide) (by decide) (by decide)).1⟩

end Scripts

/-! ## Port directory names -/

section PortNames
open strconv

theorem digitValue_of_decimal_code (c : Char) (h1 : '0'.toNat ≤ c.toNat)
    (h2 : c.toNat ≤ '9'.toNat) : Literal.digitValue c = some (c.toNat - '0'.toNat) := by
  have hc : c = Char.ofNat c.toNat := (Char.ofNat_toNat c).symm
  have h1' : 48 ≤ c.toNat := h1
  have h2' : c.toNat ≤ 57 := h2
  generalize c.toNat = n at hc h1' h2'
  subst hc
  interval_cases n <;> decide

/-- A successful run of the digit loop in base 10 read decimal digits only, and
its result is the number they denote. -/
theorem parseUintLoop_decimal (maxVal : Nat) :
    ∀ (cs : List Char) (n : Nat) (u : Bool) (r : Nat × Bool),
      parseUintLoop 10 false (maxUint64 / 10 + 1) maxVal cs n u = .ok r →
      Literal.digitsValue 10 cs n = some r.1 := by
  intro cs
  induction cs with
  | nil =>
    intro n u r h
    simp [parseUintLoop] at h
    subst h
    rfl
  | cons c cs ih =>
    intro n u r h
    unfold parseUintLoop at h
    rw [if_neg (by simp)] at h
    dsimp only at h
    split at h
    · cases h
    · rename_i d hd
      split at h
      · cases h
      · rename_i hlt
        split at h
        · cases h
        · rename_i hcut
          split at h
          · cases h
          · rename_i hov
            have hd10 : d < 10 := by omega
            have hn : n * 10 < 2 ^ 64 := by
              have : n ≤ maxUint64 / 10 := by omega
              have := (Nat.le_div_iff_mul_le (by decide : 0 < 10)).1 this
              unfold maxUint64 at this
              omega
            have hm1 : (n * 10) % 2 ^ 64 = n * 10 := Nat.mod_eq_of_lt hn
            rw [hm1] at hov h
            have hsum : n * 10 + d < 2 ^ 64 := by
              by_contra hge
              have : (n * 10 + d) % 2 ^ 64 = n * 10 + d - 2 ^ 64 := by
                rw [Nat.mod_eq_sub_mod (by omega), Nat.mod_eq_of_lt (by omega)]
              omega
            have hm2 : (n * 10 + d) % 2 ^ 64 = n * 10 + d := Nat.mod_eq_of_lt hsum
            rw [hm2] at h
            have hdig : Literal.digitValue c = some d := by
              split at hd
              · rename_i hc
                cases hd
                exact digitValue_of_decimal_code c hc.1 hc.2
              · split at hd
                · cases hd
                  omega
                · cases hd
            simp only [Literal.digitsValue, hdig, hd10, if_true]
            exact ih _ _ _ h

/-- `ParseUint(s, 10, 32)` accepts decimal digits that denote a number below
2^32, and nothing else. -/
theorem ParseUint_10_32_decimal (s : String) (n : Nat) (h : ParseUint s 10 32 = .ok n) :
    Literal.decimal s = some n ∧ n < 2 ^ 32 := by
  refine ⟨?_, ParseUint_10_32_lt s n h⟩
  unfold ParseUint at h
  split at h
  · cases h
  · rename_i hne
    rw [if_neg (by decide)] at h
    simp only [show ¬ ((10 : Nat) = 0) by decide, show ¬ ((32 : Nat) = 0) by decide,
      show ¬ ((32 : Nat) > 64) by decide, if_false] at h
    split at h
    · cases h
    · rename_i n2 u hloop
      have hdec := parseUintLoop_decimal _ _ _ _ _ hloop
      split at h
      · cases h
      · cases h
        have hdata : s.data ≠ [] := by
          intro e
          apply hne
          exact String.ext e
        simp only [Literal.decimal, hdata, if_false]
        exact hdec

end PortNames

theorem parseAmazonEfaPort_not_decimal {κ : Type}
    (parseCounters : FS → String → Except GoError κ) (fs : FS) (name port : String)
    (hbad : ∀ v, Literal.decimal port = some v → 2 ^ 32 ≤ v) :
    parseAmazonEfaPort parseCounters fs name port =
      .error (.plain ("failed to convert " ++ port ++ " into uint")) := by
  cases h : strconv.ParseUint port 10 32 with
  | error e => simp [parseAmazonEfaPort, h]
  | ok n =>
    obtain ⟨hdec, hlt⟩ := ParseUint_10_32_decimal port n h
    have := hbad n hdec
    omega

theorem portsLoop_fails {κ : Type} (parseCounters : FS → String → Except GoError κ) (fs : FS)
    (name : String) (p : FileInfo) (post : List FileInfo) (E : GoError)
    (hp : parseAmazonEfaPort parseCounters fs name p.Name = .error E) :
    ∀ (pre : List FileInfo) (m0 : List (Nat × AmazonEfaPort κ)),
      (∃ e, portsLoop parseCounters fs name (pre ++ p :: post) m0 = .error e) ∧
      ((∀ q ∈ pre, ∃ port, parseAmazonEfaPort parseCounters fs name q.Name = .ok port) →
        portsLoop parseCounters fs name (pre ++ p :: post) m0 = .error E) := by
  intro pre
  induction pre with
  | nil =>
    intro m0
    simp [portsLoop, hp]
  | cons q pre ih =>
    intro m0
    simp only [List.cons_append, portsLoop]
    cases hq : parseAmazonEfaPort parseCounters fs name q.Name with
    | error e =>
      refine ⟨⟨e, rfl⟩, ?_⟩
      intro hall
      obtain ⟨port, hport⟩ := hall q (List.mem_cons_self _ _)
      rw [hq] at hport
      cases hport
    | ok port =>
      refine ⟨(ih _).1, ?_⟩
      intro hall
      exact (ih _).2 (fun x hx => hall x (List.mem_cons_of_mem _ hx))

/-- A device one of whose ports is not parsed is not parsed: with the error of
that port when the ports listed before it are parsed. -/
theorem parseAmazonEfaDevice_port_fails {κ : Type}
    (parseCounters : FS → String → Except GoError κ) (fs : FS) (name : String)
    (pre post : List FileInfo) (p : FileInfo) (E : GoError)
    (hports : fs.ReadDir (filepath.Join [fs.Path [AmazonEfaPath, name], "ports"]) =
      .ok (pre ++ p :: post))
    (hp : parseAmazonEfaPort parseCounters fs name p.Name = .error E) :
    (∃ e, parseAmazonEfaDevice parseCounters fs name = .error e) ∧
    ((∀ q ∈ pre, ∃ port, parseAmazonEfaPort parseCounters fs name q.Name = .ok port) →
      parseAmazonEfaDevice parseCounters fs name = .error E) := by
  obtain ⟨⟨e, he⟩, hfirst⟩ := portsLoop_fails parseCounters fs name p post E hp pre []
  refine ⟨⟨e, by simp [parseAmazonEfaDevice, hports, he]⟩, ?_⟩
  intro hall
  simp [parseAmazonEfaDevice, hports, hfirst hall]

/-- A class one of whose devices is not parsed is not returned: with the error
of that device when the devices listed before it are parsed. -/
theorem AmazonEfaClass_device_fails {κ : Type}
    (parseCounters : FS → String → Except GoError κ) (fs : FS)
    (pre post : List FileInfo) (d : FileInfo) (E : GoError)
    (hroot : fs.ReadDir (fs.Path [AmazonEfaPath]) = .ok (pre ++ d :: post))
    (hd : parseAmazonEfaDevice parseCounters fs d.Name = .error E) :
    (∃ e, fs.AmazonEfaClass parseCounters = .error e) ∧
    ((∀ g ∈ pre, ∃ dev, parseAmazonEfaDevice parseCounters fs g.Name = .ok dev) →
      fs.AmazonEfaClass parseCounters = .error E) := by
  obtain ⟨⟨e, he⟩, hfirst⟩ := Scripts.devicesLoop_fails parseCounters fs d post E hd pre []
  refine ⟨⟨e, by simp [FS.AmazonEfaClass, hroot, he]⟩, ?_⟩
  intro hall
  simp [FS.AmazonEfaClass, hroot, hfirst hall]

namespace Scripts

/-- What `Update` makes of a failed enumeration. -/
theorem Update_of_error (c : AmazonEfaCollector) (ns : String) (e : GoError)
    (h : c.fs.AmazonEfaClass parseAmazonEfaCounters = .error e) :
    c.Update ns = ([], some (if errors.Is e .ErrNotExist = true then ErrNoData
      else .wrap "error obtaining AmazonEfa class info: " e)) := by
  simp only [AmazonEfaCollector.Update, h]
  split <;> rfl

/-- C11. A port directory name that is not a text of decimal digits denoting a
number below 2^32 makes `parseAmazonEfaPort` fail with the same error on every
file system (no file decides it); the device that lists the name and the
class are not enumerated, and `Update` sends nothing and returns an error.
When the ports and devices listed before are parsed, that error is the fatal
error that wraps the failed conversion, not `ErrNoData`. -/
theorem Update_bad_port_name (c : AmazonEfaCollector) (ns : String)
    (dpre dpost ppre ppost : List FileInfo) (d p : FileInfo)
    (hbad : ∀ v, Literal.decimal p.Name = some v → 2 ^ 32 ≤ v)
    (hroot : c.fs.ReadDir (c.fs.Path [AmazonEfaPath]) = .ok (dpre ++ d :: dpost))
    (hports : c.fs.ReadDir (filepath.Join [c.fs.Path [AmazonEfaPath, d.Name], "ports"]) =
      .ok (ppre ++ p :: ppost)) :
    (∀ (fs : FS) (name : String),
      parseAmazonEfaPort parseAmazonEfaCounters fs name p.Name =
        .error (.plain ("failed to convert " ++ p.Name ++ " into uint"))) ∧
    (∃ e, parseAmazonEfaDevice parseAmazonEfaCounters c.fs d.Name = .error e) ∧
    (∃ e, c.fs.AmazonEfaClass parseAmazonEfaCounters = .error e) ∧
    (c.Update ns).1 = [] ∧ (∃ e, (c.Update ns).2 = some e) ∧
    ((∀ g ∈ dpre, ∃ dev, parseAmazonEfaDevice parseAmazonEfaCounters c.fs g.Name = .ok dev) →
      (∀ q ∈ ppre, ∃ port,
        parseAmazonEfaPort parseAmazonEfaCounters c.fs d.Name q.Name = .ok port) →
      (c.Update ns).2 = some (.wrap "error obtaining AmazonEfa class info: "
        (.plain ("failed to convert " ++ p.Name ++ " into uint"))) ∧
      (c.Update ns).2 ≠ some ErrNoData) := by
  have hport := fun fs name =>
    parseAmazonEfaPort_not_decimal parseAmazonEfaCounters fs name p.Name hbad
  obtain ⟨⟨e1, he1⟩, hdfirst⟩ := parseAmazonEfaDevice_port_fails parseAmazonEfaCounters c.fs
    d.Name ppre ppost p _ hports (hport c.fs d.Name)
  obtain ⟨⟨e2, he2⟩, hcfirst⟩ := AmazonEfaClass_device_fails parseAmazonEfaCounters c.fs
    dpre dpost d e1 hroot he1
  have hupd := Update_of_error c ns e2 he2
  refine ⟨hport, ⟨e1, he1⟩, ⟨e2, he2⟩, by rw [hupd], ⟨_, by rw [hupd]⟩, ?_⟩
  intro hdevs hprts
  have h1 := hdfirst hprts
  rw [he1] at h1
  cases h1
  have h2 := hcfirst hdevs
  rw [he2] at h2
  cases h2
  rw [hupd]
  simp [errors.Is, ErrNoData]

end Scripts

/-! ## Texts inside a message -/

theorem containsList_append (a p b : List Char) : strings.containsList (a ++ (p ++ b)) p = true := by
  induction a with
  | nil =>
    cases hpb : p ++ b with
    | nil =>
      have : p = [] := (List.append_eq_nil.1 hpb).1
      simp [strings.containsList, this]
    | cons c cs =>
      simp only [List.nil_append, hpb, strings.containsList, Bool.or_eq_true]
      left
      rw [← hpb]
      exact List.isPrefixOf_iff_prefix.2 (List.prefix_append p b)
  | cons c a ih =>
    simp only [List.cons_append, strings.containsList, Bool.or_eq_true]
    exact Or.inr ih

theorem Contains_append (a p b : String) : strings.Contains (a ++ p ++ b) p = true := by
  unfold strings.Contains
  simp only [String.data_append, List.append_assoc]
  exact containsList_append a.data p.data b.data

theorem parseAmazonEfaPort_bad_state {κ : Type}
    (parseCounters : FS → String → Except GoError κ) (fs : FS) (name port : String) (n : Nat)
    (content : String) (e : GoError)
    (hnum : strconv.ParseUint port 10 32 = .ok n)
    (hread : fs.ReadFile (filepath.Join [fs.Path [AmazonEfaPath, name, "ports", port], "state"])
      = .ok content)
    (hstate : fs.parseState content = .error e) :
    parseAmazonEfaPort parseCounters fs name port =
      .error (.wrap ("could not parse state file in " ++
        strconv.Quote (fs.Path [AmazonEfaPath, name, "ports", port]) ++ ": ") e) := by
  simp [parseAmazonEfaPort, hnum, hread, hstate]


/-! ## The reduced counter parser -/

namespace Scripts

theorem get_set_scripts (c : AmazonEfaCounters) (k k2 : Counter) (v : Option Nat) :
    (c.set k v).get k2 = if k2 = k then v else c.get k2 := by
  cases k <;> cases k2 <;> rfl

theorem get_empty_scripts (k : Counter) : ({} : AmazonEfaCounters).get k = none := by
  cases k <;> rfl

theorem Counter.toFull_fileName (k : Counter) : k.toFull.fileName = k.fileName := by
  cases k <;> rfl

theorem Counter.toFull_injective {k k2 : Counter} (h : k.toFull = k2.toFull) : k = k2 :=
  Counter.fileName_injective_scripts (by rw [← Counter.toFull_fileName, h, Counter.toFull_fileName])

/-- The switch on the name of a field it assigns, other than the last case. -/
theorem counterSwitch_parsed (c : AmazonEfaCounters) (k : Counter) (value : String)
    (hk : k ∈ Counter.parsed) (hne : k ≠ .TxPkts) :
    counterSwitch c k.fileName value = .ok (c.set k (parseUInt64 value).1) := by
  simp only [Counter.parsed, List.mem_cons, List.mem_singleton, List.not_mem_nil, or_false] at hk
  rcases hk with rfl | rfl | rfl | rfl | rfl | rfl | rfl | rfl | rfl | rfl | rfl | rfl | rfl |
    rfl | rfl | rfl | rfl | rfl <;> first | rfl | exact absurd rfl hne

/-- The last case of the switch, `tx_pkts`, with the check of the error. -/
theorem counterSwitch_tx_pkts (c : AmazonEfaCounters) (value : String) :
    counterSwitch c "tx_pkts" value =
      match (parseUInt64 value).2 with
      | some err =>
        if strings.Contains value noPMA = true then
          .ok (c.set .TxPkts (parseUInt64 value).1)
        else .error err
      | none => .ok (c.set .TxPkts (parseUInt64 value).1) := rfl

/-- The switch on any other name: no case matches. -/
theorem counterSwitch_other (c : AmazonEfaCounters) (name value : String)
    (h : name ∉ parsedNames) : counterSwitch c name value = .ok c := by
  unfold counterSwitch
  split <;> first | rfl | (exfalso; exact h (by decide))

theorem mem_parsedNames {name : String} :
    name ∈ parsedNames ↔ ∃ k ∈ Counter.parsed, k.fileName = name := by
  unfold parsedNames
  exact List.mem_map


theorem countersLoop_cons_read_scripts (fs : FS) (path : String) (f : FileInfo)
    (files : List FileInfo) (c0 : AmazonEfaCounters) (value : String)
    (hreg : f.IsRegular = true)
    (hread : fs.SysReadFile (filepath.Join [path, f.Name]) = .ok value) :
    countersLoop fs path (f :: files) c0 =
      (counterSwitch c0 f.Name value).bind (countersLoop fs path files) := by
  simp only [countersLoop, hreg, hread]
  cases counterSwitch c0 f.Name value <;> rfl

theorem countersLoop_cons_skip_scripts (fs : FS) (path : String) (f : FileInfo)
    (files : List FileInfo) (c0 : AmazonEfaCounters)
    (h : f.IsRegular = false ∨
      ∃ err, fs.SysReadFile (filepath.Join [path, f.Name]) = .error err ∧
        skipReadError err = true) :
    countersLoop fs path (f :: files) c0 = countersLoop fs path files c0 := by
  rcases h with h | ⟨err, hread, hskip⟩
  · simp [countersLoop, h]
  · by_cases hreg : f.IsRegular = false
    · simp [countersLoop, hreg]
    · simp [countersLoop, hreg, hread, hskip]

theorem countersLoop_append_scripts (fs : FS) (path : String) (pre rest : List FileInfo) :
    ∀ c0 : AmazonEfaCounters, countersLoop fs path (pre ++ rest) c0 =
      (countersLoop fs path pre c0).bind (countersLoop fs path rest) := by
  induction pre with
  | nil => intro c0; rfl
  | cons f pre ih =>
    intro c0
    simp only [List.cons_append, countersLoop]
    split
    · exact ih c0
    · split
      · split
        · exact ih c0
        · rfl
      · split
        · rfl
        · exact ih _

/-- The loop changes only the fields named by the files it visits. -/
theorem countersLoop_get_frame_scripts (fs : FS) (path : String) (k : Counter) :
    ∀ (files : List FileInfo) (c0 c : AmazonEfaCounters),
      (∀ f ∈ files, f.Name ≠ k.fileName) → countersLoop fs path files c0 = .ok c →
      c.get k = c0.get k := by
  intro files
  induction files with
  | nil => intro c0 c _ h; simp [countersLoop] at h; rw [h]
  | cons f files ih =>
    intro c0 c hne h
    have hf : f.Name ≠ k.fileName := hne f (List.mem_cons_self _ _)
    have htl : ∀ g ∈ files, g.Name ≠ k.fileName := fun g hg => hne g (List.mem_cons_of_mem _ hg)
    have hsw : ∀ value c1, counterSwitch c0 f.Name value = .ok c1 → c1.get k = c0.get k := by
      intro value c1 hc1
      by_cases hp : f.Name ∈ parsedNames
      · obtain ⟨k2, hk2, hname⟩ := mem_parsedNames.1 hp
        have hkk : k ≠ k2 := by
          intro e; subst e; exact hf hname.symm
        by_cases htx : k2 = .TxPkts
        · subst htx
          rw [← hname] at hc1
          rw [show Counter.fileName .TxPkts = "tx_pkts" from rfl, counterSwitch_tx_pkts] at hc1
          split at hc1
          · split at hc1
            · cases hc1
              rw [get_set_scripts, if_neg hkk]
            · cases hc1
          · cases hc1
            rw [get_set_scripts, if_neg hkk]
        · rw [← hname, counterSwitch_parsed c0 k2 value hk2 htx] at hc1
          cases hc1
          rw [get_set_scripts, if_neg hkk]
      · rw [counterSwitch_other c0 f.Name value hp] at hc1
        cases hc1
        rfl
    simp only [countersLoop] at h
    split at h
    · exact ih c0 c htl h
    · split at h
      · split at h
        · exact ih c0 c htl h
        · cases h
      · rename_i value hread
        split at h
        · cases h
        · rename_i c1 hc1
          rw [ih c1 c htl h]
          exact hsw value c1 hc1

theorem countersLoop_withDir_scripts (fs : FS) (dir : String) (listing : List FileInfo)
    (path : String) :
    ∀ (files : List FileInfo) (c0 : AmazonEfaCounters),
      countersLoop (fs.withDir dir listing) path files c0 = countersLoop fs path files c0 := by
  intro files
  induction files with
  | nil => intro c0; rfl
  | cons f files ih =>
    intro c0
    simp only [countersLoop, ih]
    rfl

theorem parseAmazonEfaCounters_withDir_scripts (fs : FS) (portPath : String)
    (listing : List FileInfo) :
    parseAmazonEfaCounters (fs.withDir (filepath.Join [portPath, "hw_counters"]) listing) portPath
      = countersLoop fs (filepath.Join [portPath, "hw_counters"]) listing {} := by
  simp [parseAmazonEfaCounters, FS.withDir]
  exact countersLoop_withDir_scripts fs _ listing _ listing {}

theorem parseAmazonEfaCounters_of_dir_scripts (fs : FS) (portPath : String)
    (files : List FileInfo)
    (hdir : fs.ReadDir (filepath.Join [portPath, "hw_counters"]) = .ok files) :
    parseAmazonEfaCounters fs portPath
      = countersLoop fs (filepath.Join [portPath, "hw_counters"]) files {} := by
  simp [parseAmazonEfaCounters, hdir]


theorem set_get_self_scripts (c : AmazonEfaCounters) (k : Counter) : c.set k (c.get k) = c := by
  cases k <;> rfl

theorem Agree_set (cf : Observability.AmazonEfaCounters) (cr : AmazonEfaCounters) (k : Counter)
    (v : Option Nat) (h : Agree cf cr) : Agree (cf.set k.toFull v) (cr.set k v) := by
  intro k2 hk2
  rw [get_set_scripts, Observability.get_set]
  by_cases e : k2 = k
  · subst e
    simp
  · have : k2.toFull ≠ k.toFull := fun e2 => e (Counter.toFull_injective e2)
    rw [if_neg e, if_neg this]
    exact h k2 hk2

theorem Agree_set_full (cf : Observability.AmazonEfaCounters) (cr : AmazonEfaCounters)
    (kf : Observability.Counter) (v : Option Nat) (h : Agree cf cr)
    (hkf : kf.fileName ∉ parsedNames) : Agree (cf.set kf v) cr := by
  intro k2 hk2
  rw [Observability.get_set]
  have : k2.toFull ≠ kf := by
    intro e
    apply hkf
    rw [← e, Counter.toFull_fileName]
    exact mem_parsedNames.2 ⟨k2, hk2, rfl⟩
  rw [if_neg this]
  exact h k2 hk2

/-- The two loops, run on the same files, keep the common fields equal as long
as neither returns an error. -/
theorem countersLoop_agree (fs : FS) (path : String) :
    ∀ (files : List FileInfo) (cf0 cf : Observability.AmazonEfaCounters)
      (cr0 cr : AmazonEfaCounters), Agree cf0 cr0 →
      Observability.countersLoop fs path files cf0 = .ok cf →
      countersLoop fs path files cr0 = .ok cr → Agree cf cr := by
  intro files
  induction files with
  | nil =>
    intro cf0 cf cr0 cr h0 h1 h2
    simp [Observability.countersLoop] at h1
    simp [countersLoop] at h2
    subst h1 h2
    exact h0
  | cons f files ih =>
    intro cf0 cf cr0 cr h0 h1 h2
    by_cases hreg : f.IsRegular = true
    · cases hread : fs.SysReadFile (filepath.Join [path, f.Name]) with
      | error err =>
        by_cases hskip : skipReadError err = true
        · rw [Observability.countersLoop_cons_skip fs path f files cf0 err hreg hread hskip] at h1
          rw [countersLoop_cons_skip_scripts fs path f files cr0
            (Or.inr ⟨err, hread, hskip⟩)] at h2
          exact ih _ _ _ _ h0 h1 h2
        · rw [Observability.countersLoop_cons_fatal fs path f files cf0 err hreg hread
            (by simpa using hskip)] at h1
          cases h1
      | ok value =>
        rw [Observability.countersLoop_cons_read fs path f files cf0 value hreg hread] at h1
        rw [countersLoop_cons_read_scripts fs path f files cr0 value hreg hread] at h2
        split at h1
        · by_cases hp : f.Name ∈ parsedNames
          · obtain ⟨k, hk, hname⟩ := mem_parsedNames.1 hp
            have hfull : f.Name = k.toFull.fileName := by rw [Counter.toFull_fileName, hname]
            rw [hfull, Observability.counterSwitch_known] at h1
            have hnext : counterSwitch cr0 f.Name value =
                .ok (cr0.set k (parseUInt64 value).1) ∨
                ∃ e, counterSwitch cr0 f.Name value = .error e := by
              by_cases htx : k = .TxPkts
              · subst htx
                rw [← hname, show Counter.fileName .TxPkts = "tx_pkts" from rfl,
                  counterSwitch_tx_pkts]
                split
                · split
                  · exact Or.inl rfl
                  · exact Or.inr ⟨_, rfl⟩
                · exact Or.inl rfl
              · rw [← hname, counterSwitch_parsed cr0 k value hk htx]
                exact Or.inl rfl
            rcases hnext with hn | ⟨e, hn⟩
            · rw [hn] at h2
              exact ih _ _ _ _ (Agree_set cf0 cr0 k _ h0) h1 h2
            · rw [hn] at h2
              cases h2
          · rw [counterSwitch_other cr0 f.Name value hp] at h2
            by_cases hkn : f.Name ∈ Observability.knownNames
            · obtain ⟨kf, hkf⟩ := Observability.mem_knownNames.1 hkn
              rw [← hkf, Observability.counterSwitch_known] at h1
              exact ih _ _ _ _ (Agree_set_full cf0 cr0 kf _ h0 (by rw [hkf]; exact hp)) h1 h2
            · rw [Observability.counterSwitch_unknown cf0 f.Name value hkn] at h1
              exact ih _ _ _ _ h0 h1 h2
        · cases h1
    · have hreg2 : f.IsRegular = false := by simpa using hreg
      simp only [Observability.countersLoop, hreg2, if_true] at h1
      rw [countersLoop_cons_skip_scripts fs path f files cr0 (Or.inl hreg2)] at h2
      exact ih _ _ _ _ h0 h1 h2


/-- The reduced switch returns a counter set unless the name is `tx_pkts` and
the text is neither a number nor holds the sentinel. -/
theorem counterSwitch_returns (c : AmazonEfaCounters) (name text : String)
    (h : name = "tx_pkts" → WellFormedText text) : ∃ c1, counterSwitch c name text = .ok c1 := by
  by_cases hn : name ∈ parsedNames
  · obtain ⟨k, hk, rfl⟩ := mem_parsedNames.1 hn
    by_cases htx : k = .TxPkts
    · subst htx
      rw [show Counter.fileName .TxPkts = "tx_pkts" from rfl, counterSwitch_tx_pkts]
      rcases h rfl with ⟨v, hv⟩ | hs
      · refine ⟨c.set .TxPkts (some v), ?_⟩
        simp [parseUInt64, hv]
      · refine ⟨c.set .TxPkts (parseUInt64 text).1, ?_⟩
        cases (parseUInt64 text).2 with
        | none => rfl
        | some err => simp [hs]
    · exact ⟨_, counterSwitch_parsed c k text hk htx⟩
  · exact ⟨_, counterSwitch_other c name text hn⟩

/-- The reduced loop returns a counter set when no read fails fatally and the
text of `tx_pkts` is well-formed. -/
theorem countersLoop_returns_scripts (fs : FS) (path : String) :
    ∀ (files : List FileInfo) (c0 : AmazonEfaCounters),
      (∀ f ∈ files, f.IsRegular = true →
        (∃ err, fs.SysReadFile (filepath.Join [path, f.Name]) = .error err ∧
          skipReadError err = true) ∨
        ∃ text, fs.SysReadFile (filepath.Join [path, f.Name]) = .ok text ∧
          (f.Name = "tx_pkts" → WellFormedText text)) →
      ∃ c, countersLoop fs path files c0 = .ok c := by
  intro files
  induction files with
  | nil => intro c0 _; exact ⟨c0, rfl⟩
  | cons f files ih =>
    intro c0 hfiles
    have htl := fun g hg => hfiles g (List.mem_cons_of_mem f hg)
    by_cases hreg : f.IsRegular = true
    · rcases hfiles f (List.mem_cons_self _ _) hreg with hskip | ⟨text, hread, hwf⟩
      · rw [countersLoop_cons_skip_scripts fs path f files c0 (Or.inr hskip)]
        exact ih c0 htl
      · obtain ⟨c1, hc1⟩ := counterSwitch_returns c0 f.Name text hwf
        rw [countersLoop_cons_read_scripts fs path f files c0 text hreg hread, hc1]
        exact ih c1 htl
    · have hreg2 : f.IsRegular = false := by simpa using hreg
      rw [countersLoop_cons_skip_scripts fs path f files c0 (Or.inl hreg2)]
      exact ih c0 htl

/-- The full loop returns a counter set when no read fails fatally and the
texts of the files its switch names are well-formed. -/
theorem countersLoop_returns_full (fs : FS) (path : String) :
    ∀ (files : List FileInfo) (c0 : Observability.AmazonEfaCounters),
      (∀ f ∈ files, f.IsRegular = true →
        (∃ err, fs.SysReadFile (filepath.Join [path, f.Name]) = .error err ∧
          skipReadError err = true) ∨
        ∃ text, fs.SysReadFile (filepath.Join [path, f.Name]) = .ok text ∧
          (f.Name ∈ Observability.knownNames → WellFormedText text)) →
      ∃ c, Observability.countersLoop fs path files c0 = .ok c := by
  intro files
  induction files with
  | nil => intro c0 _; exact ⟨c0, rfl⟩
  | cons f files ih =>
    intro c0 hfiles
    have htl := fun g hg => hfiles g (List.mem_cons_of_mem f hg)
    by_cases hreg : f.IsRegular = true
    · rcases hfiles f (List.mem_cons_self _ _) hreg with ⟨err, hread, hskip⟩ | ⟨text, hread, hwf⟩
      · rw [Observability.countersLoop_cons_skip fs path f files c0 err hreg hread hskip]
        exact ih c0 htl
      · rw [Observability.countersLoop_cons_read fs path f files c0 text hreg hread]
        have hgo : (Observability.counterSwitch c0 f.Name text).2 = none ∨
            strings.Contains text noPMA = true := by
          by_cases hk : f.Name ∈ Observability.knownNames
          · obtain ⟨k, hname⟩ := Observability.mem_knownNames.1 hk
            rw [← hname, Observability.counterSwitch_known]
            rcases hwf hk with ⟨v, hv⟩ | hs
            · left
              simp [parseUInt64, hv]
            · exact Or.inr hs
          · left
            rw [Observability.counterSwitch_unknown c0 f.Name text hk]
        rw [if_pos hgo]
        exact ih _ htl
    · have hreg2 : f.IsRegular = false := by simpa using hreg
      simp only [Observability.countersLoop, hreg2, if_true]
      exact ih c0 htl

theorem nodup_middle_names (pre post : List FileInfo) (f : FileInfo)
    (h : ((pre ++ f :: post).map FileInfo.Name).Nodup) :
    ((pre ++ post).map FileInfo.Name).Nodup ∧ ∀ g ∈ pre ++ post, g.Name ≠ f.Name := by
  rw [List.map_append, List.map_cons] at h
  have hmid := List.nodup_middle.1 h
  rw [← List.map_append] at hmid
  exact ⟨(List.nodup_cons.1 hmid).2,
    fun g hg e => (List.nodup_cons.1 hmid).1 (List.mem_map.2 ⟨g, hg, e⟩)⟩

/-- C14. The two parsers on one hw_counters directory (names unique).
(a) A regular file named by a case of the reduced switch other than `tx_pkts`
whose text is not parsed and does not contain the sentinel: the reduced parser
goes on as if the file were not there and leaves the field absent, and it
returns a counter set when no read of another file fails fatally and the text
of `tx_pkts` is well-formed; the full parser returns an error, the wrapped
parse error when the files before were processed.  (b) Whenever both parsers
return a counter set, the fields that both assign hold equal values.  (c) When
no read fails fatally and every file named by a case of the reduced switch is
well-formed, the reduced parser returns a counter set; the full parser does so
too, with equal values, when the files named by its other cases are
well-formed as well. -/
theorem parsers_differ (fs : FS) (portPath : String) (files : List FileInfo)
    (hdir : fs.ReadDir (filepath.Join [portPath, "hw_counters"]) = .ok files)
    (hnodup : (files.map FileInfo.Name).Nodup) :
    (∀ (pre post : List FileInfo) (f : FileInfo) (k : Counter) (text : String) (e : GoError),
      files = pre ++ f :: post → f.IsRegular = true → k ∈ Counter.parsed → k ≠ .TxPkts →
      f.Name = k.fileName →
      fs.SysReadFile (filepath.Join [filepath.Join [portPath, "hw_counters"], f.Name])
        = .ok text →
      strconv.ParseUint text 0 64 = .error e → strings.Contains text noPMA = false →
      parseAmazonEfaCounters fs portPath =
        parseAmazonEfaCounters
          (fs.withDir (filepath.Join [portPath, "hw_counters"]) (pre ++ post)) portPath ∧
      (∀ c, parseAmazonEfaCounters fs portPath = .ok c → c.get k = none) ∧
      ((∀ g ∈ pre ++ post, g.IsRegular = true →
          (∃ err,
            fs.SysReadFile (filepath.Join [filepath.Join [portPath, "hw_counters"], g.Name])
              = .error err ∧ skipReadError err = true) ∨
          ∃ t, fs.SysReadFile (filepath.Join [filepath.Join [portPath, "hw_counters"], g.Name])
              = .ok t ∧ (g.Name = "tx_pkts" → WellFormedText t)) →
        ∃ c, parseAmazonEfaCounters fs portPath = .ok c ∧ c.get k = none) ∧
      (∃ err, Observability.parseAmazonEfaCounters fs portPath = .error err) ∧
      (∀ c, Observability.countersLoop fs (filepath.Join [portPath, "hw_counters"]) pre {}
          = .ok c →
        Observability.parseAmazonEfaCounters fs portPath =
          .error (.wrap ("failed to parse counter " ++ f.Name ++ " with value " ++
            strconv.Quote text ++ ": ") e))) ∧
    (∀ (cf : Observability.AmazonEfaCounters) (cr : AmazonEfaCounters),
      Observability.parseAmazonEfaCounters fs portPath = .ok cf →
      parseAmazonEfaCounters fs portPath = .ok cr →
      ∀ k ∈ Counter.parsed, cr.get k = cf.get k.toFull) ∧
    ((∀ f ∈ files, f.IsRegular = true →
        (∃ err,
          fs.SysReadFile (filepath.Join [filepath.Join [portPath, "hw_counters"], f.Name])
            = .error err ∧ skipReadError err = true) ∨
        ∃ text, fs.SysReadFile (filepath.Join [filepath.Join [portPath, "hw_counters"], f.Name])
            = .ok text ∧ (f.Name ∈ parsedNames → WellFormedText text)) →
      ∃ cr, parseAmazonEfaCounters fs portPath = .ok cr ∧
        ((∀ f ∈ files, f.IsRegular = true → f.Name ∈ Observability.knownNames → ∀ text,
            fs.SysReadFile (filepath.Join [filepath.Join [portPath, "hw_counters"], f.Name])
              = .ok text → WellFormedText text) →
          ∃ cf, Observability.parseAmazonEfaCounters fs portPath = .ok cf ∧
            ∀ k ∈ Counter.parsed, cr.get k = cf.get k.toFull)) := by
  have hagree : ∀ (cf : Observability.AmazonEfaCounters) (cr : AmazonEfaCounters),
      Observability.parseAmazonEfaCounters fs portPath = .ok cf →
      parseAmazonEfaCounters fs portPath = .ok cr →
      ∀ k ∈ Counter.parsed, cr.get k = cf.get k.toFull := by
    intro cf cr h1 h2
    rw [Observability.parseAmazonEfaCounters_of_dir fs portPath files hdir] at h1
    rw [parseAmazonEfaCounters_of_dir_scripts fs portPath files hdir] at h2
    exact countersLoop_agree fs _ files {} cf {} cr
      (fun k _ => by rw [get_empty_scripts, Observability.get_empty]) h1 h2
  refine ⟨?_, hagree, ?_⟩
  · intro pre post f k text e hfiles hreg hk htx hname hread hparse hsent
    subst hfiles
    obtain ⟨_, hfree0⟩ := nodup_middle_names pre post f hnodup
    have hfree : ∀ g ∈ pre ++ post, g.Name ≠ k.fileName := by
      intro g hg
      rw [← hname]
      exact hfree0 g hg
    have hp : parseUInt64 text = (none, some e) := by simp [parseUInt64, hparse]
    have heq : parseAmazonEfaCounters fs portPath =
        parseAmazonEfaCounters
          (fs.withDir (filepath.Join [portPath, "hw_counters"]) (pre ++ post)) portPath := by
      rw [parseAmazonEfaCounters_withDir_scripts,
        parseAmazonEfaCounters_of_dir_scripts fs portPath _ hdir,
        countersLoop_append_scripts, countersLoop_append_scripts]
      cases hpre : countersLoop fs (filepath.Join [portPath, "hw_counters"]) pre {} with
      | error err => rfl
      | ok c =>
        have hnone : c.get k = none := by
          rw [countersLoop_get_frame_scripts fs _ k pre {} c
            (fun g hg => hfree g (List.mem_append_left _ hg)) hpre, get_empty_scripts]
        show countersLoop fs _ (f :: post) c = countersLoop fs _ post c
        rw [countersLoop_cons_read_scripts fs _ f post c text hreg hread, hname,
          counterSwitch_parsed c k text hk htx, hp]
        show countersLoop fs _ post (c.set k none) = countersLoop fs _ post c
        rw [← hnone, set_get_self_scripts]
    have habsent : ∀ c, parseAmazonEfaCounters fs portPath = .ok c → c.get k = none := by
      intro c hc
      rw [heq, parseAmazonEfaCounters_withDir_scripts] at hc
      rw [countersLoop_get_frame_scripts fs _ k (pre ++ post) {} c hfree hc, get_empty_scripts]
    have hsw : ∀ c : Observability.AmazonEfaCounters,
        Observability.counterSwitch c f.Name text = (c.set k.toFull none, some e) := by
      intro c
      rw [show f.Name = k.toFull.fileName by rw [Counter.toFull_fileName, hname],
        Observability.counterSwitch_known, hp]
    have hfull : ∀ c, Observability.countersLoop fs (filepath.Join [portPath, "hw_counters"])
          pre {} = .ok c →
        Observability.parseAmazonEfaCounters fs portPath =
          .error (.wrap ("failed to parse counter " ++ f.Name ++ " with value " ++
            strconv.Quote text ++ ": ") e) := by
      intro c hpre
      rw [Observability.parseAmazonEfaCounters_of_dir fs portPath _ hdir,
        Observability.countersLoop_append, hpre]
      show Observability.countersLoop fs _ (f :: post) c = _
      rw [Observability.countersLoop_cons_read fs _ f post c text hreg hread, hsw c]
      simp [hsent]
    refine ⟨heq, habsent, ?_, ?_, hfull⟩
    · intro hrest
      obtain ⟨c, hc⟩ := countersLoop_returns_scripts fs
        (filepath.Join [portPath, "hw_counters"]) (pre ++ post) {} hrest
      have hc2 : parseAmazonEfaCounters fs portPath = .ok c := by
        rw [heq, parseAmazonEfaCounters_withDir_scripts, hc]
      exact ⟨c, hc2, habsent c hc2⟩
    · cases hpre : Observability.countersLoop fs (filepath.Join [portPath, "hw_counters"])
          pre {} with
      | error err =>
        refine ⟨err, ?_⟩
        rw [Observability.parseAmazonEfaCounters_of_dir fs portPath _ hdir,
          Observability.countersLoop_append, hpre]
      | ok c => exact ⟨_, hfull c hpre⟩
  · intro hwf
    obtain ⟨cr, hcr⟩ := countersLoop_returns_scripts fs
      (filepath.Join [portPath, "hw_counters"]) files {} (by
        intro f hf hreg
        rcases hwf f hf hreg with hskip | ⟨text, hread, hw⟩
        · exact Or.inl hskip
        · exact Or.inr ⟨text, hread, fun e => hw (by rw [e]; decide)⟩)
    have hcr2 : parseAmazonEfaCounters fs portPath = .ok cr := by
      rw [parseAmazonEfaCounters_of_dir_scripts fs portPath files hdir, hcr]
    refine ⟨cr, hcr2, ?_⟩
    intro hfull
    obtain ⟨cf, hcf⟩ := countersLoop_returns_full fs
      (filepath.Join [portPath, "hw_counters"]) files {} (by
        intro f hf hreg
        rcases hwf f hf hreg with hskip | ⟨text, hread, _⟩
        · exact Or.inl hskip
        · exact Or.inr ⟨text, hread, fun hk => hfull f hf hreg hk text hread⟩)
    have hcf2 : Observability.parseAmazonEfaCounters fs portPath = .ok cf := by
      rw [Observability.parseAmazonEfaCounters_of_dir fs portPath files hdir, hcf]
    exact ⟨cf, hcf2, hagree cf cr hcf2 hcr2⟩

theorem parsers_differ_witness :
    (∃ c, parseAmazonEfaCounters Witness.fsMalformedCounter Witness.port1 = .ok c ∧
      c.RxPkts = none ∧ c.RxBytes = some 12345 ∧ c.TxBytes = some 31) ∧
    Observability.parseAmazonEfaCounters Witness.fsMalformedCounter Witness.port1 =
      .error (.wrap "failed to parse counter rx_pkts with value \"oops\": "
        (.numError "ParseUint" "oops" (.sentinel .ErrSyntax))) ∧
    (∃ cr cf, parseAmazonEfaCounters Witness.fsScenario Witness.port1 = .ok cr ∧
      Observability.parseAmazonEfaCounters Witness.fsScenario Witness.port1 = .ok cf ∧
      cr.RxBytes = cf.RxBytes ∧ cr.RxDrops = cf.RxDrops) := by
  obtain ⟨hdrop, _, _⟩ := parsers_differ Witness.fsMalformedCounter Witness.port1
    [⟨"rx_bytes", true⟩, ⟨"rx_pkts", true⟩, ⟨"tx_bytes", true⟩] (by decide) (by decide)
  obtain ⟨heq, _, hret, _, hfull⟩ := hdrop [⟨"rx_bytes", true⟩] [⟨"tx_bytes", true⟩]
    ⟨"rx_pkts", true⟩ .RxPkts "oops" (.numError "ParseUint" "oops" (.sentinel .ErrSyntax))
    rfl rfl (by decide) (by decide) rfl (by decide) (by decide) (by decide)
  obtain ⟨c, hc, hnone⟩ := hret (by
    intro g hg _
    simp only [List.cons_append, List.nil_append, List.mem_cons, List.mem_singleton,
      List.not_mem_nil, or_false] at hg
    rcases hg with rfl | rfl
    · exact Or.inr ⟨"12345", by decide, fun h => absurd h (by decide)⟩
    · exact Or.inr ⟨"0x1F", by decide, fun h => absurd h (by decide)⟩)
  have hval : parseAmazonEfaCounters Witness.fsMalformedCounter Witness.port1 =
      .ok { RxBytes := some 12345, TxBytes := some 31 } := by
    rw [heq]
    decide
  rw [hval] at hc
  cases hc
  refine ⟨⟨_, hval, rfl, rfl, rfl⟩, hfull { RxBytes := some 12345 } (by decide), ?_⟩
  obtain ⟨_, _, hwell⟩ := parsers_differ Witness.fsScenario Witness.port1
    [⟨"rx_bytes", true⟩, ⟨"rx_drops", true⟩] (by decide) (by decide)
  obtain ⟨cr, hcr, hfullOk⟩ := hwell (by
    intro f hf _
    simp only [List.mem_cons, List.mem_singleton, List.not_mem_nil, or_false] at hf
    rcases hf with rfl | rfl
    · exact Or.inr ⟨"12345", by decide, fun _ => Or.inl ⟨12345, by decide⟩⟩
    · exact Or.inr ⟨"N/A (no PMA)", by decide, fun _ => Or.inr (by decide)⟩)
  obtain ⟨cf, hcf, hag⟩ := hfullOk (by
    intro f hf _ _ text hread
    simp only [List.mem_cons, List.mem_singleton, List.not_mem_nil, or_false] at hf
    rcases hf with rfl | rfl
    · have : (Except.ok "12345" : Except GoError String) = .ok text := hread
      cases this
      exact Or.inl ⟨12345, by decide⟩
    · have : (Except.ok "N/A (no PMA)" : Except GoError String) = .ok text := hread
      cases this
      exact Or.inr (by decide))
  exact ⟨cr, cf, hcr, hcf, hag .RxBytes (by decide), hag .RxDrops (by decide)⟩

end Scripts

/-! ## Ports keyed by their number -/

section PortKeys

variable {κ : Type} (parseCounters : FS → String → Except GoError κ) (fs : FS)

theorem mapInsert_keys {α β : Type} [DecidableEq α] (m : List (α × β)) (k : α) (v : β) (a : α) :
    a ∈ (mapInsert m k v).map Prod.fst ↔ a = k ∨ a ∈ m.map Prod.fst := by
  induction m with
  | nil => simp [mapInsert]
  | cons kv m ih =>
    obtain ⟨k0, v0⟩ := kv
    simp only [mapInsert]
    split
    · rename_i hk
      subst hk
      simp only [List.map_cons, List.mem_cons]
      tauto
    · simp only [List.map_cons, List.mem_cons, ih]
      tauto

theorem mapInsert_mem_self {α β : Type} [DecidableEq α] (m : List (α × β)) (k : α) (v : β) :
    (k, v) ∈ mapInsert m k v := by
  induction m with
  | nil => simp [mapInsert]
  | cons kv m ih =>
    obtain ⟨k0, v0⟩ := kv
    simp only [mapInsert]
    split
    · exact List.mem_cons_self _ _
    · exact List.mem_cons_of_mem _ ih

theorem mapInsert_mem_of_ne {α β : Type} [DecidableEq α] (m : List (α × β)) (k : α) (v : β)
    (e : α × β) (he : e ∈ m) (hne : e.1 ≠ k) : e ∈ mapInsert m k v := by
  induction m with
  | nil => cases he
  | cons kv m ih =>
    obtain ⟨k0, v0⟩ := kv
    simp only [mapInsert]
    rcases List.mem_cons.1 he with h | h
    · subst h
      rw [if_neg hne]
      exact List.mem_cons_self _ _
    · split
      · exact List.mem_cons_of_mem _ h
      · exact List.mem_cons_of_mem _ (ih h)

/-- A port that is parsed carries the number its directory name denotes. -/
theorem parseAmazonEfaPort_decimal (name port : String) (p : AmazonEfaPort κ)
    (h : parseAmazonEfaPort parseCounters fs name port = .ok p) :
    Literal.decimal port = some p.Port :=
  (ParseUint_10_32_decimal port p.Port (parseAmazonEfaPort_ok parseCounters fs name port p h).2).1

theorem portsLoop_cons_ok (name : String) (d : FileInfo) (ds : List FileInfo)
    (m0 m : List (Nat × AmazonEfaPort κ))
    (h : portsLoop parseCounters fs name (d :: ds) m0 = .ok m) :
    ∃ port, parseAmazonEfaPort parseCounters fs name d.Name = .ok port ∧
      portsLoop parseCounters fs name ds (mapInsert m0 port.Port port) = .ok m := by
  simp only [portsLoop] at h
  split at h
  · cases h
  · rename_i port hport
    exact ⟨port, hport, h⟩

/-- The keys after the loop: those before, and the numbers of the listed names. -/
theorem portsLoop_keys (name : String) :
    ∀ (ds : List FileInfo) (m0 m : List (Nat × AmazonEfaPort κ)),
      portsLoop parseCounters fs name ds m0 = .ok m →
      ∀ n, n ∈ m.map Prod.fst ↔
        n ∈ m0.map Prod.fst ∨ ∃ d ∈ ds, Literal.decimal d.Name = some n := by
  intro ds
  induction ds with
  | nil =>
    intro m0 m h n
    simp only [portsLoop, Except.ok.injEq] at h
    subst h
    simp
  | cons d ds ih =>
    intro m0 m h n
    obtain ⟨port, hport, hrest⟩ := portsLoop_cons_ok parseCounters fs name d ds m0 m h
    have hdec := parseAmazonEfaPort_decimal parseCounters fs name d.Name port hport
    rw [ih _ m hrest n, mapInsert_keys]
    simp only [List.mem_cons, exists_eq_or_imp, hdec, Option.some.injEq]
    constructor
    · rintro ((h1 | h1) | h1)
      · exact Or.inr (Or.inl h1.symm)
      · exact Or.inl h1
      · exact Or.inr (Or.inr h1)
    · rintro (h1 | h1 | h1)
      · exact Or.inl (Or.inr h1)
      · exact Or.inl (Or.inl h1.symm)
      · exact Or.inr h1

/-- An entry stays in the map while no later name denotes its key. -/
theorem portsLoop_keep (name : String) :
    ∀ (ds : List FileInfo) (m0 m : List (Nat × AmazonEfaPort κ)),
      portsLoop parseCounters fs name ds m0 = .ok m →
      ∀ e ∈ m0, (∀ d ∈ ds, Literal.decimal d.Name ≠ some e.1) → e ∈ m := by
  intro ds
  induction ds with
  | nil =>
    intro m0 m h e he _
    simp only [portsLoop, Except.ok.injEq] at h
    subst h
    exact he
  | cons d ds ih =>
    intro m0 m h e he hfree
    obtain ⟨port, hport, hrest⟩ := portsLoop_cons_ok parseCounters fs name d ds m0 m h
    have hdec := parseAmazonEfaPort_decimal parseCounters fs name d.Name port hport
    refine ih _ m hrest e (mapInsert_mem_of_ne m0 _ _ e he ?_)
      (fun d' hd' => hfree d' (List.mem_cons_of_mem _ hd'))
    intro heq
    exact hfree d (List.mem_cons_self _ _) (by rw [hdec, heq])

/-- The port stored under a number is the one parsed from the last listed
directory whose name denotes that number. -/
theorem portsLoop_last (name : String) (d : FileInfo) (post : List FileInfo) (n : Nat) :
    ∀ (pre : List FileInfo) (m0 m : List (Nat × AmazonEfaPort κ)),
      portsLoop parseCounters fs name (pre ++ d :: post) m0 = .ok m →
      Literal.decimal d.Name = some n →
      (∀ d' ∈ post, Literal.decimal d'.Name ≠ some n) →
      ∃ port, parseAmazonEfaPort parseCounters fs name d.Name = .ok port ∧ (n, port) ∈ m := by
  intro pre
  induction pre with
  | nil =>
    intro m0 m h hn hfree
    obtain ⟨port, hport, hrest⟩ := portsLoop_cons_ok parseCounters fs name d post m0 m h
    have hdec := parseAmazonEfaPort_decimal parseCounters fs name d.Name port hport
    rw [hn] at hdec
    cases hdec
    exact ⟨port, hport, portsLoop_keep parseCounters fs name post _ m hrest (port.Port, port)
      (mapInsert_mem_self m0 _ _) hfree⟩
  | cons p pre ih =>
    intro m0 m h hn hfree
    obtain ⟨port, _, hrest⟩ := portsLoop_cons_ok parseCounters fs name p (pre ++ d :: post) m0 m h
    exact ih _ m hrest hn hfree

/-- Every listed name is parsed when the loop returns a map. -/
theorem portsLoop_all (name : String) :
    ∀ (ds : List FileInfo) (m0 m : List (Nat × AmazonEfaPort κ)),
      portsLoop parseCounters fs name ds m0 = .ok m →
      ∀ d ∈ ds, ∃ port, parseAmazonEfaPort parseCounters fs name d.Name = .ok port := by
  intro ds
  induction ds with
  | nil => intro m0 m _ d hd; cases hd
  | cons x ds ih =>
    intro m0 m h d hd
    obtain ⟨port, hport, hrest⟩ := portsLoop_cons_ok parseCounters fs name x ds m0 m h
    rcases List.mem_cons.1 hd with e | e
    · subst e
      exact ⟨port, hport⟩
    · exact ih _ m hrest d e

/-- The number of ports is the number of distinct numbers among the names. -/
theorem portsLoop_length (name : String) (ds : List FileInfo) (m : List (Nat × AmazonEfaPort κ))
    (h : portsLoop parseCounters fs name ds [] = .ok m) :
    m.length = (ds.filterMap (fun d => Literal.decimal d.Name)).dedup.length := by
  have hnd : (m.map Prod.fst).Nodup :=
    (portsLoop_wellKeyed parseCounters fs name ds [] m ⟨by simp, by simp⟩ h).1
  have hperm : (m.map Prod.fst).Perm (ds.filterMap (fun d => Literal.decimal d.Name)).dedup := by
    rw [List.perm_ext_iff_of_nodup hnd (List.nodup_dedup _)]
    intro n
    rw [portsLoop_keys parseCounters fs name ds [] m h n, List.mem_dedup, List.mem_filterMap]
    simp
  rw [← hperm.length_eq, List.length_map]

theorem parseAmazonEfaDevice_ports (name : String) (dev : AmazonEfaDevice κ)
    (h : parseAmazonEfaDevice parseCounters fs name = .ok dev) :
    ∃ dirs, fs.ReadDir (filepath.Join [fs.Path [AmazonEfaPath, name], "ports"]) = .ok dirs ∧
      portsLoop parseCounters fs name dirs [] = .ok dev.Ports := by
  unfold parseAmazonEfaDevice at h
  split at h
  · cases h
  · rename_i dirs hdirs
    split at h
    · cases h
    · rename_i m hm
      cases h
      exact ⟨dirs, hdirs, hm⟩

/-- Every device of the class is what `parseAmazonEfaDevice` returns for its key. -/
theorem devicesLoop_mem :
    ∀ (ds : List FileInfo) (ibc0 ibc : AmazonEfaClass κ),
      devicesLoop parseCounters fs ds ibc0 = .ok ibc →
      (∀ e ∈ ibc0, parseAmazonEfaDevice parseCounters fs e.1 = .ok e.2) →
      ∀ e ∈ ibc, parseAmazonEfaDevice parseCounters fs e.1 = .ok e.2 := by
  intro ds
  induction ds with
  | nil =>
    intro ibc0 ibc h h0
    simp only [devicesLoop, Except.ok.injEq] at h
    subst h
    exact h0
  | cons d ds ih =>
    intro ibc0 ibc h h0
    simp only [devicesLoop] at h
    split at h
    · cases h
    · rename_i device hdevice
      refine ih _ ibc h ?_
      intro e he
      rcases mapInsert_keys_subset ibc0 device.Name device e he with h1 | h1
      · subst h1
        have hname := (parseAmazonEfaDevice_ok parseCounters fs d.Name device hdevice).1
        show parseAmazonEfaDevice parseCounters fs device.Name = .ok device
        rw [hname]
        exact hdevice
      · exact h0 e h1

theorem AmazonEfaClass_mem (ibc : AmazonEfaClass κ)
    (h : fs.AmazonEfaClass parseCounters = .ok ibc) :
    ∀ e ∈ ibc, parseAmazonEfaDevice parseCounters fs e.1 = .ok e.2 := by
  unfold FS.AmazonEfaClass at h
  split at h
  · cases h
  · exact devicesLoop_mem parseCounters fs _ [] ibc h (by simp)

end PortKeys

/-! ## The canonical decimal text of a port number -/

section Canonical
open strconv

theorem digitsValue_append (base : Nat) :
    ∀ (xs ys : List Char) (acc : Nat),
      Literal.digitsValue base (xs ++ ys) acc =
        (Literal.digitsValue base xs acc).bind (Literal.digitsValue base ys) := by
  intro xs
  induction xs with
  | nil => intro ys acc; rfl
  | cons x xs ih =>
    intro ys acc
    simp only [List.cons_append, Literal.digitsValue]
    cases Literal.digitValue x with
    | none => rfl
    | some d =>
      by_cases hd : d < base
      · simp only [hd, if_true]
        exact ih ys _
      · simp only [hd, if_false]
        rfl

/-- The digit that `FormatUint` writes for the value of a decimal digit is
that digit, and only the digit `0` has the value 0. -/
theorem digit_of_value (c : Char) (d : Nat) (h : Literal.digitValue c = some d) (hd : d < 10) :
    digits.getD d '0' = c ∧ (d = 0 → c = '0') :=
  digit_cases (fun c d => d < 10 → digits.getD d '0' = c ∧ (d = 0 → c = '0')) (by decide) c d h hd

theorem digitsValue_single (c : Char) (v n : Nat)
    (h : Literal.digitsValue 10 [c] v = some n) :
    ∃ d, Literal.digitValue c = some d ∧ d < 10 ∧ n = v * 10 + d := by
  simp only [Literal.digitsValue] at h
  cases hc : Literal.digitValue c with
  | none => simp [hc] at h
  | some d =>
    simp only [hc] at h
    by_cases hd : d < 10
    · simp only [hd, if_true, Option.some.injEq] at h
      exact ⟨d, rfl, hd, h.symm⟩
    · simp [hd] at h

/-- On a number written in decimal without a leading zero, `formatBits` gives
the digits back. -/
theorem formatBits_canonical :
    ∀ (cs : List Char), cs ≠ [] → cs.head? ≠ some '0' →
      ∀ n, Literal.digitsValue 10 cs 0 = some n →
        1 ≤ n ∧ ∀ (fuel : Nat) (acc : List Char), n < 10 ^ fuel →
          formatBits fuel n 10 acc = cs ++ acc := by
  intro cs
  induction cs using List.reverseRecOn with
  | nil => intro h; exact absurd rfl h
  | append_singleton init c ih =>
    intro _ hhead n hn
    rw [digitsValue_append] at hn
    cases hv : Literal.digitsValue 10 init 0 with
    | none => simp [hv] at hn
    | some v =>
      rw [hv] at hn
      obtain ⟨d, hc, hd, hnv⟩ := digitsValue_single c v n hn
      obtain ⟨hdig, hzero⟩ := digit_of_value c d hc hd
      cases init with
      | nil =>
        simp only [Literal.digitsValue, Option.some.injEq] at hv
        subst hv
        have hne : c ≠ '0' := by
          intro e
          exact hhead (by simp [e])
        have hd0 : d ≠ 0 := fun e => hne (hzero e)
        refine ⟨by omega, ?_⟩
        intro fuel acc hlt
        cases fuel with
        | zero => simp at hlt; omega
        | succ f =>
          have hn10 : n < 10 := by omega
          have hnd : n = d := by omega
          simp only [formatBits, hn10, if_true, List.nil_append, List.singleton_append]
          rw [hnd, hdig]
      | cons x xs =>
        have hhead2 : (x :: xs).head? ≠ some '0' := by
          intro e
          exact hhead (by simpa using e)
        obtain ⟨hv1, hfmt⟩ := ih (by simp) hhead2 v hv
        refine ⟨by omega, ?_⟩
        intro fuel acc hlt
        cases fuel with
        | zero => simp at hlt; omega
        | succ f =>
          have hn10 : ¬ n < 10 := by omega
          have hdiv : n / 10 = v := by omega
          have hmod : n % 10 = d := by omega
          have hvlt : v < 10 ^ f := by
            rw [pow_succ] at hlt
            omega
          simp only [formatBits, hn10, if_false, hdiv, hmod, hdig]
          rw [hfmt f (c :: acc) hvlt]
          simp

/-- The text of a positive number starts with a digit other than `0`. -/
theorem formatBits_head :
    ∀ (fuel u : Nat) (acc : List Char), 0 < u → u < 10 ^ fuel →
      (formatBits fuel u 10 acc).head? ≠ some '0' := by
  intro fuel
  induction fuel with
  | zero => intro u acc h0 h; simp at h; omega
  | succ f ih =>
    intro u acc h0 h
    simp only [formatBits]
    by_cases hu : u < 10
    · simp only [hu, if_true, List.head?_cons, ne_eq, Option.some.injEq]
      have : ∀ u : Nat, u < 10 → 0 < u → digits.getD u '0' ≠ '0' := by decide
      exact this u hu h0
    · simp only [hu, if_false]
      refine ih (u / 10) _ (by omega) ?_
      rw [pow_succ] at h
      omega

/-- The text `FormatUint n 10` is the text `s` that denotes `n` exactly when
`s` has no leading zeros. -/
theorem FormatUint_canonical (s : String) (n : Nat) (hs : Literal.decimal s = some n)
    (hn : n < 2 ^ 64) : FormatUint n 10 = s ↔ Literal.noLeadingZeros s := by
  have hp : (2 : Nat) ^ 64 < 10 ^ 64 := by norm_num
  unfold Literal.decimal at hs
  split at hs
  · cases hs
  · rename_i hne
    constructor
    · intro h
      by_cases h0 : n = 0
      · left
        rw [← h, h0]
        rfl
      · right
        rw [← h]
        exact formatBits_head 64 n [] (by omega) (by omega)
    · intro h
      rcases h with h | h
      · subst h
        have : n = 0 := by
          have : some 0 = some n := hs
          simpa using this.symm
        subst this
        rfl
      · obtain ⟨_, hfmt⟩ := formatBits_canonical s.data hne h n hs
        unfold FormatUint
        rw [hfmt 64 [] (by omega), List.append_nil]

end Canonical

/-! ## Update and the numbers of the ports -/

namespace Scripts
open prometheus

theorem mem_portMetrics_iff (ns : String) (p : AmazonEfaPort AmazonEfaCounters) (m : Metric) :
    m ∈ portMetrics ns p ↔
      ∃ (k : Counter) (v : Nat), p.Counters.get k = some v ∧
        m = counterMetric ns k v p.Name (strconv.FormatUint p.Port 10) := by
  unfold portMetrics
  rw [List.mem_flatMap]
  constructor
  · rintro ⟨k, _, hk⟩
    cases hget : p.Counters.get k with
    | none => simp [hget] at hk
    | some v =>
      simp only [hget, List.mem_singleton] at hk
      exact ⟨k, v, hget, hk⟩
  · rintro ⟨k, v, hget, hm⟩
    refine ⟨k, Counter.mem_all_scripts k, ?_⟩
    simp only [hget, List.mem_singleton]
    exact hm

/-- C16. When the enumeration returns a class, for every device of it: each
name listed in its ports directory is a decimal text; the keys of `Ports` are
pairwise distinct and are exactly the numbers that the listed names denote, so
the number of ports is the number of distinct numbers; the port stored under a
number is the one parsed from the last listed directory whose name denotes it;
and `FormatUint n 10` is the listed name that denotes `n` exactly when the name
has no leading zeros.  `Update` sends, besides the presence metrics, exactly
one sample per port and present counter, labelled with the device name and
`FormatUint` of the port number. -/
theorem Update_ports_by_number (ns : String) (fs : FS) (ibc : AmazonEfaClass AmazonEfaCounters)
    (h : fs.AmazonEfaClass parseAmazonEfaCounters = .ok ibc) :
    (∀ dev ∈ ibc, ∃ dirs,
      fs.ReadDir (filepath.Join [fs.Path [AmazonEfaPath, dev.1], "ports"]) = .ok dirs ∧
      (∀ d ∈ dirs, ∃ n, Literal.decimal d.Name = some n) ∧
      (dev.2.Ports.map Prod.fst).Nodup ∧
      (∀ n, n ∈ dev.2.Ports.map Prod.fst ↔ ∃ d ∈ dirs, Literal.decimal d.Name = some n) ∧
      dev.2.Ports.length = (dirs.filterMap (fun d => Literal.decimal d.Name)).dedup.length ∧
      (∀ pre d post n, dirs = pre ++ d :: post → Literal.decimal d.Name = some n →
        (∀ later ∈ post, Literal.decimal later.Name ≠ some n) →
        ∃ port, parseAmazonEfaPort parseAmazonEfaCounters fs dev.1 d.Name = .ok port ∧
          (n, port) ∈ dev.2.Ports) ∧
      (∀ d ∈ dirs, ∀ n, Literal.decimal d.Name = some n →
        (strconv.FormatUint n 10 = d.Name ↔ Literal.noLeadingZeros d.Name))) ∧
    (∀ m, m ∈ ((NewAmazonEfaCollector ns fs).Update ns).1 ↔
      (∃ dev ∈ ibc, m = infoMetric ns dev.1) ∨
      (∃ dev ∈ ibc, ∃ e ∈ dev.2.Ports, ∃ k v, e.2.Counters.get k = some v ∧
        m = counterMetric ns k v dev.1 (strconv.FormatUint e.1 10))) := by
  have hkeyed := (AmazonEfaClass_wellKeyed parseAmazonEfaCounters fs ibc h).2
  constructor
  · intro dev hdev
    have hparse := AmazonEfaClass_mem parseAmazonEfaCounters fs ibc h dev hdev
    obtain ⟨dirs, hdirs, hloop⟩ := parseAmazonEfaDevice_ports parseAmazonEfaCounters fs dev.1 dev.2 hparse
    have hwk := portsLoop_wellKeyed parseAmazonEfaCounters fs dev.1 dirs [] dev.2.Ports
      ⟨by simp, by simp⟩ hloop
    have hkeys := portsLoop_keys parseAmazonEfaCounters fs dev.1 dirs [] dev.2.Ports hloop
    simp only [List.map_nil, List.not_mem_nil, false_or] at hkeys
    refine ⟨dirs, hdirs, ?_, hwk.1, hkeys,
      portsLoop_length parseAmazonEfaCounters fs dev.1 dirs dev.2.Ports hloop, ?_, ?_⟩
    · intro d hd
      obtain ⟨port, hport⟩ := portsLoop_all parseAmazonEfaCounters fs dev.1 dirs [] dev.2.Ports hloop d hd
      exact ⟨port.Port, parseAmazonEfaPort_decimal parseAmazonEfaCounters fs dev.1 d.Name port hport⟩
    · intro pre d post n hsplit hn hlater
      subst hsplit
      exact portsLoop_last parseAmazonEfaCounters fs dev.1 d post n pre [] dev.2.Ports hloop hn hlater
    · intro d hd n hn
      obtain ⟨e, he, hfst⟩ := List.mem_map.1 ((hkeys n).2 ⟨d, hd, hn⟩)
      have hlt : n < 2 ^ 32 := by
        rw [← hfst]
        exact (hwk.2 e he).2.2
      exact FormatUint_canonical d.Name n hn (by omega)
  · intro m
    rw [Update_ok ns fs ibc h]
    simp only [List.mem_flatMap, List.mem_cons, mem_portMetrics_iff]
    constructor
    · rintro ⟨dev, hdev, hm | ⟨e, he, k, v, hget, hm⟩⟩
      · left
        refine ⟨dev, hdev, ?_⟩
        rw [hm, (hkeyed dev hdev).1]
      · right
        refine ⟨dev, hdev, e, he, k, v, hget, ?_⟩
        obtain ⟨hname, hports⟩ := hkeyed dev hdev
        obtain ⟨hport, hpname, _⟩ := hports.2 e he
        rw [hm, hpname, hname, hport]
    · rintro (⟨dev, hdev, hm⟩ | ⟨dev, hdev, e, he, k, v, hget, hm⟩)
      · refine ⟨dev, hdev, Or.inl ?_⟩
        rw [hm, (hkeyed dev hdev).1]
      · refine ⟨dev, hdev, Or.inr ⟨e, he, k, v, hget, ?_⟩⟩
        obtain ⟨hname, hports⟩ := hkeyed dev hdev
        obtain ⟨hport, hpname, _⟩ := hports.2 e he
        rw [hm, hpname, hname, hport]

theorem Update_ports_by_number_witness :
    Witness.fsSameNumber.AmazonEfaClass parseAmazonEfaCounters = .ok Witness.sameNumberClass ∧
    (∃ port, parseAmazonEfaPort parseAmazonEfaCounters Witness.fsSameNumber "efa0" "01"
        = .ok port ∧ port = Witness.sameNumberPort) ∧
    (strconv.FormatUint 1 10 = "1" ∧ strconv.FormatUint 1 10 ≠ "01") ∧
    (counterMetric "node" .RxBytes 222 "efa0" "1" ∈
      ((NewAmazonEfaCollector "node" Witness.fsSameNumber).Update "node").1) := by
  have hclass : Witness.fsSameNumber.AmazonEfaClass parseAmazonEfaCounters =
      .ok Witness.sameNumberClass := by decide
  obtain ⟨hdevs, hsamples⟩ := Update_ports_by_number "node" Witness.fsSameNumber
    Witness.sameNumberClass hclass
  obtain ⟨dirs, hdirs, _, _, _, hlen, hlast, hcanon⟩ :=
    hdevs ("efa0", { Name := "efa0", Ports := [(1, Witness.sameNumberPort)] }) (by decide)
  have hd : dirs = [⟨"1", false⟩, ⟨"01", false⟩] := by
    have : (Except.ok [⟨"1", false⟩, ⟨"01", false⟩] : Except GoError (List FileInfo)) = .ok dirs :=
      hdirs
    cases this
    rfl
  subst hd
  refine ⟨hclass, ?_, ?_, ?_⟩
  · obtain ⟨port, hport, hmem⟩ := hlast [⟨"1", false⟩] ⟨"01", false⟩ [] 1 rfl (by decide)
      (by simp)
    refine ⟨port, hport, ?_⟩
    simpa using hmem
  · constructor
    · exact (hcanon ⟨"1", false⟩ (by decide) 1 (by decide)).2 (by decide)
    · exact fun e => absurd ((hcanon ⟨"01", false⟩ (by decide) 1 (by decide)).1 e) (by decide)
  · exact (hsamples _).2 (Or.inr ⟨_, List.mem_singleton.2 rfl, (1, Witness.sameNumberPort),
      List.mem_singleton.2 rfl, .RxBytes, 222, rfl, rfl⟩)

end Scripts

/-! ## The value of a sample above 2^53 -/

namespace Scripts
open prometheus

/-- C7, the claim as first stated at an input: with `rx_bytes` at 2^53 + 1 the
field holds 9007199254740993 and the one `rx_bytes` sample that `Update` sends
has the value 9007199254740992. -/
theorem Update_counter_rounded :
    Witness.fsBigCounter.AmazonEfaClass parseAmazonEfaCounters = .ok Witness.bigCounterClass ∧
    (NewAmazonEfaCollector "node" Witness.fsBigCounter).Update "node" =
      ([infoMetric "node" "efa0",
        { desc := some { fqName := "node_amazonefa_rx_bytes", help := "Number of bytes received",
                         variableLabels := ["device", "port"] }
          valueType := .CounterValue, value := 9007199254740992,
          labelValues := ["efa0", "1"] }], none) ∧
    (9007199254740992 : Nat) ≠ 9007199254740993 := by
  decide

end Scripts

/-! ## A bad port name after other entries -/

namespace Scripts

theorem Update_bad_port_name_witness :
    parseAmazonEfaPort parseAmazonEfaCounters Witness.fsNoRoot "efa0" "4294967296" =
      .error (.plain "failed to convert 4294967296 into uint") ∧
    (NewAmazonEfaCollector "node" Witness.fsBadPortLater).Update "node" =
      ([], some (.wrap "error obtaining AmazonEfa class info: "
        (.plain "failed to convert abc into uint"))) := by
  have h1 := Update_bad_port_name (NewAmazonEfaCollector "node" Witness.fsBadPort) "node"
    [] [] [⟨"abc", false⟩] [] ⟨"efa0", false⟩ ⟨"4294967296", false⟩
    (by intro v hv; have e : Literal.decimal "4294967296" = some 4294967296 := by decide
        rw [e] at hv; cases hv; norm_num)
    (by decide) (by decide)
  have h2 := Update_bad_port_name (NewAmazonEfaCollector "node" Witness.fsBadPortLater) "node"
    [⟨"efa0", false⟩] [] [⟨"1", false⟩] [] ⟨"efa1", false⟩ ⟨"abc", false⟩
    (by intro v hv; have e : Literal.decimal "abc" = none := by decide
        rw [e] at hv; cases hv)
    (by decide) (by decide)
  refine ⟨h1.1 Witness.fsNoRoot "efa0", ?_⟩
  have h3 := h2.2.2.2.2.2
    (by
      intro g hg
      rw [List.mem_singleton] at hg
      subst hg
      exact ⟨{ Name := "efa0", Ports := [(1, Witness.plainPort "efa0" 1 {})] }, by decide⟩)
    (by
      intro q hq
      rw [List.mem_singleton] at hq
      subst hq
      exact ⟨Witness.plainPort "efa1" 1 {}, by decide⟩)
  exact Prod.ext h2.2.2.2.1 h3.1

/-- C11, the claim as first stated at an input: the device lists the port
directories `1` and `abc`, and `1` has no `state` file.  The name `abc` is no
number, yet `Update` returns `ErrNoData`. -/
theorem Update_missing_state_before_bad_port :
    Witness.fsMissingStateThenBadPort.ReadDir "/sys/class/infiniband/efa0/ports" =
      .ok [⟨"1", false⟩, ⟨"abc", false⟩] ∧
    strconv.ParseUint "abc" 10 32 =
      .error (.numError "ParseUint" "abc" (.sentinel .ErrSyntax)) ∧
    Witness.fsMissingStateThenBadPort.AmazonEfaClass parseAmazonEfaCounters =
      .error (.pathError "open" "/sys/class/infiniband/efa0/ports/1/state"
        (.errno syscall.ENOENT)) ∧
    (NewAmazonEfaCollector "node" Witness.fsMissingStateThenBadPort).Update "node" =
      ([], some ErrNoData) := by
  decide

end Scripts

/-! ## A malformed state file -/

section QuotedPath
open strconv

theorem appendEscapedRune_plain (c : Char)
    (h : 0x20 ≤ c.toNat ∧ c.toNat < 0x7F ∧ c.toNat ≠ 34 ∧ c.toNat ≠ 92) :
    appendEscapedRune c = [c] := by
  obtain ⟨h1, h2, h3, h4⟩ := h
  have e1 : ¬ (c = Char.ofNat 34 ∨ c = Char.ofNat 92) := by
    rintro (e | e)
    · exact h3 (by rw [e]; rfl)
    · exact h4 (by rw [e]; rfl)
  have e2 : IsPrint c.toNat = true := by
    unfold IsPrint
    rw [if_pos (by omega), if_pos ⟨h1, h2⟩]
  unfold appendEscapedRune
  rw [if_neg e1, if_pos e2]

/-- No character of a plain text is escaped. -/
theorem Quote_plain (s : String) (h : PlainText s) :
    (Quote s).data = Char.ofNat 34 :: (s.data ++ [Char.ofNat 34]) := by
  have hflat : ∀ l : List Char,
      (∀ c ∈ l, 0x20 ≤ c.toNat ∧ c.toNat < 0x7F ∧ c.toNat ≠ 34 ∧ c.toNat ≠ 92) →
      l.flatMap appendEscapedRune = l := by
    intro l
    induction l with
    | nil => intro _; rfl
    | cons c l ih =>
      intro hl
      rw [List.flatMap_cons, appendEscapedRune_plain c (hl c (List.mem_cons_self _ _)),
        ih (fun x hx => hl x (List.mem_cons_of_mem _ hx))]
      rfl
  unfold Quote
  rw [hflat s.data h]

/-- The message of an error that wraps another after a text ending in the
quoted form of a plain path contains the path. -/
theorem quoted_path_in_message (pre path post : String) (h : PlainText path) :
    strings.Contains (pre ++ Quote path ++ post) path = true := by
  unfold strings.Contains
  rw [String.data_append, String.data_append, Quote_plain path h]
  have e : pre.data ++ Char.ofNat 34 :: (path.data ++ [Char.ofNat 34]) ++ post.data =
      (pre.data ++ [Char.ofNat 34]) ++ (path.data ++ ([Char.ofNat 34] ++ post.data)) := by
    simp
  rw [e]
  exact containsList_append _ _ _

/-- The message of the error for a state file that is not parsed names the
port directory, when the path is a plain text. -/
theorem state_error_names_path (path : String) (e : GoError) (h : PlainText path) :
    strings.Contains
      (GoError.wrap ("could not parse state file in " ++ Quote path ++ ": ") e).Error
      path = true ∧
    strings.Contains
      (GoError.wrap "error obtaining AmazonEfa class info: "
        (GoError.wrap ("could not parse state file in " ++ Quote path ++ ": ") e)).Error
      path = true := by
  constructor
  · have h1 := quoted_path_in_message "could not parse state file in " path (": " ++ e.Error) h
    simp only [GoError.Error]
    have e1 : "could not parse state file in " ++ Quote path ++ ": " ++ e.Error =
        "could not parse state file in " ++ Quote path ++ (": " ++ e.Error) := by
      apply String.ext
      simp [String.data_append]
    rw [e1]
    exact h1
  · have h1 := quoted_path_in_message
      "error obtaining AmazonEfa class info: could not parse state file in " path
      (": " ++ e.Error) h
    simp only [GoError.Error]
    have e1 : "error obtaining AmazonEfa class info: " ++
          ("could not parse state file in " ++ Quote path ++ ": " ++ e.Error) =
        "error obtaining AmazonEfa class info: could not parse state file in " ++ Quote path ++
          (": " ++ e.Error) := by
      apply String.ext
      simp [String.data_append]
    rw [e1]
    exact h1

end QuotedPath

namespace Scripts

/-- C12. A port whose `state` file is read but not parsed stops the
enumeration, on either counter parser: an error and no class is returned, and
`Update` sends nothing and returns an error.  When the devices and ports
listed before are parsed, the enumeration error is the one that wraps the
state parser's error after the quoted port directory, and `Update` returns
`ErrNoData` if the state parser's error is a not-exist error and the fatal
error that wraps the enumeration error otherwise.  When, besides, the path of
the port directory is a plain text (none of its characters is escaped between
the quotes), the message of the error returned, by the enumeration and by
`Update`, contains that path. -/
theorem Update_bad_state (c : AmazonEfaCollector) (ns : String)
    (dpre dpost ppre ppost : List FileInfo) (d p : FileInfo) (n : Nat) (content : String)
    (e : GoError)
    (hroot : c.fs.ReadDir (c.fs.Path [AmazonEfaPath]) = .ok (dpre ++ d :: dpost))
    (hports : c.fs.ReadDir (filepath.Join [c.fs.Path [AmazonEfaPath, d.Name], "ports"]) =
      .ok (ppre ++ p :: ppost))
    (hnum : strconv.ParseUint p.Name 10 32 = .ok n)
    (hread : c.fs.ReadFile
      (filepath.Join [c.fs.Path [AmazonEfaPath, d.Name, "ports", p.Name], "state"]) = .ok content)
    (hstate : c.fs.parseState content = .error e) :
    (∀ {κ : Type} (parseCounters : FS → String → Except GoError κ),
      (∃ E, c.fs.AmazonEfaClass parseCounters = .error E) ∧
      ((∀ g ∈ dpre, ∃ dev, parseAmazonEfaDevice parseCounters c.fs g.Name = .ok dev) →
        (∀ q ∈ ppre, ∃ port, parseAmazonEfaPort parseCounters c.fs d.Name q.Name = .ok port) →
        c.fs.AmazonEfaClass parseCounters =
          .error (.wrap ("could not parse state file in " ++
            strconv.Quote (c.fs.Path [AmazonEfaPath, d.Name, "ports", p.Name]) ++ ": ") e) ∧
        (strconv.PlainText (c.fs.Path [AmazonEfaPath, d.Name, "ports", p.Name]) →
          ∀ E, c.fs.AmazonEfaClass parseCounters = .error E →
            strings.Contains E.Error (c.fs.Path [AmazonEfaPath, d.Name, "ports", p.Name])
              = true))) ∧
    (c.Update ns).1 = [] ∧ (∃ err, (c.Update ns).2 = some err) ∧
    ((∀ g ∈ dpre, ∃ dev, parseAmazonEfaDevice parseAmazonEfaCounters c.fs g.Name = .ok dev) →
      (∀ q ∈ ppre, ∃ port,
        parseAmazonEfaPort parseAmazonEfaCounters c.fs d.Name q.Name = .ok port) →
      (errors.Is e .ErrNotExist = true → (c.Update ns).2 = some ErrNoData) ∧
      (errors.Is e .ErrNotExist = false →
        (c.Update ns).2 = some (.wrap "error obtaining AmazonEfa class info: "
          (.wrap ("could not parse state file in " ++
            strconv.Quote (c.fs.Path [AmazonEfaPath, d.Name, "ports", p.Name]) ++ ": ") e)) ∧
        (c.Update ns).2 ≠ some ErrNoData ∧
        (strconv.PlainText (c.fs.Path [AmazonEfaPath, d.Name, "ports", p.Name]) →
          ∀ err, (c.Update ns).2 = some err →
            strings.Contains err.Error (c.fs.Path [AmazonEfaPath, d.Name, "ports", p.Name])
              = true))) := by
  have henum : ∀ {κ : Type} (parseCounters : FS → String → Except GoError κ),
      (∃ E, c.fs.AmazonEfaClass parseCounters = .error E) ∧
      ((∀ g ∈ dpre, ∃ dev, parseAmazonEfaDevice parseCounters c.fs g.Name = .ok dev) →
        (∀ q ∈ ppre, ∃ port, parseAmazonEfaPort parseCounters c.fs d.Name q.Name = .ok port) →
        c.fs.AmazonEfaClass parseCounters =
          .error (.wrap ("could not parse state file in " ++
            strconv.Quote (c.fs.Path [AmazonEfaPath, d.Name, "ports", p.Name]) ++ ": ") e)) := by
    intro κ parseCounters
    have hport := parseAmazonEfaPort_bad_state parseCounters c.fs d.Name p.Name n content e
      hnum hread hstate
    obtain ⟨⟨e1, he1⟩, hdfirst⟩ := parseAmazonEfaDevice_port_fails parseCounters c.fs
      d.Name ppre ppost p _ hports hport
    obtain ⟨hex, hcfirst⟩ := AmazonEfaClass_device_fails parseCounters c.fs
      dpre dpost d e1 hroot he1
    refine ⟨hex, ?_⟩
    intro hdevs hprts
    have h1 := hdfirst hprts
    rw [he1] at h1
    cases h1
    exact hcfirst hdevs
  obtain ⟨⟨E, hE⟩, hfirst⟩ := henum parseAmazonEfaCounters
  have hupd := Update_of_error c ns E hE
  refine ⟨?_, by rw [hupd], ⟨_, by rw [hupd]⟩, ?_⟩
  · intro κ parseCounters
    obtain ⟨hex, hid⟩ := henum parseCounters
    refine ⟨hex, ?_⟩
    intro hdevs hprts
    refine ⟨hid hdevs hprts, ?_⟩
    intro hplain E2 hE2
    rw [hid hdevs hprts] at hE2
    cases hE2
    exact (state_error_names_path _ e hplain).1
  · intro hdevs hprts
    have h2 := hfirst hdevs hprts
    rw [hE] at h2
    cases h2
    rw [hupd]
    constructor
    · intro hne
      simp [errors.Is, hne]
    · intro hne
      have hval : (if errors.Is (GoError.wrap ("could not parse state file in " ++
            strconv.Quote (c.fs.Path [AmazonEfaPath, d.Name, "ports", p.Name]) ++ ": ") e)
            .ErrNotExist = true then ErrNoData
          else GoError.wrap "error obtaining AmazonEfa class info: "
            (GoError.wrap ("could not parse state file in " ++
              strconv.Quote (c.fs.Path [AmazonEfaPath, d.Name, "ports", p.Name]) ++ ": ") e)) =
          GoError.wrap "error obtaining AmazonEfa class info: "
            (GoError.wrap ("could not parse state file in " ++
              strconv.Quote (c.fs.Path [AmazonEfaPath, d.Name, "ports", p.Name]) ++ ": ") e) := by
        simp [errors.Is, hne]
      rw [hval]
      refine ⟨rfl, ?_, ?_⟩
      · simp [ErrNoData]
      · intro hplain err herr
        cases herr
        exact (state_error_names_path _ e hplain).2

theorem Update_bad_state_witness :
    Witness.fsBadStateLater.AmazonEfaClass Observability.parseAmazonEfaCounters =
      .error (.wrap "could not parse state file in \"/sys/class/infiniband/efa1/ports/2\": "
        (.plain "failed to split ACTIVE into 'ID: NAME'")) ∧
    (NewAmazonEfaCollector "node" Witness.fsBadStateLater).Update "node" =
      ([], some (.wrap "error obtaining AmazonEfa class info: "
        (.wrap "could not parse state file in \"/sys/class/infiniband/efa1/ports/2\": "
          (.plain "failed to split ACTIVE into 'ID: NAME'")))) ∧
    (∀ err, ((NewAmazonEfaCollector "node" Witness.fsBadStateLater).Update "node").2 = some err →
      strings.Contains err.Error "/sys/class/infiniband/efa1/ports/2" = true) := by
  have h := Update_bad_state (NewAmazonEfaCollector "node" Witness.fsBadStateLater) "node"
    [⟨"efa0", false⟩] [] [⟨"1", false⟩] [] ⟨"efa1", false⟩ ⟨"2", false⟩ 2 "ACTIVE"
    (.plain "failed to split ACTIVE into 'ID: NAME'")
    (by decide) (by decide) (by decide) (by decide) (by decide)
  have hfull := (h.1 Observability.parseAmazonEfaCounters).2
    (by
      intro g hg
      rw [List.mem_singleton] at hg
      subst hg
      exact ⟨{ Name := "efa0", Ports := [(1, Witness.plainPort "efa0" 1 {})] }, by decide⟩)
    (by
      intro q hq
      rw [List.mem_singleton] at hq
      subst hq
      exact ⟨Witness.plainPort "efa1" 1 {}, by decide⟩)
  have h5 := (h.2.2.2
    (by
      intro g hg
      rw [List.mem_singleton] at hg
      subst hg
      exact ⟨{ Name := "efa0", Ports := [(1, Witness.plainPort "efa0" 1 {})] }, by decide⟩)
    (by
      intro q hq
      rw [List.mem_singleton] at hq
      subst hq
      exact ⟨Witness.plainPort "efa1" 1 {}, by decide⟩)).2 (by decide)
  exact ⟨hfull.1, Prod.ext h.2.1 h5.1, h5.2.2 (by decide)⟩

/-- C12, the claim as first stated at an input: `efa0` has no `ports` directory
and is listed before `efa1`, whose port `1` has a `state` file that is read and
not parsed.  The enumeration error names the `ports` directory of `efa0`, its
message does not contain the path of the port, and `Update` returns
`ErrNoData`. -/
theorem Update_missing_ports_before_bad_state :
    Witness.fsMissingPortsThenBadState.ReadFile "/sys/class/infiniband/efa1/ports/1/state" =
      .ok "ACTIVE" ∧
    Witness.fsMissingPortsThenBadState.parseState "ACTIVE" =
      .error (.plain "failed to split ACTIVE into 'ID: NAME'") ∧
    Witness.fsMissingPortsThenBadState.AmazonEfaClass Observability.parseAmazonEfaCounters =
      .error (.wrap "failed to list AmazonEfa ports at \"/sys/class/infiniband/efa0/ports\": "
        (.pathError "open" "/sys/class/infiniband/efa0/ports" (.errno syscall.ENOENT))) ∧
    strings.Contains
      (GoError.wrap "failed to list AmazonEfa ports at \"/sys/class/infiniband/efa0/ports\": "
        (.pathError "open" "/sys/class/infiniband/efa0/ports" (.errno syscall.ENOENT))).Error
      "/sys/class/infiniband/efa1/ports/1" = false ∧
    (NewAmazonEfaCollector "node" Witness.fsMissingPortsThenBadState).Update "node" =
      ([], some ErrNoData) := by
  decide

end Scripts
